import Mathlib

/-!
# Object hierarchy serializer (SML `UObjectHierarchySerializer`)

A shallow embedding of `ObjectHierarchySerializer.cpp`:

* engine containers (`TMap`, `FJsonObject`) are association lists in insertion order;
* engine objects live in a heap (`List UObject`), an object pointer is `Option ObjectId`;
* the serializer's members and the heap form one explicit `FSession` state;
* `check`/`checkf`/`FindChecked` failures and `UE_LOG(..., Fatal, ...)` are `Run.fatal`;
* each recursive method is a `...Body` taking the recursive call as an argument, and the method
  itself ties the knot over a fuel argument that bounds the depth of recursive calls; exhaustion
  is `Run.outOfFuel`, so a call that recurses without end is out of fuel for every budget;
* `int32` indices are `Int` (overflow of `LastObjectIndex` is out of reach: one object per index);
* the Property Codec (`UPropertySerializer`) is a parameter of every method.
-/

namespace SML

/-! ## Engine containers -/

/-- Result of running a piece of serializer code. -/
inductive Run (α : Type) where
  | done (a : α)
  | fatal (why : String)
  | outOfFuel
  deriving DecidableEq

namespace Run

/-- Sequencing: a fatal error or fuel exhaustion stops the run. -/
def bind {α β : Type} (r : Run α) (f : α → Run β) : Run β :=
  match r with
  | done a => f a
  | fatal w => fatal w
  | outOfFuel => outOfFuel

end Run

/-- Engine `TMap`: key/value pairs in insertion order, one pair per key. -/
abbrev TMap (κ ν : Type) := List (κ × ν)

namespace TMap

variable {κ ν : Type}

/-- Engine `TMap::Find`: the value stored under the key, if any. -/
def Find [DecidableEq κ] : TMap κ ν → κ → Option ν
  | [], _ => none
  | (k, v) :: rest, key => if k = key then some v else Find rest key

/-- Engine `TMap::Contains`. -/
def Contains [DecidableEq κ] (m : TMap κ ν) (key : κ) : Bool :=
  (Find m key).isSome

/-- Engine `TMap::Add`: replaces the value of an existing key in place, otherwise appends. -/
def Add [DecidableEq κ] : TMap κ ν → κ → ν → TMap κ ν
  | [], key, val => [(key, val)]
  | (k, v) :: rest, key, val =>
    if k = key then (k, val) :: rest else (k, v) :: Add rest key val

/-- Engine `TMap::FindKey`: the first key (in iteration order) holding the value. -/
def FindKey [DecidableEq ν] : TMap κ ν → ν → Option κ
  | [], _ => none
  | (k, v) :: rest, val => if v = val then some k else FindKey rest val

end TMap

/-! ## JSON -/

/-- Engine `FJsonValue` (numbers are the `int32` values the serializer stores). -/
inductive FJsonValue where
  | Null
  | Number (n : Int)
  | String (s : String)
  | Array (xs : List FJsonValue)
  | Object (fields : List (String × FJsonValue))

/-- Engine `FJsonObject`: the `Values` map. -/
abbrev FJsonObject := TMap String FJsonValue

namespace FJsonObject

/-- Engine `FJsonObject::HasField`. -/
def HasField (o : FJsonObject) (name : String) : Bool := TMap.Contains o name

/-- Engine `FJsonObject::SetField`. -/
def SetField (o : FJsonObject) (name : String) (v : FJsonValue) : FJsonObject :=
  TMap.Add o name v

/-- Engine `FJsonObject::GetStringField`: a missing or non-string field reads as the empty string
(the engine logs and returns a default-constructed `FString`). -/
def GetStringField (o : FJsonObject) (name : String) : String :=
  match TMap.Find o name with
  | some (FJsonValue.String s) => s
  | _ => ""

/-- Engine `FJsonObject::GetIntegerField`: a missing or non-number field reads as `0`. -/
def GetIntegerField (o : FJsonObject) (name : String) : Int :=
  match TMap.Find o name with
  | some (FJsonValue.Number n) => n
  | _ => 0

/-- Engine `FJsonObject::GetObjectField`: `none` is the invalid shared pointer. -/
def GetObjectField (o : FJsonObject) (name : String) : Option FJsonObject :=
  match TMap.Find o name with
  | some (FJsonValue.Object fs) => some fs
  | _ => none

/-- Engine `FJsonValue::AsNumber` on an array element. -/
def AsNumber : FJsonValue → Int
  | FJsonValue.Number n => n
  | _ => 0

/-- Engine `FJsonObject::GetArrayField`: a missing or non-array field reads as the empty array. -/
def GetArrayField (o : FJsonObject) (name : String) : List FJsonValue :=
  match TMap.Find o name with
  | some (FJsonValue.Array xs) => xs
  | _ => []

end FJsonObject

/-! ## Object runtime -/

/-- Identity of an engine object: its position in the heap. -/
abbrev ObjectId := Nat

/-- The sentinel `INDEX_NONE`. -/
def INDEX_NONE : Int := -1

/-- Live value of a reflected property inside an object. -/
inductive PropertyValue where
  | Int (n : Int)
  | Object (o : Option ObjectId)
  deriving DecidableEq, Repr

/-- Engine `FProperty`: what the serializer itself reads is the name; `PropertyFlags` is for the
property codec. -/
structure FProperty where
  Name : String
  PropertyFlags : Nat
  deriving DecidableEq, Repr

/-- Engine `UObject`. Class objects (`IsClass`) carry their `PropertyLink` list and the class of
their hierarchy that implements native `Serialize`. -/
structure UObject where
  Name : String
  Outer : Option ObjectId
  Class : ObjectId
  Flags : Nat
  IsClass : Bool
  PropertyLink : List FProperty
  ClassWithSerialize : ObjectId
  Values : TMap String PropertyValue
  deriving DecidableEq, Repr

/-- Event written by `UE_LOG(LogObjectHierarchySerializer, Error, ...)`. -/
inductive LogEntry where
  | InvalidIndex (Index : Int)
  | CannotResolveObjectClass (ObjectClassIndex : Int)
  | CannotResolveOuterObject (OuterObjectIndex : Int)
  | CannotResolvePackage (ObjectName : String)
  | CannotFindObject (ObjectName : String)
  | CannotResolveClass (PackageName ClassName : String)
  deriving DecidableEq, Repr

/-- The serializer object together with the engine state it reads and writes. -/
structure FSession where
  /-- Engine heap: `Objects[i]` is the object with identity `i`. -/
  Objects : List UObject
  /-- The class object `UPackage::StaticClass()`. -/
  PackageClass : ObjectId
  /-- The engine's `RF_Load` flag mask. -/
  RF_Load : Nat
  SourcePackage : Option ObjectId
  ObjectMarks : TMap ObjectId String
  ObjectIndices : TMap ObjectId Int
  SerializedObjects : TMap Int FJsonObject
  LoadedObjects : TMap Int (Option ObjectId)
  LastObjectIndex : Nat
  AllowedNativeSerializeClasses : List ObjectId
  /-- The static `UnhandledNativeClasses` set. -/
  UnhandledNativeClasses : List String
  /-- Output of `UE_LOG` at `Error` verbosity, oldest first. -/
  Log : List LogEntry

/-- The null object read through a dangling pointer. -/
def NullObject : UObject :=
  { Name := "", Outer := none, Class := 0, Flags := 0, IsClass := false, PropertyLink := [],
    ClassWithSerialize := 0, Values := [] }

/-- Dereference an object pointer. -/
def GetObject (st : FSession) (o : ObjectId) : UObject := st.Objects.getD o NullObject

/-- Walk of `UObjectBaseUtility::GetOutermost` along the outer chain, bounded by the heap size. -/
def GetOutermostAux (objs : List UObject) : Nat → ObjectId → ObjectId
  | 0, o => o
  | n + 1, o =>
    match (objs.getD o NullObject).Outer with
    | none => o
    | some p => GetOutermostAux objs n p

/-- Engine `UObject::GetOutermost`. -/
def GetOutermost (st : FSession) (o : ObjectId) : ObjectId :=
  GetOutermostAux st.Objects st.Objects.length o

/-- Engine `FProperty::ContainerPtrToValuePtr` followed by a read of the value. -/
def GetPropertyValue (st : FSession) (o : ObjectId) (name : String) : PropertyValue :=
  (TMap.Find (GetObject st o).Values name).getD (PropertyValue.Int 0)

/-- Modelled from the spec: the Property Codec (`UPropertySerializer`, whose source is not part
of the serializer file). Each operation is split into the calls it makes back into the
serializer (a list fixed by the property and the value) and a pure function of their results. -/
structure UPropertySerializer where
  /-- Codec `ShouldSerializeProperty`. -/
  ShouldSerializeProperty : FProperty → Bool
  /-- Objects handed to `SerializeObject` by `SerializePropertyValue`, in call order. -/
  SerializedSubobjects : FProperty → PropertyValue → List (Option ObjectId)
  /-- Result of `SerializePropertyValue`, given the indices `SerializeObject` returned. -/
  Encode : FProperty → PropertyValue → List Int → FJsonValue
  /-- Contents of the `OutReferencedSubobjects` array after `SerializePropertyValue`, given the
  returned indices and the contents before. -/
  Referenced : FProperty → PropertyValue → List Int → List Int → List Int
  /-- Indices handed to `DeserializeObject` by `DeserializePropertyValue`, in call order. -/
  DeserializedIndices : FProperty → FJsonValue → List Int
  /-- Value written by `DeserializePropertyValue`, given the resolved objects and the old value. -/
  Decode : FProperty → FJsonValue → List (Option ObjectId) → PropertyValue → PropertyValue
  /-- Pairs handed to `CompareUObjects` by `ComparePropertyValues`, in call order. -/
  ComparedObjects : FProperty → FJsonValue → PropertyValue → List (Int × Option ObjectId)
  /-- Result of `ComparePropertyValues`, given the results of the object comparisons. -/
  Compare : FProperty → FJsonValue → PropertyValue → List Bool → Bool

/-! ## Session set-up -/

/-- Constructor of `UObjectHierarchySerializer` on a given heap. `AllowedClasses` is the list
added by `UObject::StaticClass()` and `APPEND_DEFAULT_SERIALIZABLE_NATIVE_CLASSES`. -/
def NewSerializer (Objects : List UObject) (PackageClass : ObjectId) (RF_Load : Nat)
    (AllowedClasses : List ObjectId) : FSession :=
  { Objects := Objects, PackageClass := PackageClass, RF_Load := RF_Load, SourcePackage := none,
    ObjectMarks := [],
    ObjectIndices := [], SerializedObjects := [], LoadedObjects := [], LastObjectIndex := 0,
    AllowedNativeSerializeClasses := AllowedClasses, UnhandledNativeClasses := [], Log := [] }

/-- Loop of `InitializeForDeserialization`: `SerializedObjects.Add(i, ObjectsArray[i])`. -/
def AddSerializedObjects : TMap Int FJsonObject → Nat → List FJsonObject → TMap Int FJsonObject
  | m, _, [] => m
  | m, i, r :: rest => AddSerializedObjects (TMap.Add m (i : Int) r) (i + 1) rest

/-- Method `InitializeForDeserialization`. -/
def InitializeForDeserialization (st : FSession) (ObjectsArray : List FJsonObject) : FSession :=
  { st with
    LastObjectIndex := ObjectsArray.length
    SerializedObjects := AddSerializedObjects st.SerializedObjects 0 ObjectsArray }

/-- Method `InitializeForSerialization`. -/
def InitializeForSerialization (st : FSession) (NewSourcePackage : ObjectId) : FSession :=
  { st with SourcePackage := some NewSourcePackage }

/-- Method `SetPackageForDeserialization`. -/
def SetPackageForDeserialization (st : FSession) (SelfPackage : ObjectId) : FSession :=
  { st with SourcePackage := some SelfPackage }

/-- Method `AllowNativeClassSerialization` (`AddUnique`). -/
def AllowNativeClassSerialization (st : FSession) (ClassToAllow : ObjectId) : FSession :=
  if ClassToAllow ∈ st.AllowedNativeSerializeClasses then st
  else
    { st with
      AllowedNativeSerializeClasses := st.AllowedNativeSerializeClasses ++ [ClassToAllow] }

/-- Method `SetObjectMark`. -/
def SetObjectMark (st : FSession) (Object : ObjectId) (ObjectMark : String) : FSession :=
  { st with ObjectMarks := TMap.Add st.ObjectMarks Object ObjectMark }

/-! ## Serialization -/

/-- The record stored under an index (the object a `ResultJson` pointer refers to). -/
def GetRecord (st : FSession) (Index : Int) : FJsonObject :=
  (TMap.Find st.SerializedObjects Index).getD []

/-- A `ResultJson->Set...Field` call on the shared record stored under `Index`. -/
def SetRecordField (st : FSession) (Index : Int) (name : String) (v : FJsonValue) : FSession :=
  { st with
    SerializedObjects :=
      TMap.Add st.SerializedObjects Index (FJsonObject.SetField (GetRecord st Index) name v) }

/-- Lines 58-64 of `SerializeObject`: take the next index, enter the object in `ObjectIndices`
and store a record holding `ObjectIndex`. -/
def AllocateObject (st : FSession) (Object : ObjectId) : FSession :=
  { st with
    LastObjectIndex := st.LastObjectIndex + 1
    ObjectIndices := TMap.Add st.ObjectIndices Object (st.LastObjectIndex : Int)
    SerializedObjects :=
      TMap.Add st.SerializedObjects (st.LastObjectIndex : Int)
        [("ObjectIndex", FJsonValue.Number (st.LastObjectIndex : Int))] }

/-- Method `SerializeImportedObject`; `ser` is the recursive `SerializeObject`. -/
def SerializeImportedObject (ser : FSession → Option ObjectId → Run (Int × FSession))
    (st : FSession) (ResultJson : Int) (Object : ObjectId) : Run FSession :=
  let ObjectClass := (GetObject st Object).Class
  let st1 := SetRecordField st ResultJson "ClassPackage"
    (FJsonValue.String (GetObject st (GetOutermost st ObjectClass)).Name)
  let st2 := SetRecordField st1 ResultJson "ClassName"
    (FJsonValue.String (GetObject st ObjectClass).Name)
  match (GetObject st Object).Outer with
  | some OuterObject =>
    (ser st2 (some OuterObject)).bind fun r =>
      Run.done (SetRecordField (SetRecordField r.2 ResultJson "Outer" (FJsonValue.Number r.1))
        ResultJson "ObjectName" (FJsonValue.String (GetObject st Object).Name))
  | none =>
    Run.done (SetRecordField st2 ResultJson "ObjectName"
      (FJsonValue.String (GetObject st Object).Name))

/-- Calls of `SerializeObject` made by the codec for the sub-objects of one value. -/
def SerializeSubobjects (ser : FSession → Option ObjectId → Run (Int × FSession)) :
    FSession → List (Option ObjectId) → Run (List Int × FSession)
  | st, [] => Run.done ([], st)
  | st, o :: os =>
    (ser st o).bind fun r =>
      (SerializeSubobjects ser r.2 os).bind fun rs => Run.done (r.1 :: rs.1, rs.2)

/-- Property loop of `SerializeObjectPropertiesIntoObject` from a given `PropertyLink` position;
carries the `Properties` object and the `ReferencedSubobjects` array. -/
def SerializePropertyLink (c : UPropertySerializer)
    (ser : FSession → Option ObjectId → Run (Int × FSession)) (Object : ObjectId) :
    List FProperty → FSession → FJsonObject → List Int → Run ((FJsonObject × List Int) × FSession)
  | [], st, Properties, Referenced => Run.done ((Properties, Referenced), st)
  | Property :: Next, st, Properties, Referenced =>
    if c.ShouldSerializeProperty Property then
      (SerializeSubobjects ser st
          (c.SerializedSubobjects Property (GetPropertyValue st Object Property.Name))).bind fun r =>
        SerializePropertyLink c ser Object Next r.2
          (FJsonObject.SetField Properties Property.Name
            (c.Encode Property (GetPropertyValue st Object Property.Name) r.1))
          (c.Referenced Property (GetPropertyValue st Object Property.Name) r.1 Referenced)
    else SerializePropertyLink c ser Object Next st Properties Referenced

/-- Method `SerializeObjectPropertiesIntoObject`. -/
def SerializeObjectPropertiesIntoObject (c : UPropertySerializer)
    (ser : FSession → Option ObjectId → Run (Int × FSession)) (st : FSession) (Object : ObjectId)
    (Properties : FJsonObject) : Run (FJsonObject × FSession) :=
  (SerializePropertyLink c ser Object (GetObject st (GetObject st Object).Class).PropertyLink st
      Properties []).bind fun r =>
    Run.done (FJsonObject.SetField r.1.1 "$ReferencedObjects"
      (FJsonValue.Array (r.1.2.map FJsonValue.Number)), r.2)

/-- Method `SerializeObjectProperties`. -/
def SerializeObjectProperties (c : UPropertySerializer)
    (ser : FSession → Option ObjectId → Run (Int × FSession)) (st : FSession) (Object : ObjectId) :
    Run (FJsonObject × FSession) :=
  SerializeObjectPropertiesIntoObject c ser st Object []

/-- Lines 470-475 of `SerializeExportedObject`: record a natively serializing class that is not
on the allow-list in `UnhandledNativeClasses` (a set). -/
def NoteNativeClass (st : FSession) (ObjectClass : ObjectId) : FSession :=
  if (GetObject st ObjectClass).ClassWithSerialize ∈ st.AllowedNativeSerializeClasses then st
  else if (GetObject st (GetObject st ObjectClass).ClassWithSerialize).Name
      ∈ st.UnhandledNativeClasses then st
  else { st with
    UnhandledNativeClasses := st.UnhandledNativeClasses ++
      [(GetObject st (GetObject st ObjectClass).ClassWithSerialize).Name] }

/-- Method `SerializeExportedObject`; `ser` is the recursive `SerializeObject`. -/
def SerializeExportedObject (c : UPropertySerializer)
    (ser : FSession → Option ObjectId → Run (Int × FSession))
    (st : FSession) (ResultJson : Int) (Object : ObjectId) : Run FSession :=
  let ObjectClass := (GetObject st Object).Class
  (ser st (some ObjectClass)).bind fun rc =>
    let st1 := SetRecordField rc.2 ResultJson "ObjectClass" (FJsonValue.Number rc.1)
    match (GetObject st Object).Outer with
    | none =>
      if ObjectClass = st.PackageClass then Run.done st1
      else Run.fatal "check(ObjectClass == UPackage::StaticClass())"
    | some OuterObject =>
      (ser st1 (some OuterObject)).bind fun ro =>
        let st2 := SetRecordField ro.2 ResultJson "Outer" (FJsonValue.Number ro.1)
        let st3 := SetRecordField st2 ResultJson "ObjectName"
          (FJsonValue.String (GetObject st Object).Name)
        let st4 := SetRecordField st3 ResultJson "ObjectFlags"
          (FJsonValue.Number (((GetObject st Object).Flags &&& st.RF_Load : Nat) : Int))
        let st5 := NoteNativeClass st4 ObjectClass
        (SerializeObjectProperties c ser st5 Object).bind fun rp =>
          Run.done (SetRecordField rp.2 ResultJson "Properties" (FJsonValue.Object rp.1))

/-- Body of method `SerializeObject`; `ser` is the recursive `SerializeObject`. -/
def SerializeObjectBody (c : UPropertySerializer)
    (ser : FSession → Option ObjectId → Run (Int × FSession)) (st : FSession) :
    Option ObjectId → Run (Int × FSession)
  | none => Run.done (INDEX_NONE, st)
  | some Object =>
    match TMap.Find st.ObjectIndices Object with
    | some ObjectIndex => Run.done (ObjectIndex, st)
    | none =>
      let NewObjectIndex : Int := (st.LastObjectIndex : Int)
      let st1 := AllocateObject st Object
      if some (GetOutermost st Object) ≠ st.SourcePackage then
        (SerializeImportedObject ser
            (SetRecordField st1 NewObjectIndex "Type" (FJsonValue.String "Import"))
            NewObjectIndex Object).bind fun st2 => Run.done (NewObjectIndex, st2)
      else
        let st2 := SetRecordField st1 NewObjectIndex "Type" (FJsonValue.String "Export")
        match TMap.Find st.ObjectMarks Object with
        | some ObjectMark =>
          Run.done (NewObjectIndex,
            SetRecordField st2 NewObjectIndex "ObjectMark" (FJsonValue.String ObjectMark))
        | none =>
          (SerializeExportedObject c ser st2 NewObjectIndex Object).bind
            fun st3 => Run.done (NewObjectIndex, st3)

/-- Method `SerializeObject`. The first argument bounds the depth of recursive calls. -/
def SerializeObject (c : UPropertySerializer) :
    Nat → FSession → Option ObjectId → Run (Int × FSession)
  | 0, _, _ => Run.outOfFuel
  | fuel + 1, st, Object => SerializeObjectBody c (SerializeObject c fuel) st Object

/-- Loop of `FinalizeSerialization` over the indices `i, i+1, ...` (`n` of them). -/
def FinalizeLoop (m : TMap Int FJsonObject) : Nat → Nat → Run (List FJsonObject)
  | _, 0 => Run.done []
  | i, n + 1 =>
    match TMap.Find m (i : Int) with
    | none => Run.fatal "Object not in serialized objects"
    | some r => (FinalizeLoop m (i + 1) n).bind fun rest => Run.done (r :: rest)

/-- Method `FinalizeSerialization`. -/
def FinalizeSerialization (st : FSession) : Run (List FJsonObject) :=
  FinalizeLoop st.SerializedObjects 0 st.LastObjectIndex

/-! ## Object runtime lookups used by deserialization -/

/-- A `UE_LOG(..., Error, ...)` call (the formatted text is not modelled, the event is). -/
def LogError (st : FSession) (e : LogEntry) : FSession :=
  { st with Log := st.Log ++ [e] }

/-- Engine `Cast<UClass>`. -/
def CastClass (st : FSession) : Option ObjectId → Option ObjectId
  | none => none
  | some o => if (GetObject st o).IsClass then some o else none

/-- First heap position from `i` on whose object satisfies `p`. -/
def FindObjectFrom (p : UObject → Bool) : List UObject → Nat → Option ObjectId
  | [], _ => none
  | o :: rest, i => if p o then some i else FindObjectFrom p rest (i + 1)

/-- Engine `StaticFindObjectFast(Class, Outer, Name)`: the object of that class and name directly
inside the outer. -/
def StaticFindObjectFast (st : FSession) (ObjectClass Outer : ObjectId) (Name : String) :
    Option ObjectId :=
  FindObjectFrom (fun o => o.Outer = some Outer ∧ o.Name = Name ∧ o.Class = ObjectClass)
    st.Objects 0

/-- Engine `FindObjectFast<UClass>(Package, Name)`. -/
def FindClassFast (st : FSession) (Package : ObjectId) (Name : String) : Option ObjectId :=
  FindObjectFrom (fun o => o.Outer = some Package ∧ o.Name = Name ∧ o.IsClass = true)
    st.Objects 0

/-- Engine `LoadPackage(NULL, Name, LOAD_None)`: the packages that can be loaded are the package
objects of the heap. -/
def LoadPackage (st : FSession) (Name : String) : Option ObjectId :=
  FindObjectFrom (fun o => o.Outer = none ∧ o.Name = Name ∧ o.Class = st.PackageClass)
    st.Objects 0

/-- Engine `GetArchetypeFromRequiredInfo` and `StaticConstructObject_Internal`: a new object at
the end of the heap, with default property values. -/
def StaticConstructObject (st : FSession) (ObjectClass Outer : ObjectId) (Name : String)
    (ObjectLoadFlags : Nat) : ObjectId × FSession :=
  (st.Objects.length,
    { st with
      Objects := st.Objects ++
        [{ Name := Name, Outer := some Outer, Class := ObjectClass, Flags := ObjectLoadFlags,
           IsClass := false, PropertyLink := [], ClassWithSerialize := 0, Values := [] }] })

/-- Write through the pointer returned by `ContainerPtrToValuePtr`. -/
def SetPropertyValue (st : FSession) (o : ObjectId) (name : String) (v : PropertyValue) :
    FSession :=
  { st with
    Objects := st.Objects.modify
      (fun obj => { obj with Values := TMap.Add obj.Values name v }) o }

/-! ## Deserialization -/

/-- Calls of `DeserializeObject` made by the codec for the indices of one encoded value. -/
def DeserializeSubobjects (deser : FSession → Int → Run (Option ObjectId × FSession)) :
    FSession → List Int → Run (List (Option ObjectId) × FSession)
  | st, [] => Run.done ([], st)
  | st, i :: is =>
    (deser st i).bind fun r =>
      (DeserializeSubobjects deser r.2 is).bind fun rs => Run.done (r.1 :: rs.1, rs.2)

/-- Property loop of `DeserializeObjectProperties` from a given `PropertyLink` position. -/
def DeserializePropertyLink (c : UPropertySerializer)
    (deser : FSession → Int → Run (Option ObjectId × FSession)) (Properties : FJsonObject)
    (Object : ObjectId) : List FProperty → FSession → Run FSession
  | [], st => Run.done st
  | Property :: Next, st =>
    if c.ShouldSerializeProperty Property ∧ FJsonObject.HasField Properties Property.Name then
      match TMap.Find Properties Property.Name with
      | none => Run.fatal "FindChecked"
      | some ValueObject =>
        (DeserializeSubobjects deser st (c.DeserializedIndices Property ValueObject)).bind fun r =>
          DeserializePropertyLink c deser Properties Object Next
            (SetPropertyValue r.2 Object Property.Name
              (c.Decode Property ValueObject r.1 (GetPropertyValue r.2 Object Property.Name)))
    else DeserializePropertyLink c deser Properties Object Next st

/-- Method `DeserializeObjectProperties`. -/
def DeserializeObjectProperties (c : UPropertySerializer)
    (deser : FSession → Int → Run (Option ObjectId × FSession)) (st : FSession)
    (Properties : FJsonObject) (Object : ObjectId) : Run FSession :=
  DeserializePropertyLink c deser Properties Object
    (GetObject st (GetObject st Object).Class).PropertyLink st

/-- Method `DeserializeExportedObject`; `deser` is the recursive `DeserializeObject`. -/
def DeserializeExportedObject (c : UPropertySerializer)
    (deser : FSession → Int → Run (Option ObjectId × FSession)) (st : FSession)
    (ObjectJson : FJsonObject) : Run (Option ObjectId × FSession) :=
  let ObjectClassIndex := FJsonObject.GetIntegerField ObjectJson "ObjectClass"
  (deser st ObjectClassIndex).bind fun rc =>
    match CastClass rc.2 rc.1 with
    | none => Run.done (none, LogError rc.2 (LogEntry.CannotResolveObjectClass ObjectClassIndex))
    | some ObjectClass =>
      if ¬ FJsonObject.HasField ObjectJson "Outer" then
        if ObjectClass = rc.2.PackageClass then Run.done (rc.2.SourcePackage, rc.2)
        else Run.fatal "check(ObjectClass == UPackage::StaticClass())"
      else
        let OuterObjectIndex := FJsonObject.GetIntegerField ObjectJson "Outer"
        (deser rc.2 OuterObjectIndex).bind fun ro =>
          match ro.1 with
          | none =>
            Run.done (none, LogError ro.2 (LogEntry.CannotResolveOuterObject OuterObjectIndex))
          | some OuterObject =>
            let ObjectName := FJsonObject.GetStringField ObjectJson "ObjectName"
            let Constructed : ObjectId × FSession :=
              match StaticFindObjectFast ro.2 ObjectClass OuterObject ObjectName with
              | some ExistingObject => (ExistingObject, ro.2)
              | none =>
                StaticConstructObject ro.2 ObjectClass OuterObject ObjectName
                  (FJsonObject.GetIntegerField ObjectJson "ObjectFlags").toNat
            if FJsonObject.HasField ObjectJson "Properties" then
              match FJsonObject.GetObjectField ObjectJson "Properties" with
              | some Properties =>
                (DeserializeObjectProperties c deser Constructed.2 Properties Constructed.1).bind
                  fun st3 => Run.done (some Constructed.1, st3)
              | none => Run.done (some Constructed.1, Constructed.2)
            else Run.done (some Constructed.1, Constructed.2)

/-- Method `DeserializeImportedObject`; `deser` is the recursive `DeserializeObject`. -/
def DeserializeImportedObject
    (deser : FSession → Int → Run (Option ObjectId × FSession)) (st : FSession)
    (ObjectJson : FJsonObject) : Run (Option ObjectId × FSession) :=
  let PackageName := FJsonObject.GetStringField ObjectJson "ClassPackage"
  let ClassName := FJsonObject.GetStringField ObjectJson "ClassName"
  match (LoadPackage st PackageName).bind (fun Package => FindClassFast st Package ClassName) with
  | some ObjectClass =>
    let ObjectName := FJsonObject.GetStringField ObjectJson "ObjectName"
    if ¬ FJsonObject.HasField ObjectJson "Outer" then
      if ObjectClass = st.PackageClass then
        match LoadPackage st ObjectName with
        | none => Run.done (none, LogError st (LogEntry.CannotResolvePackage ObjectName))
        | some ResultPackage => Run.done (some ResultPackage, st)
      else Run.fatal "check(ObjectClass == UPackage::StaticClass())"
    else
      let OuterObjectIndex := FJsonObject.GetIntegerField ObjectJson "Outer"
      (deser st OuterObjectIndex).bind fun ro =>
        match ro.1 with
        | none =>
          Run.done (none, LogError ro.2 (LogEntry.CannotResolveOuterObject OuterObjectIndex))
        | some OuterObject =>
          match StaticFindObjectFast ro.2 ObjectClass OuterObject ObjectName with
          | none => Run.done (none, LogError ro.2 (LogEntry.CannotFindObject ObjectName))
          | some ResultObject => Run.done (some ResultObject, ro.2)
  | none => Run.done (none, LogError st (LogEntry.CannotResolveClass PackageName ClassName))

/-- The `LoadedObjects.Add(Index, Object)` call of `DeserializeObject`. -/
def CacheLoadedObject (st : FSession) (Index : Int) (Object : Option ObjectId) : FSession :=
  { st with LoadedObjects := TMap.Add st.LoadedObjects Index Object }

/-- Body of method `DeserializeObject`; `deser` is the recursive `DeserializeObject`. -/
def DeserializeObjectBody (c : UPropertySerializer)
    (deser : FSession → Int → Run (Option ObjectId × FSession)) (st : FSession) (Index : Int) :
    Run (Option ObjectId × FSession) :=
  if Index = INDEX_NONE then Run.done (none, st)
  else
    match TMap.Find st.LoadedObjects Index with
    | some LoadedObject => Run.done (LoadedObject, st)
    | none =>
      match TMap.Find st.SerializedObjects Index with
      | none => Run.done (none, LogError st (LogEntry.InvalidIndex Index))
      | some ObjectJson =>
        if FJsonObject.GetStringField ObjectJson "Type" = "Import" then
          (DeserializeImportedObject deser st ObjectJson).bind fun r =>
            Run.done (r.1, CacheLoadedObject r.2 Index r.1)
        else if FJsonObject.GetStringField ObjectJson "Type" = "Export" then
          if FJsonObject.HasField ObjectJson "ObjectMark" then
            match TMap.FindKey st.ObjectMarks
                (FJsonObject.GetStringField ObjectJson "ObjectMark") with
            | none => Run.fatal "Cannot resolve object serialized using mark"
            | some FoundObject =>
              Run.done (some FoundObject, CacheLoadedObject st Index (some FoundObject))
          else
            (DeserializeExportedObject c deser st ObjectJson).bind fun r =>
              Run.done (r.1, CacheLoadedObject r.2 Index r.1)
        else Run.fatal "Unhandled object type"

/-- Method `DeserializeObject`. The first argument bounds the depth of recursive calls. -/
def DeserializeObject (c : UPropertySerializer) :
    Nat → FSession → Int → Run (Option ObjectId × FSession)
  | 0, _, _ => Run.outOfFuel
  | fuel + 1, st, Index => DeserializeObjectBody c (DeserializeObject c fuel) st Index

/-! ## Comparison -/

/-- Calls of `CompareUObjects` made by the codec for one encoded value. -/
def CompareSubobjects (cmp : Int → Option ObjectId → Run Bool) :
    List (Int × Option ObjectId) → Run (List Bool)
  | [] => Run.done []
  | p :: ps =>
    (cmp p.1 p.2).bind fun b => (CompareSubobjects cmp ps).bind fun bs => Run.done (b :: bs)

/-- Property loop of `AreObjectPropertiesUpToDate` from a given `PropertyLink` position. -/
def ComparePropertyLink (c : UPropertySerializer) (cmp : Int → Option ObjectId → Run Bool)
    (st : FSession) (Properties : FJsonObject) (Object : ObjectId) : List FProperty → Run Bool
  | [] => Run.done true
  | Property :: Next =>
    if c.ShouldSerializeProperty Property ∧ FJsonObject.HasField Properties Property.Name then
      match TMap.Find Properties Property.Name with
      | none => Run.fatal "FindChecked"
      | some ValueObject =>
        (CompareSubobjects cmp (c.ComparedObjects Property ValueObject
            (GetPropertyValue st Object Property.Name))).bind fun bs =>
          if c.Compare Property ValueObject (GetPropertyValue st Object Property.Name) bs then
            ComparePropertyLink c cmp st Properties Object Next
          else Run.done false
    else ComparePropertyLink c cmp st Properties Object Next

/-- Method `AreObjectPropertiesUpToDate`. -/
def AreObjectPropertiesUpToDate (c : UPropertySerializer)
    (cmp : Int → Option ObjectId → Run Bool) (st : FSession) (Properties : FJsonObject)
    (Object : ObjectId) : Run Bool :=
  ComparePropertyLink c cmp st Properties Object
    (GetObject st (GetObject st Object).Class).PropertyLink

/-- Body of method `CompareUObjects`; `cmp` is the recursive `CompareUObjects`. -/
def CompareUObjectsBody (c : UPropertySerializer) (cmp : Int → Option ObjectId → Run Bool)
    (st : FSession) (ObjectIndex : Int) : Option ObjectId → Run Bool
  | none => Run.done (decide (ObjectIndex = INDEX_NONE))
  | some Obj =>
    if ObjectIndex = INDEX_NONE then Run.done false
    else
      match TMap.Find st.SerializedObjects ObjectIndex with
      | none => Run.fatal "FindChecked"
      | some ObjectJson =>
        if FJsonObject.GetStringField ObjectJson "Type" = "Import" then
          if (GetObject st Obj).Name ≠ FJsonObject.GetStringField ObjectJson "ObjectName" then
            Run.done false
          else if FJsonObject.HasField ObjectJson "Outer" then
            cmp (FJsonObject.GetIntegerField ObjectJson "Outer") (GetObject st Obj).Outer
          else Run.done true
        else if FJsonObject.HasField ObjectJson "ObjectMark" then
          match TMap.FindKey st.ObjectMarks
              (FJsonObject.GetStringField ObjectJson "ObjectMark") with
          | none => Run.fatal "Cannot resolve object serialized using mark"
          | some RegisteredObject => Run.done (decide (RegisteredObject = Obj))
        else if (GetObject st Obj).Name ≠ FJsonObject.GetStringField ObjectJson "ObjectName" then
          Run.done false
        else
          (cmp (FJsonObject.GetIntegerField ObjectJson "ObjectClass")
              (some (GetObject st Obj).Class)).bind fun ClassMatches =>
            if ¬ ClassMatches then Run.done false
            else if ¬ FJsonObject.HasField ObjectJson "Outer" then
              Run.done (decide (st.SourcePackage = some Obj))
            else
              (cmp (FJsonObject.GetIntegerField ObjectJson "Outer")
                  (GetObject st Obj).Outer).bind fun OuterMatches =>
                if ¬ OuterMatches then Run.done false
                else if FJsonObject.HasField ObjectJson "Properties" then
                  match FJsonObject.GetObjectField ObjectJson "Properties" with
                  | none => Run.fatal "Properties.ToSharedRef()"
                  | some Properties => AreObjectPropertiesUpToDate c cmp st Properties Obj
                else Run.done true

/-- Method `CompareUObjects`. The first argument bounds the depth of recursive calls. -/
def CompareUObjects (c : UPropertySerializer) :
    Nat → FSession → Int → Option ObjectId → Run Bool
  | 0, _, _, _ => Run.outOfFuel
  | fuel + 1, st, ObjectIndex, Object =>
    CompareUObjectsBody c (CompareUObjects c fuel st) st ObjectIndex Object

/-! ## A concrete codec and concrete heaps -/

/-- Modelled from the spec: a Property Codec for integer and object-reference properties. A
property persists unless `PropertyFlags` is odd (transient); `PropertyFlags / 2` is `0` for an
integer and `1` for an object reference. A non-null object reference is encoded as the index
`SerializeObject` returns for it and that index is appended to the referenced-objects array; a
null reference is encoded as `INDEX_NONE` without a call. -/
def ReferenceCodec : UPropertySerializer where
  ShouldSerializeProperty := fun p => p.PropertyFlags % 2 = 0
  SerializedSubobjects := fun _ v =>
    match v with
    | PropertyValue.Object (some o) => [some o]
    | _ => []
  Encode := fun _ v idxs =>
    match v with
    | PropertyValue.Int n => FJsonValue.Number n
    | PropertyValue.Object _ => FJsonValue.Number (idxs.headD INDEX_NONE)
  Referenced := fun _ _ idxs refs => refs ++ idxs
  DeserializedIndices := fun p j =>
    match j with
    | FJsonValue.Number n => if p.PropertyFlags / 2 = 1 then [n] else []
    | _ => []
  Decode := fun p j objs old =>
    if p.PropertyFlags / 2 = 1 then PropertyValue.Object (objs.headD none)
    else
      match j with
      | FJsonValue.Number n => PropertyValue.Int n
      | _ => old
  ComparedObjects := fun _ j v =>
    match j, v with
    | FJsonValue.Number n, PropertyValue.Object o => [(n, o)]
    | _, _ => []
  Compare := fun _ j v bs =>
    match j, v with
    | FJsonValue.Number n, PropertyValue.Int m => decide (n = m)
    | FJsonValue.Number _, PropertyValue.Object _ => bs.all id
    | _, _ => false

/-- A package object. -/
def MakePackage (Name : String) (PackageClass : ObjectId) : UObject :=
  { Name := Name, Outer := none, Class := PackageClass, Flags := 0, IsClass := false,
    PropertyLink := [], ClassWithSerialize := 0, Values := [] }

/-- A class object inside a package. -/
def MakeClass (Name : String) (Package MetaClass : ObjectId) (Props : List FProperty) : UObject :=
  { Name := Name, Outer := some Package, Class := MetaClass, Flags := 0, IsClass := true,
    PropertyLink := Props, ClassWithSerialize := 0, Values := [] }

/-- A plain object. -/
def MakeObject (Name : String) (Outer Class : ObjectId) (Values : TMap String PropertyValue) :
    UObject :=
  { Name := Name, Outer := some Outer, Class := Class, Flags := 0, IsClass := false,
    PropertyLink := [], ClassWithSerialize := 0, Values := Values }

/-- The heap of the scenario: `0` the package `/Script/CoreUObject` with the classes `1` `Class`
and `2` `Package`; `3` the package `/Game/Widgets` with the classes `4` `Widget` (an integer
`count`) and `7` `Panel` (an object reference `child`); `5` the source package `/Game/P` with
`6` `Foo` (a `Widget`, `count = 5`), `8` `Root` (a `Panel` whose `child` is `9`) and `9` `Leaf`
(a `Widget` whose outer is `Root`). -/
def ScenarioHeap : List UObject :=
  [ MakePackage "/Script/CoreUObject" 2,
    MakeClass "Class" 0 1 [],
    MakeClass "Package" 0 1 [],
    MakePackage "/Game/Widgets" 2,
    MakeClass "Widget" 3 1 [{ Name := "count", PropertyFlags := 0 }],
    MakePackage "/Game/P" 2,
    MakeObject "Foo" 5 4 [("count", PropertyValue.Int 5)],
    MakeClass "Panel" 3 1 [{ Name := "child", PropertyFlags := 2 }],
    MakeObject "Root" 5 7 [("child", PropertyValue.Object (some 9))],
    MakeObject "Leaf" 8 4 [("count", PropertyValue.Int 1)] ]

/-- A fresh serialization session for the source package `/Game/P` of the scenario. -/
def ScenarioSession : FSession :=
  InitializeForSerialization (NewSerializer ScenarioHeap 2 15 [1]) 5

/-- The session state after a run, if it completed. -/
def Run.state? {α : Type} : Run (α × FSession) → Option FSession
  | Run.done r => some r.2
  | _ => none

/-- The value of a run, if it completed. -/
def Run.value? {α : Type} : Run α → Option α
  | Run.done a => some a
  | _ => none

/-- A fresh deserialization session over the heap, marks and source package of `st`, seeded
with a record array. -/
def DeserializationSession (st : FSession) (ObjectsArray : List FJsonObject) : FSession :=
  { InitializeForDeserialization
      (NewSerializer st.Objects st.PackageClass st.RF_Load st.AllowedNativeSerializeClasses)
      ObjectsArray with
    ObjectMarks := st.ObjectMarks
    SourcePackage := st.SourcePackage }

/-- Round trip of one object: serialize it, finalize, deserialize the returned index in a fresh
session seeded with the array, and compare the record with the deserialized object. -/
def RoundTrip (c : UPropertySerializer) (fuel : Nat) (st : FSession) (x : ObjectId) : Run Bool :=
  (SerializeObject c fuel st (some x)).bind fun r =>
    (FinalizeSerialization r.2).bind fun arr =>
      (DeserializeObject c fuel (DeserializationSession r.2 arr) r.1).bind fun d =>
        CompareUObjects c fuel d.2 r.1 d.1

/-- The record stored under the index a completed `SerializeObject` call returned (the empty
object when the call did not complete). -/
def SerializedRecord : Run (Int × FSession) → FJsonObject
  | Run.done r => GetRecord r.2 r.1
  | _ => []

/-- The resolution failures of `DeserializeObject(Index)` for an index that is neither the
sentinel nor cached, each with the heap at the moment the failure is detected: no record; an
Export whose `ObjectClass` index does not resolve to a class; an Export or Import whose `Outer`
index resolves to null; an Import whose class package or class is not found; a package Import
whose package is not found; an Import whose named child is not found in its outer. -/
inductive ResolutionFailure (c : UPropertySerializer) (fuel : Nat) (st : FSession) (Index : Int) :
    List UObject → Prop where
  | noRecord (h : TMap.Find st.SerializedObjects Index = none) :
    ResolutionFailure c fuel st Index st.Objects
  | exportClass (ObjectJson : FJsonObject) (rc : Option ObjectId × FSession)
    (hRecord : TMap.Find st.SerializedObjects Index = some ObjectJson)
    (hType : FJsonObject.GetStringField ObjectJson "Type" = "Export")
    (hMark : FJsonObject.HasField ObjectJson "ObjectMark" = false)
    (hClass : DeserializeObject c fuel st (FJsonObject.GetIntegerField ObjectJson "ObjectClass")
      = Run.done rc)
    (hCast : CastClass rc.2 rc.1 = none) :
    ResolutionFailure c fuel st Index rc.2.Objects
  | exportOuter (ObjectJson : FJsonObject) (rc : Option ObjectId × FSession)
    (ObjectClass : ObjectId) (st2 : FSession)
    (hRecord : TMap.Find st.SerializedObjects Index = some ObjectJson)
    (hType : FJsonObject.GetStringField ObjectJson "Type" = "Export")
    (hMark : FJsonObject.HasField ObjectJson "ObjectMark" = false)
    (hClass : DeserializeObject c fuel st (FJsonObject.GetIntegerField ObjectJson "ObjectClass")
      = Run.done rc)
    (hCast : CastClass rc.2 rc.1 = some ObjectClass)
    (hHasOuter : FJsonObject.HasField ObjectJson "Outer" = true)
    (hOuter : DeserializeObject c fuel rc.2 (FJsonObject.GetIntegerField ObjectJson "Outer")
      = Run.done (none, st2)) :
    ResolutionFailure c fuel st Index st2.Objects
  | importClass (ObjectJson : FJsonObject)
    (hRecord : TMap.Find st.SerializedObjects Index = some ObjectJson)
    (hType : FJsonObject.GetStringField ObjectJson "Type" = "Import")
    (hClass : (LoadPackage st (FJsonObject.GetStringField ObjectJson "ClassPackage")).bind
      (fun Package => FindClassFast st Package (FJsonObject.GetStringField ObjectJson "ClassName"))
      = none) :
    ResolutionFailure c fuel st Index st.Objects
  | importPackage (ObjectJson : FJsonObject)
    (hRecord : TMap.Find st.SerializedObjects Index = some ObjectJson)
    (hType : FJsonObject.GetStringField ObjectJson "Type" = "Import")
    (hClass : (LoadPackage st (FJsonObject.GetStringField ObjectJson "ClassPackage")).bind
      (fun Package => FindClassFast st Package (FJsonObject.GetStringField ObjectJson "ClassName"))
      = some st.PackageClass)
    (hHasOuter : FJsonObject.HasField ObjectJson "Outer" = false)
    (hPackage : LoadPackage st (FJsonObject.GetStringField ObjectJson "ObjectName") = none) :
    ResolutionFailure c fuel st Index st.Objects
  | importOuter (ObjectJson : FJsonObject) (ObjectClass : ObjectId) (st2 : FSession)
    (hRecord : TMap.Find st.SerializedObjects Index = some ObjectJson)
    (hType : FJsonObject.GetStringField ObjectJson "Type" = "Import")
    (hClass : (LoadPackage st (FJsonObject.GetStringField ObjectJson "ClassPackage")).bind
      (fun Package => FindClassFast st Package (FJsonObject.GetStringField ObjectJson "ClassName"))
      = some ObjectClass)
    (hHasOuter : FJsonObject.HasField ObjectJson "Outer" = true)
    (hOuter : DeserializeObject c fuel st (FJsonObject.GetIntegerField ObjectJson "Outer")
      = Run.done (none, st2)) :
    ResolutionFailure c fuel st Index st2.Objects
  | importChild (ObjectJson : FJsonObject) (ObjectClass OuterObject : ObjectId) (st2 : FSession)
    (hRecord : TMap.Find st.SerializedObjects Index = some ObjectJson)
    (hType : FJsonObject.GetStringField ObjectJson "Type" = "Import")
    (hClass : (LoadPackage st (FJsonObject.GetStringField ObjectJson "ClassPackage")).bind
      (fun Package => FindClassFast st Package (FJsonObject.GetStringField ObjectJson "ClassName"))
      = some ObjectClass)
    (hHasOuter : FJsonObject.HasField ObjectJson "Outer" = true)
    (hOuter : DeserializeObject c fuel st (FJsonObject.GetIntegerField ObjectJson "Outer")
      = Run.done (some OuterObject, st2))
    (hChild : StaticFindObjectFast st2 ObjectClass OuterObject
      (FJsonObject.GetStringField ObjectJson "ObjectName") = none) :
    ResolutionFailure c fuel st Index st2.Objects

/-- A deserialization session over the scenario heap for the source package `/Game/P`, seeded
with a record array. -/
def ScenarioDeserialization (ObjectsArray : List FJsonObject) : FSession :=
  SetPackageForDeserialization
    (InitializeForDeserialization (NewSerializer ScenarioHeap 2 15 [1]) ObjectsArray) 5

/-- A record array whose only record is an Export carrying the mark `M`. -/
def MarkedArray : List FJsonObject :=
  [[("ObjectIndex", FJsonValue.Number 0), ("Type", FJsonValue.String "Export"),
    ("ObjectMark", FJsonValue.String "M")]]

/-- A record array with three unresolvable records: `0` an Export whose class index `5` has no
record, `1` an Import of a class `Gadget` that `/Game/Widgets` does not contain, `2` an Import
of the package `/Game/Missing`. -/
def BrokenArray : List FJsonObject :=
  [[("ObjectIndex", FJsonValue.Number 0), ("Type", FJsonValue.String "Export"),
    ("ObjectClass", FJsonValue.Number 5), ("Outer", FJsonValue.Number 2),
    ("ObjectName", FJsonValue.String "Foo")],
   [("ObjectIndex", FJsonValue.Number 1), ("Type", FJsonValue.String "Import"),
    ("ClassPackage", FJsonValue.String "/Game/Widgets"),
    ("ClassName", FJsonValue.String "Gadget"), ("Outer", FJsonValue.Number 2),
    ("ObjectName", FJsonValue.String "Thing")],
   [("ObjectIndex", FJsonValue.Number 2), ("Type", FJsonValue.String "Import"),
    ("ClassPackage", FJsonValue.String "/Script/CoreUObject"),
    ("ClassName", FJsonValue.String "Package"),
    ("ObjectName", FJsonValue.String "/Game/Missing")]]

/-- The record array of a cycle between an object and its sub-object: `0` is `Root`, whose
property `child` references `6`; `6` is `Leaf`, whose `Outer` is `0`. It is the array that
serializing `Root` of the scenario produces. -/
def CyclicArray : List FJsonObject :=
  [[("ObjectIndex", FJsonValue.Number 0), ("Type", FJsonValue.String "Export"),
    ("ObjectClass", FJsonValue.Number 1), ("Outer", FJsonValue.Number 3),
    ("ObjectName", FJsonValue.String "Root"), ("ObjectFlags", FJsonValue.Number 0),
    ("Properties", FJsonValue.Object [("child", FJsonValue.Number 6),
      ("$ReferencedObjects", FJsonValue.Array [FJsonValue.Number 6])])],
   [("ObjectIndex", FJsonValue.Number 1), ("Type", FJsonValue.String "Import"),
    ("ClassPackage", FJsonValue.String "/Script/CoreUObject"),
    ("ClassName", FJsonValue.String "Class"), ("Outer", FJsonValue.Number 2),
    ("ObjectName", FJsonValue.String "Panel")],
   [("ObjectIndex", FJsonValue.Number 2), ("Type", FJsonValue.String "Import"),
    ("ClassPackage", FJsonValue.String "/Script/CoreUObject"),
    ("ClassName", FJsonValue.String "Package"),
    ("ObjectName", FJsonValue.String "/Game/Widgets")],
   [("ObjectIndex", FJsonValue.Number 3), ("Type", FJsonValue.String "Export"),
    ("ObjectClass", FJsonValue.Number 4)],
   [("ObjectIndex", FJsonValue.Number 4), ("Type", FJsonValue.String "Import"),
    ("ClassPackage", FJsonValue.String "/Script/CoreUObject"),
    ("ClassName", FJsonValue.String "Class"), ("Outer", FJsonValue.Number 5),
    ("ObjectName", FJsonValue.String "Package")],
   [("ObjectIndex", FJsonValue.Number 5), ("Type", FJsonValue.String "Import"),
    ("ClassPackage", FJsonValue.String "/Script/CoreUObject"),
    ("ClassName", FJsonValue.String "Package"),
    ("ObjectName", FJsonValue.String "/Script/CoreUObject")],
   [("ObjectIndex", FJsonValue.Number 6), ("Type", FJsonValue.String "Export"),
    ("ObjectClass", FJsonValue.Number 7), ("Outer", FJsonValue.Number 0),
    ("ObjectName", FJsonValue.String "Leaf"), ("ObjectFlags", FJsonValue.Number 0),
    ("Properties", FJsonValue.Object [("count", FJsonValue.Number 1),
      ("$ReferencedObjects", FJsonValue.Array [])])],
   [("ObjectIndex", FJsonValue.Number 7), ("Type", FJsonValue.String "Import"),
    ("ClassPackage", FJsonValue.String "/Script/CoreUObject"),
    ("ClassName", FJsonValue.String "Class"), ("Outer", FJsonValue.Number 2),
    ("ObjectName", FJsonValue.String "Widget")]]

/-- The fresh deserialization session seeded with `CyclicArray`. -/
def CyclicSession : FSession := ScenarioDeserialization CyclicArray

/-- The session `CyclicSession` with a given loaded-object cache. -/
def CyclicSessionWith (LoadedObjects : TMap Int (Option ObjectId)) : FSession :=
  { CyclicSession with LoadedObjects := LoadedObjects }

/-- The cache once the class of `Root` (records `2`, `1`), its outer (records `5`, `4`, `3`) and
the class of `Leaf` (record `7`) are resolved. -/
def CyclicCache : TMap Int (Option ObjectId) :=
  [(2, some 3), (1, some 7), (5, some 0), (4, some 2), (3, some 5), (7, some 4)]

/-! ## Session invariants -/

/-- The index table is a bijection between the indexed objects and the indices
`0 .. LastObjectIndex - 1`, and the record collection has a record for exactly these indices. -/
structure IndexTableWellFormed (st : FSession) : Prop where
  bounded : ∀ x i, TMap.Find st.ObjectIndices x = some i → 0 ≤ i ∧ i < (st.LastObjectIndex : Int)
  injective : ∀ x y i, TMap.Find st.ObjectIndices x = some i →
    TMap.Find st.ObjectIndices y = some i → x = y
  surjective : ∀ i : Int, 0 ≤ i → i < (st.LastObjectIndex : Int) →
    ∃ x, TMap.Find st.ObjectIndices x = some i
  records : ∀ i : Int, TMap.Contains st.SerializedObjects i = true ↔
    (0 ≤ i ∧ i < (st.LastObjectIndex : Int))

/-- What a serialization step may change: the heap, the configuration, the cache and the log
stay as they are, index-table entries and record keys are kept, `LastObjectIndex` does not
decrease, and a well-formed index table stays well-formed. -/
structure Extends (st st' : FSession) : Prop where
  objects : st'.Objects = st.Objects
  packageClass : st'.PackageClass = st.PackageClass
  loadFlags : st'.RF_Load = st.RF_Load
  sourcePackage : st'.SourcePackage = st.SourcePackage
  marks : st'.ObjectMarks = st.ObjectMarks
  loaded : st'.LoadedObjects = st.LoadedObjects
  log : st'.Log = st.Log
  indices : ∀ x i, TMap.Find st.ObjectIndices x = some i →
    TMap.Find st'.ObjectIndices x = some i
  records : ∀ i, TMap.Contains st.SerializedObjects i = true →
    TMap.Contains st'.SerializedObjects i = true
  last : st.LastObjectIndex ≤ st'.LastObjectIndex
  wellFormed : IndexTableWellFormed st → IndexTableWellFormed st'

/-- A field value that refers only to indices having a record: the number stored under
`ObjectClass` or `Outer`, and the entries of `$ReferencedObjects` in a `Properties` object. -/
def SafeField (recs : TMap Int FJsonObject) (name : String) (v : FJsonValue) : Prop :=
  ((name = "ObjectClass" ∨ name = "Outer") →
      ∀ k, v = FJsonValue.Number k → TMap.Contains recs k = true) ∧
    (name = "Properties" → ∀ fs xs, v = FJsonValue.Object fs →
      TMap.Find fs "$ReferencedObjects" = some (FJsonValue.Array xs) →
      ∀ x ∈ xs, TMap.Contains recs (FJsonObject.AsNumber x) = true)

/-- Every record of the collection refers only to indices that have a record. -/
def Closed (recs : TMap Int FJsonObject) : Prop :=
  ∀ i r, TMap.Find recs i = some r → ∀ name v, TMap.Find r name = some v → SafeField recs name v

/-- A call made on a session by its owner. -/
inductive SessionOp where
  | SetObjectMark (Object : ObjectId) (ObjectMark : String)
  | SerializeObject (Object : Option ObjectId)

/-- A sequence of top-level calls, each `SerializeObject` with the given recursion budget. -/
def RunSession (c : UPropertySerializer) (fuel : Nat) : FSession → List SessionOp → Run FSession
  | st, [] => Run.done st
  | st, SessionOp.SetObjectMark Object ObjectMark :: ops =>
    RunSession c fuel (SetObjectMark st Object ObjectMark) ops
  | st, SessionOp.SerializeObject Object :: ops =>
    (SerializeObject c fuel st Object).bind fun r => RunSession c fuel r.2 ops

/-- The session state a completed run leaves behind (`st` when the run did not complete). -/
def Run.stateOr (st : FSession) : Run FSession → FSession
  | Run.done st' => st'
  | _ => st

/-- The scenario session after `SerializeObject(Foo)`. -/
def ScenarioSerialized : FSession :=
  ((SerializeObject ReferenceCodec 10 ScenarioSession (some 6)).state?).getD ScenarioSession

/-- A sequence of calls on the scenario: mark `Foo`, serialize `Root`, `Foo`, null and `Root`
again. -/
def ScenarioOps : List SessionOp :=
  [SessionOp.SetObjectMark 6 "M", SessionOp.SerializeObject (some 8),
    SessionOp.SerializeObject (some 6), SessionOp.SerializeObject none,
    SessionOp.SerializeObject (some 8)]

/-- The scenario session after `ScenarioOps`. -/
def ScenarioAfterOps : FSession :=
  Run.stateOr ScenarioSession
    (RunSession ReferenceCodec 10
      (InitializeForSerialization (NewSerializer ScenarioHeap 2 15 [1]) 5) ScenarioOps)

/-- The proviso on the codec for closure: it hands only non-null objects to `SerializeObject`,
and whatever it leaves in the referenced-objects array was there before or is an index that
`SerializeObject` returned to it. -/
def RecordsOnlyReturnedIndices (c : UPropertySerializer) : Prop :=
  (∀ p v o, o ∈ c.SerializedSubobjects p v → o ≠ none) ∧
    ∀ p v idxs refs x, x ∈ c.Referenced p v idxs refs → x ∈ idxs ∨ x ∈ refs

/-- A session whose index table is well-formed and whose records are closed. -/
def Good (st : FSession) : Prop :=
  IndexTableWellFormed st ∧ Closed st.SerializedObjects

/-- The array `FinalizeSerialization` returns for a session (empty when it fails). -/
def FinalizedArray (st : FSession) : List FJsonObject :=
  ((FinalizeSerialization st).value?).getD []

/-- Lines 101-133 of `DeserializeObject`: resolution of the record found for an index that is
neither the sentinel nor cached; `deser` is the recursive `DeserializeObject`. -/
def ResolveRecord (c : UPropertySerializer)
    (deser : FSession → Int → Run (Option ObjectId × FSession)) (st : FSession) (Index : Int)
    (ObjectJson : FJsonObject) : Run (Option ObjectId × FSession) :=
  if FJsonObject.GetStringField ObjectJson "Type" = "Import" then
    (DeserializeImportedObject deser st ObjectJson).bind fun r =>
      Run.done (r.1, CacheLoadedObject r.2 Index r.1)
  else if FJsonObject.GetStringField ObjectJson "Type" = "Export" then
    if FJsonObject.HasField ObjectJson "ObjectMark" then
      match TMap.FindKey st.ObjectMarks (FJsonObject.GetStringField ObjectJson "ObjectMark") with
      | none => Run.fatal "Cannot resolve object serialized using mark"
      | some FoundObject =>
        Run.done (some FoundObject, CacheLoadedObject st Index (some FoundObject))
    else
      (DeserializeExportedObject c deser st ObjectJson).bind fun r =>
        Run.done (r.1, CacheLoadedObject r.2 Index r.1)
  else Run.fatal "Unhandled object type"

/-- A record array whose elements carry `ObjectIndex` fields that differ from their positions:
position `0` is an Export marked `M` that says `ObjectIndex = 5`, position `1` imports the
package `/Game/Widgets` and says `ObjectIndex = 0`. -/
def ShuffledArray : List FJsonObject :=
  [[("ObjectIndex", FJsonValue.Number 5), ("Type", FJsonValue.String "Export"),
    ("ObjectMark", FJsonValue.String "M")],
   [("ObjectIndex", FJsonValue.Number 0), ("Type", FJsonValue.String "Import"),
    ("ClassPackage", FJsonValue.String "/Script/CoreUObject"),
    ("ClassName", FJsonValue.String "Package"),
    ("ObjectName", FJsonValue.String "/Game/Widgets")]]

/-! ## Comparison with the session threaded through every step -/

/-- Calls of `CompareUObjects` made by the codec for one encoded value, each on the session the
previous one left. -/
def CompareSubobjectsInSession
    (cmp : FSession → Int → Option ObjectId → Run (Bool × FSession)) :
    FSession → List (Int × Option ObjectId) → Run (List Bool × FSession)
  | st, [] => Run.done ([], st)
  | st, p :: ps =>
    (cmp st p.1 p.2).bind fun r =>
      (CompareSubobjectsInSession cmp r.2 ps).bind fun rs => Run.done (r.1 :: rs.1, rs.2)

/-- Property loop of `AreObjectPropertiesUpToDate`, returning the session it ends with. -/
def ComparePropertyLinkInSession (c : UPropertySerializer)
    (cmp : FSession → Int → Option ObjectId → Run (Bool × FSession))
    (Properties : FJsonObject) (Object : ObjectId) :
    List FProperty → FSession → Run (Bool × FSession)
  | [], st => Run.done (true, st)
  | Property :: Next, st =>
    if c.ShouldSerializeProperty Property ∧ FJsonObject.HasField Properties Property.Name then
      match TMap.Find Properties Property.Name with
      | none => Run.fatal "FindChecked"
      | some ValueObject =>
        (CompareSubobjectsInSession cmp st (c.ComparedObjects Property ValueObject
            (GetPropertyValue st Object Property.Name))).bind fun r =>
          if c.Compare Property ValueObject (GetPropertyValue r.2 Object Property.Name) r.1 then
            ComparePropertyLinkInSession c cmp Properties Object Next r.2
          else Run.done (false, r.2)
    else ComparePropertyLinkInSession c cmp Properties Object Next st

/-- Method `AreObjectPropertiesUpToDate`, returning the session it ends with. -/
def AreObjectPropertiesUpToDateInSession (c : UPropertySerializer)
    (cmp : FSession → Int → Option ObjectId → Run (Bool × FSession)) (st : FSession)
    (Properties : FJsonObject) (Object : ObjectId) : Run (Bool × FSession) :=
  ComparePropertyLinkInSession c cmp Properties Object
    (GetObject st (GetObject st Object).Class).PropertyLink st

/-- Body of method `CompareUObjects`, returning the session it ends with; `cmp` is the
recursive call. Every statement of the method reads the session; none writes it. -/
def CompareUObjectsInSessionBody (c : UPropertySerializer)
    (cmp : FSession → Int → Option ObjectId → Run (Bool × FSession))
    (st : FSession) (ObjectIndex : Int) : Option ObjectId → Run (Bool × FSession)
  | none => Run.done (decide (ObjectIndex = INDEX_NONE), st)
  | some Obj =>
    if ObjectIndex = INDEX_NONE then Run.done (false, st)
    else
      match TMap.Find st.SerializedObjects ObjectIndex with
      | none => Run.fatal "FindChecked"
      | some ObjectJson =>
        if FJsonObject.GetStringField ObjectJson "Type" = "Import" then
          if (GetObject st Obj).Name ≠ FJsonObject.GetStringField ObjectJson "ObjectName" then
            Run.done (false, st)
          else if FJsonObject.HasField ObjectJson "Outer" then
            cmp st (FJsonObject.GetIntegerField ObjectJson "Outer") (GetObject st Obj).Outer
          else Run.done (true, st)
        else if FJsonObject.HasField ObjectJson "ObjectMark" then
          match TMap.FindKey st.ObjectMarks
              (FJsonObject.GetStringField ObjectJson "ObjectMark") with
          | none => Run.fatal "Cannot resolve object serialized using mark"
          | some RegisteredObject => Run.done (decide (RegisteredObject = Obj), st)
        else if (GetObject st Obj).Name ≠ FJsonObject.GetStringField ObjectJson "ObjectName" then
          Run.done (false, st)
        else
          (cmp st (FJsonObject.GetIntegerField ObjectJson "ObjectClass")
              (some (GetObject st Obj).Class)).bind fun rc =>
            if ¬ rc.1 then Run.done (false, rc.2)
            else if ¬ FJsonObject.HasField ObjectJson "Outer" then
              Run.done (decide (rc.2.SourcePackage = some Obj), rc.2)
            else
              (cmp rc.2 (FJsonObject.GetIntegerField ObjectJson "Outer")
                  (GetObject rc.2 Obj).Outer).bind fun ro =>
                if ¬ ro.1 then Run.done (false, ro.2)
                else if FJsonObject.HasField ObjectJson "Properties" then
                  match FJsonObject.GetObjectField ObjectJson "Properties" with
                  | none => Run.fatal "Properties.ToSharedRef()"
                  | some Properties =>
                    AreObjectPropertiesUpToDateInSession c cmp ro.2 Properties Obj
                else Run.done (true, ro.2)

/-- Method `CompareUObjects`, returning the session it ends with. -/
def CompareUObjectsInSession (c : UPropertySerializer) :
    Nat → FSession → Int → Option ObjectId → Run (Bool × FSession)
  | 0, _, _, _ => Run.outOfFuel
  | fuel + 1, st, ObjectIndex, Object =>
    CompareUObjectsInSessionBody c (CompareUObjectsInSession c fuel) st ObjectIndex Object

/-- The record fields `SerializeObject` writes after `ObjectIndex` and `Type`. -/
def SerializerFields : List String :=
  ["ClassPackage", "ClassName", "Outer", "ObjectName", "ObjectMark", "ObjectClass",
    "ObjectFlags", "Properties"]

/-- The `Type` that line 66 of `SerializeObject` chooses for an object. -/
def ObjectType (st : FSession) (Object : ObjectId) : String :=
  if some (GetOutermost st Object) ≠ st.SourcePackage then "Import" else "Export"

/-- A property of sessions kept by every write `SerializeObject` makes: taking the next index
for a new object and setting its `Type`; setting one of the later fields in the record of an
object whose index was taken in a session having the property; noting a native class. -/
structure SerializerInvariant (I : FSession → Prop) : Prop where
  allocate : ∀ st x, I st → TMap.Find st.ObjectIndices x = none →
    I (SetRecordField (AllocateObject st x) (st.LastObjectIndex : Int) "Type"
      (FJsonValue.String (ObjectType st x)))
  setField : ∀ st₀ st name v, I st₀ → name ∈ SerializerFields →
    TMap.Contains st.SerializedObjects (st₀.LastObjectIndex : Int) = true → I st →
    I (SetRecordField st (st₀.LastObjectIndex : Int) name v)
  note : ∀ st cls, I st → I (NoteNativeClass st cls)

/-- The record stored under `Index`, which is below `LastObjectIndex`, has `Type = T`. -/
def KeepsType (Index : Int) (T : String) (st : FSession) : Prop :=
  Index < (st.LastObjectIndex : Int) ∧
    TMap.Find (GetRecord st Index) "Type" = some (FJsonValue.String T)

/-- Every record holds its own index under `ObjectIndex`. -/
def HoldsOwnIndex (st : FSession) : Prop :=
  ∀ i r, TMap.Find st.SerializedObjects i = some r →
    TMap.Find r "ObjectIndex" = some (FJsonValue.Number i)

/-- The scenario session in which the imported class `Widget` is registered with mark `M`,
after `SerializeObject(Widget)`. -/
def ScenarioMarkedImport : FSession :=
  Run.stateOr ScenarioSession
    ((SerializeObject ReferenceCodec 9 (SetObjectMark ScenarioSession 4 "M") (some 4)).bind
      fun r => Run.done r.2)

/-! ## Referenced packages -/

/-- Whether the first list starts with the second. -/
def StartsWithChars : List Char → List Char → Bool
  | _, [] => true
  | [], _ :: _ => false
  | a :: as, b :: bs => a == b && StartsWithChars as bs

/-- Engine `FString::StartsWith` with its default `ESearchCase::IgnoreCase`. -/
def StartsWith (s start : String) : Bool :=
  StartsWithChars (s.toList.map Char.toLower) (start.toList.map Char.toLower)

/-- The two out-parameters of `CollectObjectPackages`. -/
structure FPackageWalk where
  OutReferencedPackageNames : List String
  ObjectsAlreadySerialized : List Int

/-- Loop of the three-argument `CollectReferencedPackages`; `collect` is
`CollectObjectPackages`. -/
def CollectReferencedPackagesLoop (collect : Int → FPackageWalk → Run FPackageWalk) :
    List FJsonValue → FPackageWalk → Run FPackageWalk
  | [], w => Run.done w
  | JsonValue :: rest, w =>
    (collect (FJsonObject.AsNumber JsonValue) w).bind fun w₁ =>
      CollectReferencedPackagesLoop collect rest w₁

/-- Body of method `CollectObjectPackages`; `collect` is the recursive call. -/
def CollectObjectPackagesBody (collect : Int → FPackageWalk → Run FPackageWalk)
    (st : FSession) (ObjectIndex : Int) (w : FPackageWalk) : Run FPackageWalk :=
  if ObjectIndex = INDEX_NONE then Run.done w
  else if ObjectIndex ∈ w.ObjectsAlreadySerialized then Run.done w
  else
    let w₁ : FPackageWalk :=
      { w with ObjectsAlreadySerialized := w.ObjectsAlreadySerialized ++ [ObjectIndex] }
    match TMap.Find st.SerializedObjects ObjectIndex with
    | none => Run.fatal "FindChecked"
    | some Object =>
      if FJsonObject.GetStringField Object "Type" = "Import" then
        let w₂ : FPackageWalk :=
          if ¬ StartsWith (FJsonObject.GetStringField Object "ClassPackage") "/Script/" then
            { w₁ with
              OutReferencedPackageNames := w₁.OutReferencedPackageNames ++
                [FJsonObject.GetStringField Object "ClassPackage"] }
          else w₁
        if FJsonObject.HasField Object "Outer" then
          collect (FJsonObject.GetIntegerField Object "Outer") w₂
        else
          Run.done
            { w₂ with
              OutReferencedPackageNames := w₂.OutReferencedPackageNames ++
                [FJsonObject.GetStringField Object "ObjectName"] }
      else if FJsonObject.GetStringField Object "Type" = "Export" then
        if FJsonObject.HasField Object "ObjectMark" then Run.done w₁
        else
          (collect (FJsonObject.GetIntegerField Object "ObjectClass") w₁).bind fun w₂ =>
            (if FJsonObject.HasField Object "Outer" then
                collect (FJsonObject.GetIntegerField Object "Outer") w₂
              else Run.done w₂).bind fun w₃ =>
              if FJsonObject.HasField Object "Properties" then
                match FJsonObject.GetObjectField Object "Properties" with
                | none => Run.fatal "Properties is null"
                | some Properties =>
                  CollectReferencedPackagesLoop collect
                    (FJsonObject.GetArrayField Properties "$ReferencedObjects") w₃
              else Run.done w₃
      else Run.done w₁

/-- Method `CollectObjectPackages`. The first argument bounds the depth of recursive calls. -/
def CollectObjectPackages : Nat → FSession → Int → FPackageWalk → Run FPackageWalk
  | 0, _, _, _ => Run.outOfFuel
  | fuel + 1, st, ObjectIndex, w =>
    CollectObjectPackagesBody (CollectObjectPackages fuel st) st ObjectIndex w

/-- The three-argument method `CollectReferencedPackages`. -/
def CollectReferencedPackagesInto (fuel : Nat) (st : FSession)
    (ReferencedSubobjects : List FJsonValue) (w : FPackageWalk) : Run FPackageWalk :=
  CollectReferencedPackagesLoop (CollectObjectPackages fuel st) ReferencedSubobjects w

/-- The two-argument method `CollectReferencedPackages`: a walk that starts with an empty list
of visited indices. -/
def CollectReferencedPackages (fuel : Nat) (st : FSession)
    (ReferencedSubobjects : List FJsonValue) (OutReferencedPackageNames : List String) :
    Run FPackageWalk :=
  CollectReferencedPackagesInto fuel st ReferencedSubobjects
    { OutReferencedPackageNames := OutReferencedPackageNames, ObjectsAlreadySerialized := [] }

/-- The names a processed record appends to the output itself: for an Import, its
`ClassPackage` unless that starts with `/Script/`, then its `ObjectName` if it has no `Outer`;
nothing for any other record. -/
def RecordNames (Object : FJsonObject) : List String :=
  if FJsonObject.GetStringField Object "Type" = "Import" then
    (if ¬ StartsWith (FJsonObject.GetStringField Object "ClassPackage") "/Script/" then
        [FJsonObject.GetStringField Object "ClassPackage"]
      else []) ++
      (if FJsonObject.HasField Object "Outer" then []
        else [FJsonObject.GetStringField Object "ObjectName"])
  else []

/-- The indices `CollectObjectPackages` goes on to from a processed record: the `Outer` of an
Import; the `ObjectClass`, the `Outer` and the `$ReferencedObjects` of an Export without
mark. -/
def RecordLinks (Object : FJsonObject) : List Int :=
  if FJsonObject.GetStringField Object "Type" = "Import" then
    if FJsonObject.HasField Object "Outer" then [FJsonObject.GetIntegerField Object "Outer"]
    else []
  else if FJsonObject.GetStringField Object "Type" = "Export" then
    if FJsonObject.HasField Object "ObjectMark" then []
    else
      [FJsonObject.GetIntegerField Object "ObjectClass"] ++
        (if FJsonObject.HasField Object "Outer" then
            [FJsonObject.GetIntegerField Object "Outer"]
          else []) ++
        (if FJsonObject.HasField Object "Properties" then
            match FJsonObject.GetObjectField Object "Properties" with
            | none => []
            | some Properties =>
              (FJsonObject.GetArrayField Properties "$ReferencedObjects").map
                FJsonObject.AsNumber
          else [])
  else []

/-- The names contributed by the record of an index. -/
def IndexNames (st : FSession) (Index : Int) : List String :=
  match TMap.Find st.SerializedObjects Index with
  | none => []
  | some Object => RecordNames Object

/-- The links of the record of an index. -/
def IndexLinks (st : FSession) (Index : Int) : List Int :=
  match TMap.Find st.SerializedObjects Index with
  | none => []
  | some Object => RecordLinks Object

/-- The names contributed by a list of indices, in order. -/
def NamesOf (st : FSession) : List Int → List String
  | [] => []
  | i :: is => IndexNames st i ++ NamesOf st is

/-- What a completed walk step did: it processed the indices `new`, none of them visited
before, each once, each with a record; it appended them to the visited list and their names to
the output; and every link of a processed index is the sentinel or visited by the end. -/
def Walked (st : FSession) (w w' : FPackageWalk) : Prop :=
  ∃ new : List Int,
    w'.ObjectsAlreadySerialized = w.ObjectsAlreadySerialized ++ new ∧
    w'.OutReferencedPackageNames = w.OutReferencedPackageNames ++ NamesOf st new ∧
    new.Nodup ∧
    (∀ v ∈ new, v ∉ w.ObjectsAlreadySerialized ∧ v ≠ INDEX_NONE ∧
      TMap.Contains st.SerializedObjects v = true) ∧
    ∀ v ∈ new, ∀ s ∈ IndexLinks st v, s = INDEX_NONE ∨ s ∈ w'.ObjectsAlreadySerialized

/-- The scenario serialized for the source package `/Script/CoreUObject`: `Foo` and `Leaf`, both
of class `Widget`, are then outside the source package. -/
def SharedClassSerialized : FSession :=
  Run.stateOr (InitializeForSerialization (NewSerializer ScenarioHeap 2 15 [1]) 0)
    (RunSession ReferenceCodec 10 (InitializeForSerialization (NewSerializer ScenarioHeap 2 15 [1]) 0)
      [SessionOp.SerializeObject (some 6), SessionOp.SerializeObject (some 9)])

/-- A deserialization session over the records of `SharedClassSerialized`. -/
def SharedClassSession : FSession :=
  ScenarioDeserialization (FinalizedArray SharedClassSerialized)

/-- A deserialization session over the records of `SerializeObject(Foo)`. -/
def FooSession : FSession :=
  ScenarioDeserialization (FinalizedArray ScenarioSerialized)

/-- The number of record keys not among the visited indices. -/
def Unvisited (st : FSession) (visited : List Int) : Nat :=
  ((st.SerializedObjects.map Prod.fst).filter fun k => decide (k ∉ visited)).length

/-- Whether every link of a record is `INDEX_NONE` or has a record, and the `Properties` of an
Export without mark, when present, is an object. -/
def RecordClosed (st : FSession) (Object : FJsonObject) : Bool :=
  (RecordLinks Object).all (fun s => decide (s = INDEX_NONE) ||
      TMap.Contains st.SerializedObjects s) &&
    (!(decide (FJsonObject.GetStringField Object "Type" = "Export") &&
        !FJsonObject.HasField Object "ObjectMark" &&
        FJsonObject.HasField Object "Properties") ||
      (FJsonObject.GetObjectField Object "Properties").isSome)

/-- Whether every record of the session is closed. -/
def CollectClosed (st : FSession) : Bool :=
  st.SerializedObjects.all fun p => RecordClosed st p.2

/-- Whether every start index is `INDEX_NONE` or has a record. -/
def StartsClosed (st : FSession) (ReferencedSubobjects : List FJsonValue) : Bool :=
  ReferencedSubobjects.all fun v => decide (FJsonObject.AsNumber v = INDEX_NONE) ||
    TMap.Contains st.SerializedObjects (FJsonObject.AsNumber v)

/-- The indices other than `INDEX_NONE` that the start indices lead to through the links
`CollectObjectPackages` follows. -/
inductive Reachable (st : FSession) (ReferencedSubobjects : List FJsonValue) : Int → Prop
  | start (v : FJsonValue) : v ∈ ReferencedSubobjects →
      FJsonObject.AsNumber v ≠ INDEX_NONE → Reachable st ReferencedSubobjects (FJsonObject.AsNumber v)
  | link (i s : Int) : Reachable st ReferencedSubobjects i → s ∈ IndexLinks st i →
      s ≠ INDEX_NONE → Reachable st ReferencedSubobjects s

/-- The name of the package that owns an imported object: the `ObjectName` of the Import
without `Outer` that ends the chain of `Outer` links through Import records. The first argument
bounds the length of the chain. -/
def OwningPackage (st : FSession) : Nat → Int → Option String
  | 0, _ => none
  | n + 1, Index =>
    if Index = INDEX_NONE then none
    else
      match TMap.Find st.SerializedObjects Index with
      | none => none
      | some Object =>
        if FJsonObject.GetStringField Object "Type" = "Import" then
          if FJsonObject.HasField Object "Outer" then
            OwningPackage st n (FJsonObject.GetIntegerField Object "Outer")
          else some (FJsonObject.GetStringField Object "ObjectName")
        else none

/-- A run that ends: it does not exhaust its recursion budget, and under the condition `C` it
completes. -/
def Ends {α : Type} (C : Prop) (r : Run α) : Prop :=
  r ≠ Run.outOfFuel ∧ (C → ∃ a, r = Run.done a)

/-- The `Properties` object and the session that `SerializeObjectProperties(Root)` gives in the
fresh scenario session. -/
def RootProperties : FJsonObject × FSession :=
  ((SerializeObjectProperties ReferenceCodec (SerializeObject ReferenceCodec 9) ScenarioSession
    8).value?).getD ([], ScenarioSession)

/-- The session `FooSession` (the records of `SerializeObject(Foo)`, where `count` was `5`)
after the live `Foo` had its `count` set to `7`. -/
def FooChangedSession : FSession :=
  SetPropertyValue FooSession 6 "count" (PropertyValue.Int 7)

/-- Lines 383-390 of `DeserializeExportedObject`: apply the `Properties` of the record to the
resolved object (`Constructed`, with the session in which it was resolved) and return it. -/
def ApplyRecordProperties (c : UPropertySerializer)
    (deser : FSession → Int → Run (Option ObjectId × FSession)) (ObjectJson : FJsonObject)
    (Constructed : ObjectId × FSession) : Run (Option ObjectId × FSession) :=
  if FJsonObject.HasField ObjectJson "Properties" then
    match FJsonObject.GetObjectField ObjectJson "Properties" with
    | some Properties =>
      (DeserializeObjectProperties c deser Constructed.2 Properties Constructed.1).bind
        fun st3 => Run.done (some Constructed.1, st3)
    | none => Run.done (some Constructed.1, Constructed.2)
  else Run.done (some Constructed.1, Constructed.2)

/-- The class of record `0` of `FooSession` resolved: the result of `DeserializeObject(1)`. -/
def FooClassResolved : Option ObjectId × FSession :=
  ((DeserializeObject ReferenceCodec 9 FooSession 1).value?).getD (none, FooSession)

/-- The outer of record `0` resolved after its class: the result of `DeserializeObject(3)`. -/
def FooOuterResolved : Option ObjectId × FSession :=
  ((DeserializeObject ReferenceCodec 9 FooClassResolved.2 3).value?).getD (none, FooSession)

/-- The scenario session after `SerializeObject(Foo)` and then `SerializeObject(Root)`. -/
def ScenarioRootAfterFoo : FSession :=
  ((SerializeObject ReferenceCodec 10 ScenarioSerialized (some 8)).state?).getD
    ScenarioSerialized

/-- Two sessions that agree on everything except the native-class allow-list and the set of
unhandled native classes. -/
structure SameButNative (st₁ st₂ : FSession) : Prop where
  objects : st₂.Objects = st₁.Objects
  packageClass : st₂.PackageClass = st₁.PackageClass
  loadFlags : st₂.RF_Load = st₁.RF_Load
  sourcePackage : st₂.SourcePackage = st₁.SourcePackage
  marks : st₂.ObjectMarks = st₁.ObjectMarks
  indices : st₂.ObjectIndices = st₁.ObjectIndices
  records : st₂.SerializedObjects = st₁.SerializedObjects
  loaded : st₂.LoadedObjects = st₁.LoadedObjects
  last : st₂.LastObjectIndex = st₁.LastObjectIndex
  log : st₂.Log = st₁.Log

/-- Two runs that end the same way: both complete, with results related by `Q`, or both stop
on the same fatal error, or both exhaust the recursion budget. -/
def Run.Rel {α : Type} (Q : α → α → Prop) : Run α → Run α → Prop
  | Run.done a, Run.done b => Q a b
  | Run.fatal w, Run.fatal w' => w = w'
  | Run.outOfFuel, Run.outOfFuel => True
  | _, _ => False

/-- Two results with the same value and sessions that agree except for the native-class lists. -/
def SameResult {α : Type} (a b : α × FSession) : Prop :=
  a.1 = b.1 ∧ SameButNative a.2 b.2

/-- The scenario session with the allow-list `[0]` in place of `[1]`. -/
def ScenarioSessionAllowing : FSession :=
  InitializeForSerialization (NewSerializer ScenarioHeap 2 15 [0]) 5

/-! ## Loading of the SML configuration (`SatisfactoryModLoader.cpp`) -/

/-- What the platform file layer holds at the path of the configuration file. -/
inductive FConfigFile where
  /-- `FileExists` is false. -/
  | Missing
  /-- The file exists and `LoadFileToString` fails. -/
  | Unreadable
  /-- The file exists and `LoadFileToString` yields the text. -/
  | Content (Raw : String)
  deriving DecidableEq, Repr

/-- The part of the file system that `LoadSMLConfiguration` touches, with a record of the
calls that change it. -/
structure FPlatformFile where
  ConfigFile : FConfigFile
  /-- Whether the directory of the configuration file exists. -/
  ConfigDirectoryExists : Bool
  /-- Whether `SaveStringToFile` can write the file. -/
  Writable : Bool
  /-- Number of `CreateDirectoryTree` calls made. -/
  CreateDirectoryTreeCalls : Nat
  /-- Texts handed to `SaveStringToFile`, oldest first. -/
  SaveStringToFileCalls : List String
  deriving DecidableEq, Repr

/-- Message written by `UE_LOG(LogSatisfactoryModLoader, ...)` in `LoadSMLConfiguration`. -/
inductive FConfigurationLog where
  | LoadedFromDisk
  | MalformedJson
  | FailedToLoad
  | MissingSavingNew
  | Saved
  | FailedToSave
  deriving DecidableEq, Repr

/-- The functions `LoadSMLConfiguration` calls whose source is not part of the file:
`FJsonSerializer::Deserialize`, `FSMLConfiguration::ReadFromJson` (which returns the new
configuration and the value it leaves in `bShouldWriteConfiguration`) and
`FSMLConfiguration::WriteToJson` followed by `FJsonSerializer::Serialize`. -/
structure FConfigurationFormat (Config : Type) where
  Deserialize : String → Option FJsonObject
  ReadFromJson : FJsonObject → Config → Bool → Config × Bool
  WriteToJson : Config → String

/-- The members of `FSatisfactoryModLoader` and the environment that `LoadSMLConfiguration`
reads and writes. -/
structure FModLoaderState (Config : Type) where
  SMLConfigurationPrivate : Config
  PlatformFile : FPlatformFile
  Log : List FConfigurationLog

/-- Engine `IPlatformFile::CreateDirectoryTree` on the directory of the configuration file. -/
def CreateDirectoryTree (f : FPlatformFile) : FPlatformFile :=
  { f with
    ConfigDirectoryExists := true
    CreateDirectoryTreeCalls := f.CreateDirectoryTreeCalls + 1 }

/-- Engine `FFileHelper::SaveStringToFile` on the configuration file: the result and the file
system afterwards. -/
def SaveStringToFile (f : FPlatformFile) (Text : String) : Bool × FPlatformFile :=
  (f.Writable,
    { f with
      ConfigFile := if f.Writable then FConfigFile.Content Text else f.ConfigFile
      SaveStringToFileCalls := f.SaveStringToFileCalls ++ [Text] })

/-- Lines 63-84 of `LoadSMLConfiguration`: read the file; the result is the state and the
value of `bShouldWriteConfiguration`. -/
def ReadSMLConfiguration {Config : Type} (fmt : FConfigurationFormat Config)
    (s : FModLoaderState Config) : FModLoaderState Config × Bool :=
  match s.PlatformFile.ConfigFile with
  | FConfigFile.Content RawSMLConfiguration =>
    match fmt.Deserialize RawSMLConfiguration with
    | some OutJsonObject =>
      let r := fmt.ReadFromJson OutJsonObject s.SMLConfigurationPrivate false
      ({ s with
          SMLConfigurationPrivate := r.1
          Log := s.Log ++ [FConfigurationLog.LoadedFromDisk] }, r.2)
    | none => ({ s with Log := s.Log ++ [FConfigurationLog.MalformedJson] }, true)
  | FConfigFile.Unreadable =>
    ({ s with Log := s.Log ++ [FConfigurationLog.FailedToLoad] }, false)
  | FConfigFile.Missing =>
    ({ s with Log := s.Log ++ [FConfigurationLog.MissingSavingNew] }, true)

/-- Method `FSatisfactoryModLoader::LoadSMLConfiguration(bool bAllowSave)`. -/
def LoadSMLConfiguration {Config : Type} (fmt : FConfigurationFormat Config)
    (bAllowSave : Bool) (s : FModLoaderState Config) : FModLoaderState Config :=
  let r := ReadSMLConfiguration fmt s
  if r.2 then
    let OutSerializedConfiguration := fmt.WriteToJson r.1.SMLConfigurationPrivate
    let saved := SaveStringToFile (CreateDirectoryTree r.1.PlatformFile)
      OutSerializedConfiguration
    { r.1 with
      PlatformFile := saved.2
      Log := r.1.Log ++
        [if saved.1 then FConfigurationLog.Saved else FConfigurationLog.FailedToSave] }
  else r.1

/-- Lines 171-173 of `PreInitializeModLoading`: `bAllowSavingConfiguration = !WITH_EDITOR`. -/
def PreInitializeModLoading {Config : Type} (fmt : FConfigurationFormat Config)
    (WITH_EDITOR : Bool) (s : FModLoaderState Config) : FModLoaderState Config :=
  LoadSMLConfiguration fmt (!WITH_EDITOR) s

/-- A configuration format over a one-number configuration: the text `ok` parses, the flag is
left as given. -/
def ScenarioFormat : FConfigurationFormat Nat where
  Deserialize := fun Raw => if Raw = "ok" then some [] else none
  ReadFromJson := fun _ Config flag => (Config, flag)
  WriteToJson := fun _ => "defaults"

/-- An editor start with no configuration file and no configuration directory. -/
def ScenarioEditorStart : FModLoaderState Nat :=
  { SMLConfigurationPrivate := 0,
    PlatformFile :=
      { ConfigFile := FConfigFile.Missing, ConfigDirectoryExists := false, Writable := true,
        CreateDirectoryTreeCalls := 0, SaveStringToFileCalls := [] },
    Log := [] }

/-! ## The main-menu widget panel (`MainMenuMixin.cpp`) -/

/-- Identity of a Slate widget: the number of widgets created before it. -/
abbrev WidgetId := Nat

/-- Engine `FString::operator==`, which ignores case. -/
def FStringEquals (a b : String) : Bool :=
  decide (a.toList.map Char.toLower = b.toList.map Char.toLower)

/-- The map name given to `DEFINE_LEVEL_WIDGET_PANEL` in `registerMainMenuHooks`. -/
def MenuMapName : String := "/Game/FactoryGame/Map/MenuScenes/MenuScene_01"

/-- What the `LoadComplete` hook reads and writes: the static `CurrentWidgetPtr_MenuSMLInfo`,
the widgets shown by the game viewport, and the number of widgets `CreateMenuInfoTextPanel`
has created. -/
structure FWidgetPanelState where
  CurrentWidgetPtr : Option WidgetId
  ViewportWidgets : List WidgetId
  WidgetsCreated : Nat
  deriving DecidableEq, Repr

/-- Engine `UGameViewportClient::AddViewportWidgetContent`. -/
def AddViewportWidgetContent (Viewport : List WidgetId) (Widget : WidgetId) : List WidgetId :=
  Viewport ++ [Widget]

/-- Engine `UGameViewportClient::RemoveViewportWidgetContent`. -/
def RemoveViewportWidgetContent (Viewport : List WidgetId) (Widget : WidgetId) : List WidgetId :=
  Viewport.erase Widget

/-- The hook that `registerMainMenuHooks` subscribes to `UFGGameInstance::LoadComplete`: the
expansion of `DEFINE_LEVEL_WIDGET_PANEL(MenuSMLInfo, MenuMapName, CreateMenuInfoTextPanel)`. -/
def LoadComplete (s : FWidgetPanelState) (mapName : String) : FWidgetPanelState :=
  if FStringEquals mapName MenuMapName then
    let ResultWidget : WidgetId := s.WidgetsCreated
    { CurrentWidgetPtr := some ResultWidget,
      ViewportWidgets := AddViewportWidgetContent s.ViewportWidgets ResultWidget,
      WidgetsCreated := s.WidgetsCreated + 1 }
  else
    match s.CurrentWidgetPtr with
    | some ResultWidgetRef =>
      { s with
        ViewportWidgets := RemoveViewportWidgetContent s.ViewportWidgets ResultWidgetRef
        CurrentWidgetPtr := none }
    | none => s

/-- A sequence of `LoadComplete` events. -/
def LoadCompleteEvents (s : FWidgetPanelState) (mapNames : List String) : FWidgetPanelState :=
  mapNames.foldl LoadComplete s

/-- The state at process start: no widget created, none shown. -/
def InitialPanelState : FWidgetPanelState :=
  { CurrentWidgetPtr := none, ViewportWidgets := [], WidgetsCreated := 0 }

/-- The cache once resolution started at `Leaf`: the class of `Leaf` (records `2`, `7`), then
the class of `Root` (record `1`) and its outer (records `5`, `4`, `3`) are resolved. -/
def CyclicLeafCache : TMap Int (Option ObjectId) :=
  [(2, some 3), (7, some 4), (1, some 7), (5, some 0), (4, some 2), (3, some 5)]

/-- The scenario session in which `Foo` is registered with mark `M` and `Root` with mark
`N`. -/
def DistinctMarksSession : FSession :=
  SetObjectMark (SetObjectMark ScenarioSession 6 "M") 8 "N"

/-- The scenario session in which `Foo` and `Root` are both registered with mark `M`. -/
def SharedMarkSession : FSession :=
  SetObjectMark (SetObjectMark ScenarioSession 6 "M") 8 "M"

/-- The objects whose `SerializeObject` call can call `SerializeObject` again: the objects of
the heap and the source package. -/
def Traversable (st : FSession) : List ObjectId :=
  List.range st.Objects.length ++ st.SourcePackage.toList

/-- The number of traversable objects that are not in the index table. -/
def Unindexed (st : FSession) : Nat :=
  ((Traversable st).filter fun x => (TMap.Find st.ObjectIndices x).isNone).length

/-- Whether the check of line 456 passes for every object: an object of the source package
without outer has the class `UPackage::StaticClass()`. -/
def PackageCheckPasses (st : FSession) : Bool :=
  (Traversable st).all fun x =>
    !(decide (some (GetOutermost st x) = st.SourcePackage) &&
        decide ((GetObject st x).Outer = none)) ||
      decide ((GetObject st x).Class = st.PackageClass)

/-- A heap with reference cycles: `0` the package `/Script/CoreUObject` with the classes `1`
`Class` and `2` `Package`; `3` the source package `/Game/P`; `4` the class `Node` (an object
reference `next`), itself inside the source package; `5` `A` whose `next` is `6`; `6` `B`,
whose outer is `A` and whose `next` is `5`. -/
def CyclicHeap : List UObject :=
  [ MakePackage "/Script/CoreUObject" 2,
    MakeClass "Class" 0 1 [],
    MakeClass "Package" 0 1 [],
    MakePackage "/Game/P" 2,
    MakeClass "Node" 3 1 [{ Name := "next", PropertyFlags := 2 }],
    MakeObject "A" 3 4 [("next", PropertyValue.Object (some 6))],
    MakeObject "B" 5 4 [("next", PropertyValue.Object (some 5))] ]

/-- A fresh serialization session for the source package `/Game/P` of `CyclicHeap`. -/
def CyclicHeapSession : FSession :=
  InitializeForSerialization (NewSerializer CyclicHeap 2 15 [1]) 3

/-! ## Container lemmas -/

namespace Run

@[simp] theorem bind_done {α β : Type} (a : α) (f : α → Run β) : (done a).bind f = f a := rfl

@[simp] theorem bind_fatal {α β : Type} (w : String) (f : α → Run β) :
    (fatal w : Run α).bind f = fatal w := rfl

@[simp] theorem bind_outOfFuel {α β : Type} (f : α → Run β) :
    (outOfFuel : Run α).bind f = outOfFuel := rfl

theorem bind_eq_done {α β : Type} {r : Run α} {f : α → Run β} {b : β} :
    r.bind f = done b ↔ ∃ a, r = done a ∧ f a = done b := by
  cases r with
  | done a => simp
  | fatal w => simp [bind]
  | outOfFuel => simp [bind]

end Run

namespace TMap

variable {κ ν : Type} [DecidableEq κ]

theorem Find_Add_self (m : TMap κ ν) (k : κ) (v : ν) : Find (Add m k v) k = some v := by
  induction m with
  | nil => simp [Add, Find]
  | cons p rest ih =>
    obtain ⟨k', v'⟩ := p
    by_cases h : k' = k
    · simp [Add, Find, h]
    · simp [Add, Find, h, ih]

theorem Find_Add_of_ne (m : TMap κ ν) {k k' : κ} (v : ν) (h : k ≠ k') :
    Find (Add m k v) k' = Find m k' := by
  induction m with
  | nil => simp [Add, Find, h]
  | cons p rest ih =>
    obtain ⟨k₀, v₀⟩ := p
    by_cases h₀ : k₀ = k
    · subst h₀
      simp [Add, Find, h]
    · simp [Add, Find, h₀, ih]

theorem Find_Add (m : TMap κ ν) (k k' : κ) (v : ν) :
    Find (Add m k v) k' = if k = k' then some v else Find m k' := by
  by_cases h : k = k'
  · subst h
    simp [Find_Add_self]
  · simp [h, Find_Add_of_ne]

theorem Contains_Add (m : TMap κ ν) (k k' : κ) (v : ν) :
    Contains (Add m k v) k' = (decide (k = k') || Contains m k') := by
  unfold Contains
  rw [Find_Add]
  by_cases h : k = k' <;> simp [h]

theorem Find_mem {m : TMap κ ν} {k : κ} {v : ν} (h : Find m k = some v) : (k, v) ∈ m := by
  induction m with
  | nil => simp [Find] at h
  | cons p rest ih =>
    obtain ⟨k₀, v₀⟩ := p
    by_cases h₀ : k₀ = k
    · simp [Find, h₀] at h
      simp [h₀, h]
    · simp [Find, h₀] at h
      exact List.mem_cons_of_mem _ (ih h)

end TMap

namespace TMap

variable {κ ν : Type}

theorem FindKey_mem [DecidableEq ν] {m : TMap κ ν} {k : κ} {v : ν} (h : FindKey m v = some k) :
    (k, v) ∈ m := by
  induction m with
  | nil => simp [FindKey] at h
  | cons p rest ih =>
    obtain ⟨k₀, v₀⟩ := p
    by_cases h₀ : v₀ = v
    · simp [FindKey, h₀] at h
      simp [h₀, h]
    · simp [FindKey, h₀] at h
      exact List.mem_cons_of_mem _ (ih h)

theorem FindKey_eq_none [DecidableEq ν] {m : TMap κ ν} {v : ν} :
    FindKey m v = none ↔ ∀ k, (k, v) ∉ m := by
  induction m with
  | nil => simp [FindKey]
  | cons p rest ih =>
    obtain ⟨k₀, v₀⟩ := p
    by_cases h₀ : v₀ = v
    · subst h₀
      simp only [FindKey, if_true]
      constructor
      · intro h
        cases h
      · intro h
        exact absurd (List.mem_cons_self _ _) (h k₀)
    · simp only [FindKey, h₀, if_false, ih]
      constructor
      · intro h k hk
        rcases List.mem_cons.mp hk with hk | hk
        · exact h₀ (Prod.mk.inj hk).2.symm
        · exact h k hk
      · intro h k hk
        exact h k (List.mem_cons_of_mem _ hk)

end TMap

/-! ## Comparison against an unknown index (C9) -/

/-- C9 (counterexample): in a fresh session of the scenario, which has no record at all,
`CompareUObjects(7, /Game/P)` does not return `false`: it stops in the `FindChecked` assertion. -/
theorem CompareUObjects_unknown_index_counterexample :
    CompareUObjects ReferenceCodec 1 ScenarioSession 7 (some 5) = Run.fatal "FindChecked" ∧
      CompareUObjects ReferenceCodec 1 ScenarioSession 7 (some 5) ≠ Run.done false := by
  decide

/-- C9 (amended): `CompareUObjects` called with a non-null object and a non-sentinel index that
has no record does not return: the `FindChecked` lookup of the record is a fatal assertion
failure, for every session, object and recursion budget. -/
theorem CompareUObjects_unknown_index_fatal (c : UPropertySerializer) (fuel : Nat)
    (st : FSession) (ObjectIndex : Int) (Object : ObjectId)
    (hIndex : ObjectIndex ≠ INDEX_NONE)
    (hRecord : TMap.Contains st.SerializedObjects ObjectIndex = false) :
    CompareUObjects c (fuel + 1) st ObjectIndex (some Object) = Run.fatal "FindChecked" := by
  have hFind : TMap.Find st.SerializedObjects ObjectIndex = none := by
    simpa [TMap.Contains] using hRecord
  simp [CompareUObjects, CompareUObjectsBody, hIndex, hFind]

/-- Witness of `CompareUObjects_unknown_index_fatal` (C9) in the fresh scenario session. -/
theorem CompareUObjects_unknown_index_fatal_witness :
    (7 : Int) ≠ INDEX_NONE ∧ TMap.Contains ScenarioSession.SerializedObjects 7 = false ∧
      CompareUObjects ReferenceCodec 3 ScenarioSession 7 (some 5) = Run.fatal "FindChecked" :=
  ⟨by decide, by decide,
    CompareUObjects_unknown_index_fatal ReferenceCodec 2 ScenarioSession 7 5 (by decide)
      (by decide)⟩

/-! ## Marked exports (C6, C7) -/

theorem GetRecord_SetRecordField (st : FSession) (Index : Int) (name : String) (v : FJsonValue) :
    GetRecord (SetRecordField st Index name v) Index
      = FJsonObject.SetField (GetRecord st Index) name v := by
  simp [GetRecord, SetRecordField, TMap.Find_Add_self]

theorem GetRecord_AllocateObject (st : FSession) (Object : ObjectId) :
    GetRecord (AllocateObject st Object) (st.LastObjectIndex : Int)
      = [("ObjectIndex", FJsonValue.Number (st.LastObjectIndex : Int))] := by
  simp [GetRecord, AllocateObject, TMap.Find_Add_self]

/-- C6 (counterexample): in the scenario, `Foo` registered with mark `M` gets a record with a
third field, `ObjectIndex`; and the class `Widget`, which lives outside the source package,
registered with mark `M` gets an Import record without any `ObjectMark`. -/
theorem SerializeObject_marked_record_counterexample :
    FJsonObject.HasField
        (SerializedRecord (SerializeObject ReferenceCodec 1 (SetObjectMark ScenarioSession 6 "M")
          (some 6))) "ObjectIndex" = true ∧
      (SerializedRecord (SerializeObject ReferenceCodec 1 (SetObjectMark ScenarioSession 6 "M")
          (some 6))).length = 3 ∧
      FJsonObject.GetStringField
        (SerializedRecord (SerializeObject ReferenceCodec 9 (SetObjectMark ScenarioSession 4 "M")
          (some 4))) "Type" = "Import" ∧
      FJsonObject.HasField
        (SerializedRecord (SerializeObject ReferenceCodec 9 (SetObjectMark ScenarioSession 4 "M")
          (some 4))) "ObjectMark" = false := by
  decide

/-- C6 (amended): for every not-yet-indexed object of the source package that is registered
with mark `M`, `SerializeObject` returns the next index and the record it creates consists of
exactly the three fields `ObjectIndex` (that index), `Type = "Export"` and `ObjectMark = M`,
whatever the fields of the object are. -/
theorem SerializeObject_marked_export_record (c : UPropertySerializer) (fuel : Nat)
    (st : FSession) (Object : ObjectId) (ObjectMark : String)
    (hNew : TMap.Find st.ObjectIndices Object = none)
    (hExport : some (GetOutermost st Object) = st.SourcePackage)
    (hMark : TMap.Find st.ObjectMarks Object = some ObjectMark) :
    ∃ st', SerializeObject c (fuel + 1) st (some Object)
        = Run.done ((st.LastObjectIndex : Int), st') ∧
      GetRecord st' (st.LastObjectIndex : Int)
        = [("ObjectIndex", FJsonValue.Number (st.LastObjectIndex : Int)),
           ("Type", FJsonValue.String "Export"),
           ("ObjectMark", FJsonValue.String ObjectMark)] := by
  refine ⟨SetRecordField (SetRecordField (AllocateObject st Object) (st.LastObjectIndex : Int)
    "Type" (FJsonValue.String "Export")) (st.LastObjectIndex : Int) "ObjectMark"
    (FJsonValue.String ObjectMark), ?_, ?_⟩
  · simp only [SerializeObject, SerializeObjectBody, hNew, hExport, hMark, ne_eq, not_true_eq_false,
      if_false]
  · rw [GetRecord_SetRecordField, GetRecord_SetRecordField, GetRecord_AllocateObject]
    simp [FJsonObject.SetField, TMap.Add]

/-- Witness of `SerializeObject_marked_export_record` (C6): `Foo` of the scenario, marked `M`. -/
theorem SerializeObject_marked_export_record_witness :
    ∃ st', SerializeObject ReferenceCodec 1 (SetObjectMark ScenarioSession 6 "M") (some 6)
        = Run.done (((SetObjectMark ScenarioSession 6 "M").LastObjectIndex : Int), st') ∧
      GetRecord st' ((SetObjectMark ScenarioSession 6 "M").LastObjectIndex : Int)
        = [("ObjectIndex",
            FJsonValue.Number ((SetObjectMark ScenarioSession 6 "M").LastObjectIndex : Int)),
           ("Type", FJsonValue.String "Export"),
           ("ObjectMark", FJsonValue.String "M")] :=
  SerializeObject_marked_export_record ReferenceCodec 0 (SetObjectMark ScenarioSession 6 "M") 6
    "M" (by decide) (by decide) (by decide)

/-- C7: for an index that is not cached whose record is an Export carrying `ObjectMark = M`,
`DeserializeObject` fails fatally when no object is registered with mark `M`; otherwise it
returns an object registered with `M` (the first one in the mark table) and the loaded-object
cache holds that object under the index afterwards. -/
theorem DeserializeObject_marked_export (c : UPropertySerializer) (fuel : Nat) (st : FSession)
    (Index : Int) (ObjectJson : FJsonObject)
    (hIndex : Index ≠ INDEX_NONE)
    (hCache : TMap.Find st.LoadedObjects Index = none)
    (hRecord : TMap.Find st.SerializedObjects Index = some ObjectJson)
    (hType : FJsonObject.GetStringField ObjectJson "Type" = "Export")
    (hMark : FJsonObject.HasField ObjectJson "ObjectMark" = true) :
    ((∀ o, (o, FJsonObject.GetStringField ObjectJson "ObjectMark") ∉ st.ObjectMarks) →
        DeserializeObject c (fuel + 1) st Index
          = Run.fatal "Cannot resolve object serialized using mark") ∧
      ((∃ o, (o, FJsonObject.GetStringField ObjectJson "ObjectMark") ∈ st.ObjectMarks) →
        ∃ o st', (o, FJsonObject.GetStringField ObjectJson "ObjectMark") ∈ st.ObjectMarks ∧
          TMap.FindKey st.ObjectMarks (FJsonObject.GetStringField ObjectJson "ObjectMark")
            = some o ∧
          DeserializeObject c (fuel + 1) st Index = Run.done (some o, st') ∧
          TMap.Find st'.LoadedObjects Index = some (some o) ∧
          st'.Objects = st.Objects) := by
  have hNotImport : FJsonObject.GetStringField ObjectJson "Type" ≠ "Import" := by
    rw [hType]; decide
  constructor
  · intro hNone
    have hKey := TMap.FindKey_eq_none.mpr hNone
    simp [DeserializeObject, DeserializeObjectBody, hIndex, hCache, hRecord, hType, hMark, hKey]
  · rintro ⟨o, ho⟩
    cases hKey : TMap.FindKey st.ObjectMarks (FJsonObject.GetStringField ObjectJson "ObjectMark")
      with
    | none => exact absurd ho (TMap.FindKey_eq_none.mp hKey o)
    | some o' =>
      refine ⟨o', CacheLoadedObject st Index (some o'), TMap.FindKey_mem hKey, rfl, ?_, ?_, rfl⟩
      · simp [DeserializeObject, DeserializeObjectBody, hIndex, hCache, hRecord, hType, hMark, hKey]
      · simp [CacheLoadedObject, TMap.Find_Add_self]

/-- Witness of `DeserializeObject_marked_export` (C7): the marked record resolves to `Foo` when
`Foo` is registered with `M`, and is fatal in a session without that registration. -/
theorem DeserializeObject_marked_export_witness :
    (∃ o st', (o, "M") ∈ (SetObjectMark (ScenarioDeserialization MarkedArray) 6 "M").ObjectMarks ∧
        TMap.FindKey (SetObjectMark (ScenarioDeserialization MarkedArray) 6 "M").ObjectMarks "M"
          = some o ∧
        DeserializeObject ReferenceCodec 1 (SetObjectMark (ScenarioDeserialization MarkedArray) 6
          "M") 0 = Run.done (some o, st') ∧
        TMap.Find st'.LoadedObjects 0 = some (some o) ∧
        st'.Objects = (SetObjectMark (ScenarioDeserialization MarkedArray) 6 "M").Objects) ∧
      DeserializeObject ReferenceCodec 1 (ScenarioDeserialization MarkedArray) 0
        = Run.fatal "Cannot resolve object serialized using mark" :=
  ⟨(DeserializeObject_marked_export ReferenceCodec 0
      (SetObjectMark (ScenarioDeserialization MarkedArray) 6 "M") 0 MarkedArray.head!
      (by decide) (by decide) rfl (by decide) (by decide)).2 ⟨6, by decide⟩,
    (DeserializeObject_marked_export ReferenceCodec 0 (ScenarioDeserialization MarkedArray) 0
      MarkedArray.head! (by decide) (by decide) rfl (by decide) (by decide)).1
      (fun _ => List.not_mem_nil _)⟩

/-! ## Resolution failures of `DeserializeObject` (C10) -/

/-- C10: for an index that is neither the sentinel nor cached, every resolution failure (no
record; an Export whose `ObjectClass` index does not resolve to a class; a record whose `Outer`
index resolves to null; an Import whose package, class or named child is not found) makes
`DeserializeObject` return null without aborting, and the heap is the one at the moment the
failure was detected: no object is constructed and no property is written for the record. -/
theorem DeserializeObject_resolution_failure (c : UPropertySerializer) (fuel : Nat)
    (st : FSession) (Index : Int) (heap : List UObject)
    (hIndex : Index ≠ INDEX_NONE)
    (hCache : TMap.Find st.LoadedObjects Index = none)
    (hFail : ResolutionFailure c fuel st Index heap) :
    ∃ st', DeserializeObject c (fuel + 1) st Index = Run.done (none, st') ∧
      st'.Objects = heap := by
  cases hFail with
  | noRecord h =>
    exact ⟨LogError st (LogEntry.InvalidIndex Index),
      by simp [DeserializeObject, DeserializeObjectBody, hIndex, hCache, h], rfl⟩
  | exportClass ObjectJson rc hRecord hType hMark hClass hCast =>
    refine ⟨CacheLoadedObject (LogError rc.2 (LogEntry.CannotResolveObjectClass
      (FJsonObject.GetIntegerField ObjectJson "ObjectClass"))) Index none, ?_, rfl⟩
    simp [DeserializeObject, DeserializeObjectBody, DeserializeExportedObject, hIndex, hCache,
      hRecord, hType, hMark,
      hClass, hCast]
  | exportOuter ObjectJson rc ObjectClass st2 hRecord hType hMark hClass hCast hHasOuter hOuter =>
    refine ⟨CacheLoadedObject (LogError st2 (LogEntry.CannotResolveOuterObject
      (FJsonObject.GetIntegerField ObjectJson "Outer"))) Index none, ?_, rfl⟩
    simp [DeserializeObject, DeserializeObjectBody, DeserializeExportedObject, hIndex, hCache,
      hRecord, hType, hMark,
      hClass, hCast, hHasOuter, hOuter]
  | importClass ObjectJson hRecord hType hClass =>
    refine ⟨CacheLoadedObject (LogError st (LogEntry.CannotResolveClass
      (FJsonObject.GetStringField ObjectJson "ClassPackage")
      (FJsonObject.GetStringField ObjectJson "ClassName"))) Index none, ?_, rfl⟩
    simp [DeserializeObject, DeserializeObjectBody, DeserializeImportedObject, hIndex, hCache,
      hRecord, hType, hClass]
  | importPackage ObjectJson hRecord hType hClass hHasOuter hPackage =>
    refine ⟨CacheLoadedObject (LogError st (LogEntry.CannotResolvePackage
      (FJsonObject.GetStringField ObjectJson "ObjectName"))) Index none, ?_, rfl⟩
    simp [DeserializeObject, DeserializeObjectBody, DeserializeImportedObject, hIndex, hCache,
      hRecord, hType, hClass,
      hHasOuter, hPackage]
  | importOuter ObjectJson ObjectClass st2 hRecord hType hClass hHasOuter hOuter =>
    refine ⟨CacheLoadedObject (LogError st2 (LogEntry.CannotResolveOuterObject
      (FJsonObject.GetIntegerField ObjectJson "Outer"))) Index none, ?_, rfl⟩
    simp [DeserializeObject, DeserializeObjectBody, DeserializeImportedObject, hIndex, hCache,
      hRecord, hType, hClass,
      hHasOuter, hOuter]
  | importChild ObjectJson ObjectClass OuterObject st2 hRecord hType hClass hHasOuter hOuter
      hChild =>
    refine ⟨CacheLoadedObject (LogError st2 (LogEntry.CannotFindObject
      (FJsonObject.GetStringField ObjectJson "ObjectName"))) Index none, ?_, rfl⟩
    simp [DeserializeObject, DeserializeObjectBody, DeserializeImportedObject, hIndex, hCache,
      hRecord, hType, hClass,
      hHasOuter, hOuter, hChild]

/-- Witness of `DeserializeObject_resolution_failure` (C10) on `BrokenArray`: index `7` has no
record, the class index of record `0` has no record, the class of record `1` is not found and
the package of record `2` is not found; each call returns null on the unchanged heap. -/
theorem DeserializeObject_resolution_failure_witness :
    (∃ st', DeserializeObject ReferenceCodec 1 (ScenarioDeserialization BrokenArray) 7
        = Run.done (none, st') ∧ st'.Objects = ScenarioHeap) ∧
      (∃ st', DeserializeObject ReferenceCodec 2 (ScenarioDeserialization BrokenArray) 0
        = Run.done (none, st') ∧ st'.Objects = ScenarioHeap) ∧
      (∃ st', DeserializeObject ReferenceCodec 1 (ScenarioDeserialization BrokenArray) 1
        = Run.done (none, st') ∧ st'.Objects = ScenarioHeap) ∧
      (∃ st', DeserializeObject ReferenceCodec 1 (ScenarioDeserialization BrokenArray) 2
        = Run.done (none, st') ∧ st'.Objects = ScenarioHeap) :=
  ⟨DeserializeObject_resolution_failure ReferenceCodec 0 (ScenarioDeserialization BrokenArray) 7
      ScenarioHeap (by decide) (by decide) (ResolutionFailure.noRecord rfl),
    DeserializeObject_resolution_failure ReferenceCodec 1 (ScenarioDeserialization BrokenArray) 0
      ScenarioHeap (by decide) (by decide)
      (ResolutionFailure.exportClass (BrokenArray.getD 0 [])
        (none, LogError (ScenarioDeserialization BrokenArray) (LogEntry.InvalidIndex 5))
        rfl (by decide) (by decide) rfl rfl),
    DeserializeObject_resolution_failure ReferenceCodec 0 (ScenarioDeserialization BrokenArray) 1
      ScenarioHeap (by decide) (by decide)
      (ResolutionFailure.importClass (BrokenArray.getD 1 []) rfl (by decide) (by decide)),
    DeserializeObject_resolution_failure ReferenceCodec 0 (ScenarioDeserialization BrokenArray) 2
      ScenarioHeap (by decide) (by decide)
      (ResolutionFailure.importPackage (BrokenArray.getD 2 []) rfl (by decide) (by decide)
        (by decide) (by decide))⟩

/-! ## The package-root record in `CompareUObjects` (C1, C2) -/

/-- C2: serializing the source package `/Game/P` of the scenario gives index `0` and a record
with `ObjectClass` but neither `Outer` nor `ObjectName`; `CompareUObjects(0, /Game/P)` on that
session returns `false`, because the absent `ObjectName` reads as the empty string and the name
test precedes the `Outer` test. -/
theorem CompareUObjects_source_package_false :
    (SerializeObject ReferenceCodec 10 ScenarioSession (some 5)).value?.map (fun r => r.1)
        = some 0 ∧
      FJsonObject.HasField
        (SerializedRecord (SerializeObject ReferenceCodec 10 ScenarioSession (some 5))) "Outer"
        = false ∧
      FJsonObject.HasField
        (SerializedRecord (SerializeObject ReferenceCodec 10 ScenarioSession (some 5)))
        "ObjectName" = false ∧
      ((SerializeObject ReferenceCodec 10 ScenarioSession (some 5)).bind fun r =>
        CompareUObjects ReferenceCodec 10 r.2 r.1 (some 5)) = Run.done false := by
  decide

/-- C1: the round trip fails in the scenario. For the source package `/Game/P` and for its
export `Foo`, serializing, finalizing, deserializing the index in a fresh session over the same
heap (which returns the object itself) and comparing the record with the result gives `false`;
for the imported class `Widget` it gives `true`. -/
theorem RoundTrip_export_false :
    RoundTrip ReferenceCodec 10 ScenarioSession 5 = Run.done false ∧
      RoundTrip ReferenceCodec 10 ScenarioSession 6 = Run.done false ∧
      ((SerializeObject ReferenceCodec 10 ScenarioSession (some 6)).bind fun r =>
        (FinalizeSerialization r.2).bind fun arr =>
          (DeserializeObject ReferenceCodec 10 (DeserializationSession r.2 arr) r.1).bind fun d =>
            Run.done d.1) = Run.done (some 6) ∧
      RoundTrip ReferenceCodec 10 ScenarioSession 4 = Run.done true := by
  decide

/-! ## Re-entrant resolution of a record (C8) -/

theorem DeserializeObjectBody_export (c : UPropertySerializer)
    (d : FSession → Int → Run (Option ObjectId × FSession)) (st : FSession) (Index : Int)
    (ObjectJson : FJsonObject)
    (hIndex : Index ≠ INDEX_NONE)
    (hCache : TMap.Find st.LoadedObjects Index = none)
    (hRecord : TMap.Find st.SerializedObjects Index = some ObjectJson)
    (hType : FJsonObject.GetStringField ObjectJson "Type" = "Export")
    (hMark : FJsonObject.HasField ObjectJson "ObjectMark" = false) :
    DeserializeObjectBody c d st Index
      = (DeserializeExportedObject c d st ObjectJson).bind fun r =>
          Run.done (r.1, CacheLoadedObject r.2 Index r.1) := by
  simp [DeserializeObjectBody, hIndex, hCache, hRecord, hType, hMark]

theorem DeserializeExportedObject_outer_outOfFuel (c : UPropertySerializer)
    (d : FSession → Int → Run (Option ObjectId × FSession)) (st : FSession)
    (ObjectJson : FJsonObject) (rc : Option ObjectId × FSession) (ObjectClass : ObjectId)
    (hClass : d st (FJsonObject.GetIntegerField ObjectJson "ObjectClass") = Run.done rc)
    (hCast : CastClass rc.2 rc.1 = some ObjectClass)
    (hHasOuter : FJsonObject.HasField ObjectJson "Outer" = true)
    (hOuter : d rc.2 (FJsonObject.GetIntegerField ObjectJson "Outer") = Run.outOfFuel) :
    DeserializeExportedObject c d st ObjectJson = Run.outOfFuel := by
  simp [DeserializeExportedObject, hClass, hCast, hHasOuter, hOuter]

theorem DeserializePropertyLink_first_outOfFuel (c : UPropertySerializer)
    (d : FSession → Int → Run (Option ObjectId × FSession)) (Properties : FJsonObject)
    (Object : ObjectId) (Property : FProperty) (Next : List FProperty) (st : FSession)
    (ValueObject : FJsonValue) (i : Int) (is : List Int)
    (hPersist : c.ShouldSerializeProperty Property = true)
    (hValue : TMap.Find Properties Property.Name = some ValueObject)
    (hIndices : c.DeserializedIndices Property ValueObject = i :: is)
    (hFirst : d st i = Run.outOfFuel) :
    DeserializePropertyLink c d Properties Object (Property :: Next) st = Run.outOfFuel := by
  simp [DeserializePropertyLink, hPersist, FJsonObject.HasField, TMap.Contains, hValue, hIndices,
    DeserializeSubobjects, hFirst]

theorem DeserializeExportedObject_property_outOfFuel (c : UPropertySerializer)
    (d : FSession → Int → Run (Option ObjectId × FSession)) (st : FSession)
    (ObjectJson : FJsonObject) (rc : Option ObjectId × FSession)
    (ObjectClass OuterObject ExistingObject : ObjectId) (st2 : FSession)
    (Properties : FJsonObject)
    (hClass : d st (FJsonObject.GetIntegerField ObjectJson "ObjectClass") = Run.done rc)
    (hCast : CastClass rc.2 rc.1 = some ObjectClass)
    (hHasOuter : FJsonObject.HasField ObjectJson "Outer" = true)
    (hOuter : d rc.2 (FJsonObject.GetIntegerField ObjectJson "Outer")
      = Run.done (some OuterObject, st2))
    (hFind : StaticFindObjectFast st2 ObjectClass OuterObject
      (FJsonObject.GetStringField ObjectJson "ObjectName") = some ExistingObject)
    (hHasProperties : FJsonObject.HasField ObjectJson "Properties" = true)
    (hProperties : FJsonObject.GetObjectField ObjectJson "Properties" = some Properties)
    (hLink : DeserializeObjectProperties c d st2 Properties ExistingObject = Run.outOfFuel) :
    DeserializeExportedObject c d st ObjectJson = Run.outOfFuel := by
  simp [DeserializeExportedObject, hClass, hCast, hHasOuter, hOuter, hFind, hHasProperties,
    hProperties, hLink]

/-- Resolving `Leaf` (index `6`) once the caches are filled waits for `Root` (index `0`). -/
theorem CyclicArray_leaf_waits (fuel : Nat)
    (h : DeserializeObject ReferenceCodec (fuel + 1) (CyclicSessionWith CyclicCache) 0
      = Run.outOfFuel) :
    DeserializeObject ReferenceCodec (fuel + 2) (CyclicSessionWith CyclicCache) 6
      = Run.outOfFuel := by
  show DeserializeObjectBody ReferenceCodec (DeserializeObject ReferenceCodec (fuel + 1))
    (CyclicSessionWith CyclicCache) 6 = Run.outOfFuel
  rw [DeserializeObjectBody_export ReferenceCodec (DeserializeObject ReferenceCodec (fuel + 1))
    (CyclicSessionWith CyclicCache) 6 (CyclicArray.getD 6 []) (by decide) (by decide) rfl
    (by decide) (by decide)]
  rw [DeserializeExportedObject_outer_outOfFuel ReferenceCodec
    (DeserializeObject ReferenceCodec (fuel + 1)) (CyclicSessionWith CyclicCache)
    (CyclicArray.getD 6 []) (some 4, CyclicSessionWith CyclicCache) 4 rfl rfl (by decide) h]
  rfl

/-- Resolving `Root` (index `0`) once the caches are filled waits for `Leaf` (index `6`). -/
theorem CyclicArray_root_waits (fuel : Nat)
    (h : DeserializeObject ReferenceCodec (fuel + 1) (CyclicSessionWith CyclicCache) 6
      = Run.outOfFuel) :
    DeserializeObject ReferenceCodec (fuel + 2) (CyclicSessionWith CyclicCache) 0
      = Run.outOfFuel := by
  show DeserializeObjectBody ReferenceCodec (DeserializeObject ReferenceCodec (fuel + 1))
    (CyclicSessionWith CyclicCache) 0 = Run.outOfFuel
  rw [DeserializeObjectBody_export ReferenceCodec (DeserializeObject ReferenceCodec (fuel + 1))
    (CyclicSessionWith CyclicCache) 0 (CyclicArray.getD 0 []) (by decide) (by decide) rfl
    (by decide) (by decide)]
  rw [DeserializeExportedObject_property_outOfFuel ReferenceCodec
    (DeserializeObject ReferenceCodec (fuel + 1)) (CyclicSessionWith CyclicCache)
    (CyclicArray.getD 0 []) (some 7, CyclicSessionWith CyclicCache) 7 5 8
    (CyclicSessionWith CyclicCache)
    [("child", FJsonValue.Number 6), ("$ReferencedObjects", FJsonValue.Array [FJsonValue.Number 6])]
    rfl rfl (by decide) rfl (by decide) (by decide) rfl
    (DeserializePropertyLink_first_outOfFuel ReferenceCodec
      (DeserializeObject ReferenceCodec (fuel + 1)) _ 8
      { Name := "child", PropertyFlags := 2 } [] (CyclicSessionWith CyclicCache)
      (FJsonValue.Number 6) 6 [] rfl rfl rfl h)]
  rfl

/-- With the caches filled, `DeserializeObject(0)` runs out of every recursion budget. -/
theorem CyclicArray_filled_diverges (fuel : Nat) :
    DeserializeObject ReferenceCodec fuel (CyclicSessionWith CyclicCache) 0 = Run.outOfFuel := by
  induction fuel using Nat.strong_induction_on with
  | _ n ih =>
    match n with
    | 0 => rfl
    | 1 => rfl
    | 2 => rfl
    | k + 3 =>
      exact CyclicArray_root_waits (k + 1)
        (CyclicArray_leaf_waits k (ih (k + 1) (by omega)))

/-- C8: `CyclicArray` is the array produced by serializing `Root` of the scenario, whose
property references the sub-object `Leaf` whose outer is `Root`. In a fresh deserialization
session seeded with it, `DeserializeObject(0)` does not return within any recursion budget:
record `0` is not cached while its properties are applied, so resolving `Leaf` resolves record
`0` again, without end. -/
theorem DeserializeObject_cyclic_array_never_returns :
    ((SerializeObject ReferenceCodec 10 ScenarioSession (some 8)).bind fun r =>
        FinalizeSerialization r.2) = Run.done CyclicArray ∧
      ∀ fuel, DeserializeObject ReferenceCodec fuel CyclicSession 0 = Run.outOfFuel := by
  refine ⟨rfl, fun fuel => ?_⟩
  match fuel with
  | 0 => rfl
  | 1 => rfl
  | 2 => rfl
  | 3 => rfl
  | m + 4 =>
    have hLeaf : DeserializeObject ReferenceCodec (m + 3)
        (CyclicSessionWith [(2, some 3), (1, some 7), (5, some 0), (4, some 2), (3, some 5)]) 6
        = Run.outOfFuel := by
      show DeserializeObjectBody ReferenceCodec (DeserializeObject ReferenceCodec (m + 2))
        (CyclicSessionWith [(2, some 3), (1, some 7), (5, some 0), (4, some 2), (3, some 5)]) 6
        = Run.outOfFuel
      rw [DeserializeObjectBody_export ReferenceCodec (DeserializeObject ReferenceCodec (m + 2))
        (CyclicSessionWith [(2, some 3), (1, some 7), (5, some 0), (4, some 2), (3, some 5)]) 6
        (CyclicArray.getD 6 []) (by decide) (by decide) rfl (by decide) (by decide)]
      rw [DeserializeExportedObject_outer_outOfFuel ReferenceCodec
        (DeserializeObject ReferenceCodec (m + 2))
        (CyclicSessionWith [(2, some 3), (1, some 7), (5, some 0), (4, some 2), (3, some 5)])
        (CyclicArray.getD 6 []) (some 4, CyclicSessionWith CyclicCache) 4 rfl rfl (by decide)
        (CyclicArray_filled_diverges (m + 2))]
      rfl
    show DeserializeObjectBody ReferenceCodec (DeserializeObject ReferenceCodec (m + 3))
      CyclicSession 0 = Run.outOfFuel
    rw [DeserializeObjectBody_export ReferenceCodec (DeserializeObject ReferenceCodec (m + 3))
      CyclicSession 0 (CyclicArray.getD 0 []) (by decide) (by decide) rfl (by decide)
      (by decide)]
    rw [DeserializeExportedObject_property_outOfFuel ReferenceCodec
      (DeserializeObject ReferenceCodec (m + 3)) CyclicSession (CyclicArray.getD 0 [])
      (some 7, CyclicSessionWith [(2, some 3), (1, some 7)]) 7 5 8
      (CyclicSessionWith [(2, some 3), (1, some 7), (5, some 0), (4, some 2), (3, some 5)])
      [("child", FJsonValue.Number 6),
        ("$ReferencedObjects", FJsonValue.Array [FJsonValue.Number 6])]
      rfl rfl (by decide) rfl (by decide) (by decide) rfl
      (DeserializePropertyLink_first_outOfFuel ReferenceCodec
        (DeserializeObject ReferenceCodec (m + 3)) _ 8
        { Name := "child", PropertyFlags := 2 } []
        (CyclicSessionWith [(2, some 3), (1, some 7), (5, some 0), (4, some 2), (3, some 5)])
        (FJsonValue.Number 6) 6 [] rfl rfl rfl hLeaf)]
    rfl

/-! ## Serialization keeps the index table well-formed (C3, C4) -/

theorem Extends.refl (st : FSession) : Extends st st :=
  ⟨rfl, rfl, rfl, rfl, rfl, rfl, rfl, fun _ _ h => h, fun _ h => h, Nat.le_refl _, fun h => h⟩

theorem Extends.trans {st₁ st₂ st₃ : FSession} (h₁ : Extends st₁ st₂) (h₂ : Extends st₂ st₃) :
    Extends st₁ st₃ :=
  ⟨h₂.objects.trans h₁.objects, h₂.packageClass.trans h₁.packageClass,
    h₂.loadFlags.trans h₁.loadFlags,
    h₂.sourcePackage.trans h₁.sourcePackage, h₂.marks.trans h₁.marks,
    h₂.loaded.trans h₁.loaded, h₂.log.trans h₁.log,
    fun x i h => h₂.indices x i (h₁.indices x i h),
    fun i h => h₂.records i (h₁.records i h),
    Nat.le_trans h₁.last h₂.last,
    fun h => h₂.wellFormed (h₁.wellFormed h)⟩

theorem Contains_SetRecordField (st : FSession) (Index : Int) (name : String) (v : FJsonValue)
    (i : Int) :
    TMap.Contains (SetRecordField st Index name v).SerializedObjects i
      = (decide (Index = i) || TMap.Contains st.SerializedObjects i) := by
  simp [SetRecordField, TMap.Contains_Add]

theorem Extends_SetRecordField (st : FSession) (Index : Int) (name : String) (v : FJsonValue)
    (hIndex : TMap.Contains st.SerializedObjects Index = true) :
    Extends st (SetRecordField st Index name v) := by
  have hKeys : ∀ i, TMap.Contains (SetRecordField st Index name v).SerializedObjects i
      = TMap.Contains st.SerializedObjects i := by
    intro i
    rw [Contains_SetRecordField]
    by_cases h : Index = i
    · subst h
      simp [hIndex]
    · simp [h]
  refine ⟨rfl, rfl, rfl, rfl, rfl, rfl, rfl, fun _ _ h => h, fun i h => by rw [hKeys]; exact h,
    Nat.le_refl _, fun hWF => ?_⟩
  exact ⟨hWF.bounded, hWF.injective, hWF.surjective, fun i => by rw [hKeys]; exact hWF.records i⟩

theorem Extends_NoteNativeClass (st : FSession) (ObjectClass : ObjectId) :
    Extends st (NoteNativeClass st ObjectClass) := by
  unfold NoteNativeClass
  split
  · exact Extends.refl st
  · split
    · exact Extends.refl st
    · exact ⟨rfl, rfl, rfl, rfl, rfl, rfl, rfl, fun _ _ h => h, fun _ h => h, Nat.le_refl _,
        fun hWF => ⟨hWF.bounded, hWF.injective, hWF.surjective, hWF.records⟩⟩

theorem Extends_AllocateObject (st : FSession) (Object : ObjectId)
    (hNew : TMap.Find st.ObjectIndices Object = none) :
    Extends st (AllocateObject st Object) := by
  have hFind : ∀ x, TMap.Find (AllocateObject st Object).ObjectIndices x
      = if Object = x then some (st.LastObjectIndex : Int) else TMap.Find st.ObjectIndices x :=
    fun x => by simp [AllocateObject, TMap.Find_Add]
  have hKeys : ∀ i, TMap.Contains (AllocateObject st Object).SerializedObjects i
      = (decide ((st.LastObjectIndex : Int) = i) || TMap.Contains st.SerializedObjects i) :=
    fun i => by simp [AllocateObject, TMap.Contains_Add]
  have hLast : ((AllocateObject st Object).LastObjectIndex : Int) = st.LastObjectIndex + 1 := by
    simp [AllocateObject]
  refine ⟨rfl, rfl, rfl, rfl, rfl, rfl, rfl, ?_, ?_, ?_, ?_⟩
  · intro x i h
    rw [hFind]
    by_cases hx : Object = x
    · subst hx
      rw [hNew] at h
      cases h
    · simp [hx, h]
  · intro i h
    rw [hKeys]
    simp [h]
  · simp [AllocateObject]
  · intro hWF
    refine ⟨?_, ?_, ?_, ?_⟩
    · intro x i h
      rw [hFind] at h
      rw [hLast]
      by_cases hx : Object = x
      · simp [hx] at h
        omega
      · simp [hx] at h
        have := hWF.bounded x i h
        omega
    · intro x y i hx hy
      rw [hFind] at hx hy
      by_cases hx' : Object = x <;> by_cases hy' : Object = y
      · exact hx'.symm.trans hy'
      · simp [hx'] at hx
        simp [hy'] at hy
        have := hWF.bounded y i hy
        omega
      · simp [hx'] at hx
        simp [hy'] at hy
        have := hWF.bounded x i hx
        omega
      · simp [hx'] at hx
        simp [hy'] at hy
        exact hWF.injective x y i hx hy
    · intro i h0 hi
      rw [hLast] at hi
      by_cases hEq : i = (st.LastObjectIndex : Int)
      · exact ⟨Object, by rw [hFind]; simp [hEq]⟩
      · obtain ⟨x, hx⟩ := hWF.surjective i h0 (by omega)
        refine ⟨x, ?_⟩
        rw [hFind]
        by_cases hx' : Object = x
        · subst hx'
          rw [hNew] at hx
          cases hx
        · simp [hx', hx]
    · intro i
      rw [hKeys, hLast]
      have := hWF.records i
      by_cases hEq : (st.LastObjectIndex : Int) = i
      · simp [hEq]
        omega
      · simp only [hEq, decide_False, Bool.false_or, this]
        omega

theorem Extends.thenSet {st st₁ : FSession} (h : Extends st st₁) (Index : Int) (name : String)
    (v : FJsonValue) (hIndex : TMap.Contains st.SerializedObjects Index = true) :
    Extends st (SetRecordField st₁ Index name v) :=
  h.trans (Extends_SetRecordField st₁ Index name v (h.records Index hIndex))

theorem SerializeImportedObject_extends
    (ser : FSession → Option ObjectId → Run (Int × FSession))
    (hser : ∀ st o r, ser st o = Run.done r → Extends st r.2)
    (st : FSession) (ResultJson : Int) (Object : ObjectId) (st' : FSession)
    (hIndex : TMap.Contains st.SerializedObjects ResultJson = true)
    (h : SerializeImportedObject ser st ResultJson Object = Run.done st') : Extends st st' := by
  unfold SerializeImportedObject at h
  have h2 := ((Extends.refl st).thenSet ResultJson "ClassPackage"
    (FJsonValue.String (GetObject st (GetOutermost st (GetObject st Object).Class)).Name)
    hIndex).thenSet ResultJson "ClassName"
    (FJsonValue.String (GetObject st (GetObject st Object).Class).Name) hIndex
  cases hOuter : (GetObject st Object).Outer with
  | none =>
    simp only [hOuter, Run.done.injEq] at h
    subst h
    exact h2.thenSet ResultJson "ObjectName" _ hIndex
  | some OuterObject =>
    simp only [hOuter, Run.bind_eq_done, Run.done.injEq] at h
    obtain ⟨r, hr, rfl⟩ := h
    exact ((h2.trans (hser _ _ _ hr)).thenSet ResultJson "Outer" _ hIndex).thenSet ResultJson
      "ObjectName" _ hIndex

theorem SerializeSubobjects_extends
    (ser : FSession → Option ObjectId → Run (Int × FSession))
    (hser : ∀ st o r, ser st o = Run.done r → Extends st r.2)
    (os : List (Option ObjectId)) :
    ∀ (st : FSession) (rs : List Int × FSession),
      SerializeSubobjects ser st os = Run.done rs → Extends st rs.2 := by
  induction os with
  | nil =>
    intro st rs h
    simp only [SerializeSubobjects, Run.done.injEq] at h
    subst h
    exact Extends.refl st
  | cons o os ih =>
    intro st rs h
    simp only [SerializeSubobjects, Run.bind_eq_done, Run.done.injEq] at h
    obtain ⟨r, hr, rs', hrs, rfl⟩ := h
    exact (hser _ _ _ hr).trans (ih _ rs' hrs)

theorem SerializePropertyLink_extends (c : UPropertySerializer)
    (ser : FSession → Option ObjectId → Run (Int × FSession))
    (hser : ∀ st o r, ser st o = Run.done r → Extends st r.2)
    (Object : ObjectId) (link : List FProperty) :
    ∀ (st : FSession) (Properties : FJsonObject) (Referenced : List Int)
      (r : (FJsonObject × List Int) × FSession),
      SerializePropertyLink c ser Object link st Properties Referenced = Run.done r →
      Extends st r.2 := by
  induction link with
  | nil =>
    intro st Properties Referenced r h
    simp only [SerializePropertyLink, Run.done.injEq] at h
    subst h
    exact Extends.refl st
  | cons Property Next ih =>
    intro st Properties Referenced r h
    simp only [SerializePropertyLink] at h
    split at h
    · simp only [Run.bind_eq_done] at h
      obtain ⟨rs, hrs, hNext⟩ := h
      exact (SerializeSubobjects_extends ser hser _ _ _ hrs).trans (ih _ _ _ _ hNext)
    · exact ih _ _ _ _ h

theorem SerializeObjectProperties_extends (c : UPropertySerializer)
    (ser : FSession → Option ObjectId → Run (Int × FSession))
    (hser : ∀ st o r, ser st o = Run.done r → Extends st r.2)
    (st : FSession) (Object : ObjectId) (r : FJsonObject × FSession)
    (h : SerializeObjectProperties c ser st Object = Run.done r) : Extends st r.2 := by
  simp only [SerializeObjectProperties, SerializeObjectPropertiesIntoObject, Run.bind_eq_done,
    Run.done.injEq] at h
  obtain ⟨rl, hrl, rfl⟩ := h
  exact SerializePropertyLink_extends c ser hser _ _ _ _ _ _ hrl

theorem SerializeExportedObject_extends (c : UPropertySerializer)
    (ser : FSession → Option ObjectId → Run (Int × FSession))
    (hser : ∀ st o r, ser st o = Run.done r → Extends st r.2)
    (st : FSession) (ResultJson : Int) (Object : ObjectId) (st' : FSession)
    (hIndex : TMap.Contains st.SerializedObjects ResultJson = true)
    (h : SerializeExportedObject c ser st ResultJson Object = Run.done st') : Extends st st' := by
  simp only [SerializeExportedObject, Run.bind_eq_done] at h
  obtain ⟨rc, hrc, h⟩ := h
  have h1 := (hser _ _ _ hrc).thenSet ResultJson "ObjectClass" (FJsonValue.Number rc.1) hIndex
  cases hOuter : (GetObject st Object).Outer with
  | none =>
    simp only [hOuter] at h
    split at h
    · simp only [Run.done.injEq] at h
      subst h
      exact h1
    · cases h
  | some OuterObject =>
    simp only [hOuter, Run.bind_eq_done, Run.done.injEq] at h
    obtain ⟨ro, hro, rp, hrp, rfl⟩ := h
    have h4 := (((h1.trans (hser _ _ _ hro)).thenSet ResultJson "Outer" (FJsonValue.Number ro.1)
      hIndex).thenSet ResultJson "ObjectName" (FJsonValue.String (GetObject st Object).Name)
      hIndex).thenSet ResultJson "ObjectFlags"
      (FJsonValue.Number (((GetObject st Object).Flags &&& st.RF_Load : Nat) : Int)) hIndex
    exact ((h4.trans (Extends_NoteNativeClass _ _)).trans
      (SerializeObjectProperties_extends c ser hser _ _ _ hrp)).thenSet ResultJson "Properties" _
      hIndex

theorem SerializeObjectBody_spec (c : UPropertySerializer)
    (ser : FSession → Option ObjectId → Run (Int × FSession))
    (hser : ∀ st o r, ser st o = Run.done r → Extends st r.2)
    (st : FSession) (Object : Option ObjectId) (r : Int × FSession)
    (h : SerializeObjectBody c ser st Object = Run.done r) :
    Extends st r.2 ∧ ∀ x, Object = some x → TMap.Find r.2.ObjectIndices x = some r.1 := by
  cases Object with
  | none =>
    simp only [SerializeObjectBody, Run.done.injEq] at h
    subst h
    exact ⟨Extends.refl st, fun x hx => by cases hx⟩
  | some x =>
    simp only [SerializeObjectBody] at h
    cases hFind : TMap.Find st.ObjectIndices x with
    | some i =>
      simp only [hFind, Run.done.injEq] at h
      subst h
      exact ⟨Extends.refl st, fun y hy => by cases hy; exact hFind⟩
    | none =>
      simp only [hFind] at h
      have hA := Extends_AllocateObject st x hFind
      have hRec : TMap.Contains (AllocateObject st x).SerializedObjects (st.LastObjectIndex : Int)
          = true := by
        simp [AllocateObject, TMap.Contains_Add]
      have hIdx : TMap.Find (AllocateObject st x).ObjectIndices x
          = some (st.LastObjectIndex : Int) := by
        simp [AllocateObject, TMap.Find_Add_self]
      have hType : ∀ t, Extends (AllocateObject st x)
          (SetRecordField (AllocateObject st x) (st.LastObjectIndex : Int) "Type" t) :=
        fun t => Extends_SetRecordField _ _ _ _ hRec
      have key : ∀ st₂, Extends (AllocateObject st x) st₂ →
          Extends st st₂ ∧ ∀ y, some x = some y →
            TMap.Find st₂.ObjectIndices y = some (st.LastObjectIndex : Int) := by
        intro st₂ h₂
        refine ⟨hA.trans h₂, fun y hy => ?_⟩
        cases hy
        exact h₂.indices _ _ hIdx
      split at h
      · simp only [Run.bind_eq_done, Run.done.injEq] at h
        obtain ⟨st₂, hst₂, rfl⟩ := h
        exact key _ ((hType _).trans (SerializeImportedObject_extends ser hser _ _ _ _
          ((hType _).records _ hRec) hst₂))
      · cases hMark : TMap.Find st.ObjectMarks x with
        | some ObjectMark =>
          simp only [hMark, Run.done.injEq] at h
          subst h
          exact key _ ((hType _).thenSet _ _ _ hRec)
        | none =>
          simp only [hMark, Run.bind_eq_done, Run.done.injEq] at h
          obtain ⟨st₂, hst₂, rfl⟩ := h
          exact key _ ((hType _).trans (SerializeExportedObject_extends c ser hser _ _ _ _
            ((hType _).records _ hRec) hst₂))

theorem SerializeObject_spec (c : UPropertySerializer) (fuel : Nat) :
    ∀ (st : FSession) (Object : Option ObjectId) (r : Int × FSession),
      SerializeObject c fuel st Object = Run.done r →
      Extends st r.2 ∧ ∀ x, Object = some x → TMap.Find r.2.ObjectIndices x = some r.1 := by
  induction fuel with
  | zero =>
    intro st Object r h
    cases h
  | succ fuel ih =>
    intro st Object r h
    exact SerializeObjectBody_spec c (SerializeObject c fuel) (fun st o r hr => (ih st o r hr).1)
      st Object r h

theorem IndexTableWellFormed_NewSerializer (Objects : List UObject) (PackageClass : ObjectId)
    (RF_Load : Nat) (AllowedClasses : List ObjectId) (NewSourcePackage : ObjectId) :
    IndexTableWellFormed
      (InitializeForSerialization (NewSerializer Objects PackageClass RF_Load AllowedClasses)
        NewSourcePackage) := by
  refine ⟨?_, ?_, ?_, ?_⟩
  · intro x i h
    simp [InitializeForSerialization, NewSerializer, TMap.Find] at h
  · intro x y i h
    simp [InitializeForSerialization, NewSerializer, TMap.Find] at h
  · intro i h0 hi
    simp [InitializeForSerialization, NewSerializer] at hi
    omega
  · intro i
    simp [InitializeForSerialization, NewSerializer, TMap.Contains, TMap.Find]

/-- C3: when `SerializeObject(x)` has returned index `i` in a session, a second
`SerializeObject(x)` returns `i` again (with any positive recursion budget) and leaves the whole
session state unchanged (record collection, index table and `LastObjectIndex` included); `x` is
entered under `i`, and when the index table was well-formed before the first call `i` has a
record and is the index of no other object. -/
theorem SerializeObject_dedup (c : UPropertySerializer) (fuel fuel' : Nat) (st : FSession)
    (x : ObjectId) (i : Int) (st' : FSession)
    (h : SerializeObject c fuel st (some x) = Run.done (i, st')) :
    SerializeObject c (fuel' + 1) st' (some x) = Run.done (i, st') ∧
      TMap.Find st'.ObjectIndices x = some i ∧
      (IndexTableWellFormed st →
        TMap.Contains st'.SerializedObjects i = true ∧
        ∀ y, TMap.Find st'.ObjectIndices y = some i → y = x) := by
  have hSpec := SerializeObject_spec c fuel st (some x) (i, st') h
  have hFind : TMap.Find st'.ObjectIndices x = some i := hSpec.2 x rfl
  refine ⟨?_, hFind, fun hWF => ?_⟩
  · simp [SerializeObject, SerializeObjectBody, hFind]
  · have hWF' := hSpec.1.wellFormed hWF
    exact ⟨(hWF'.records i).mpr (hWF'.bounded x i hFind),
      fun y hy => hWF'.injective y x i hy hFind⟩

/-- Witness of `SerializeObject_dedup` (C3): `Foo` of the scenario, serialized twice. -/
theorem SerializeObject_dedup_witness :
    SerializeObject ReferenceCodec 1 ScenarioSerialized (some 6)
        = Run.done (0, ScenarioSerialized) ∧
      TMap.Find ScenarioSerialized.ObjectIndices 6 = some 0 ∧
      TMap.Contains ScenarioSerialized.SerializedObjects 0 = true ∧
      ∀ y, TMap.Find ScenarioSerialized.ObjectIndices y = some 0 → y = 6 :=
  have h := SerializeObject_dedup ReferenceCodec 10 0 ScenarioSession 6 0 ScenarioSerialized rfl
  ⟨h.1, h.2.1, h.2.2 (IndexTableWellFormed_NewSerializer ScenarioHeap 2 15 [1] 5)⟩

theorem RunSession_wellFormed (c : UPropertySerializer) (fuel : Nat) (ops : List SessionOp) :
    ∀ (st st' : FSession), IndexTableWellFormed st → RunSession c fuel st ops = Run.done st' →
      IndexTableWellFormed st' := by
  induction ops with
  | nil =>
    intro st st' hWF h
    simp only [RunSession, Run.done.injEq] at h
    subst h
    exact hWF
  | cons op ops ih =>
    intro st st' hWF h
    cases op with
    | SetObjectMark Object ObjectMark =>
      simp only [RunSession] at h
      exact ih (SetObjectMark st Object ObjectMark) st'
        ⟨hWF.bounded, hWF.injective, hWF.surjective, hWF.records⟩ h
    | SerializeObject Object =>
      simp only [RunSession, Run.bind_eq_done] at h
      obtain ⟨r, hr, h⟩ := h
      exact ih _ _ ((SerializeObject_spec c fuel st Object r hr).1.wellFormed hWF) h

theorem FinalizeLoop_done (m : TMap Int FJsonObject) (n : Nat) :
    ∀ i : Nat, (∀ k : Nat, k < n → TMap.Contains m ((i + k : Nat) : Int) = true) →
      ∃ arr, FinalizeLoop m i n = Run.done arr ∧ arr.length = n ∧
        ∀ r ∈ arr, ∃ k : Nat, k < n ∧ TMap.Find m ((i + k : Nat) : Int) = some r := by
  induction n with
  | zero =>
    intro i _
    exact ⟨[], rfl, rfl, fun r hr => by cases hr⟩
  | succ n ih =>
    intro i h
    have h0 := h 0 (Nat.succ_pos n)
    simp only [TMap.Contains, Nat.add_zero, Option.isSome_iff_exists] at h0
    obtain ⟨r0, hr0⟩ := h0
    obtain ⟨rest, hrest, hlen, hmem⟩ := ih (i + 1) (fun k hk => by
      have := h (k + 1) (by omega)
      rwa [show i + (k + 1) = i + 1 + k by omega] at this)
    refine ⟨r0 :: rest, by simp [FinalizeLoop, hr0, hrest], by simp [hlen], ?_⟩
    intro r hr
    rcases List.mem_cons.mp hr with rfl | hr
    · exact ⟨0, Nat.succ_pos n, by simpa using hr0⟩
    · obtain ⟨k, hk, hfind⟩ := hmem r hr
      exact ⟨k + 1, by omega, by rwa [show i + (k + 1) = i + 1 + k by omega]⟩

theorem FinalizeSerialization_done (st : FSession) (hWF : IndexTableWellFormed st) :
    ∃ arr, FinalizeSerialization st = Run.done arr ∧ arr.length = st.LastObjectIndex ∧
      ∀ r ∈ arr, ∃ i : Int, TMap.Find st.SerializedObjects i = some r := by
  obtain ⟨arr, harr, hlen, hmem⟩ := FinalizeLoop_done st.SerializedObjects st.LastObjectIndex 0
    (fun k hk => (hWF.records _).mpr ⟨by omega, by omega⟩)
  exact ⟨arr, harr, hlen, fun r hr => by
    obtain ⟨k, _, hfind⟩ := hmem r hr
    exact ⟨_, hfind⟩⟩

/-- C4: in a session that starts fresh and performs only `SetObjectMark` and `SerializeObject`
calls, once the calls have completed the index table is injective, the indices in use are
exactly `0 .. LastObjectIndex - 1`, each of them has a record, and `FinalizeSerialization`
returns an array (of `LastObjectIndex` records) instead of failing its missing-record check. -/
theorem RunSession_index_table (c : UPropertySerializer) (fuel : Nat) (Objects : List UObject)
    (PackageClass : ObjectId) (RF_Load : Nat) (AllowedClasses : List ObjectId)
    (NewSourcePackage : ObjectId)
    (ops : List SessionOp) (st : FSession)
    (h : RunSession c fuel
      (InitializeForSerialization (NewSerializer Objects PackageClass RF_Load AllowedClasses)
        NewSourcePackage) ops = Run.done st) :
    (∀ x y i, TMap.Find st.ObjectIndices x = some i → TMap.Find st.ObjectIndices y = some i →
        x = y) ∧
      (∀ i : Int, (∃ x, TMap.Find st.ObjectIndices x = some i) ↔
        (0 ≤ i ∧ i < (st.LastObjectIndex : Int))) ∧
      (∀ i : Int, 0 ≤ i → i < (st.LastObjectIndex : Int) →
        TMap.Contains st.SerializedObjects i = true) ∧
      ∃ arr, FinalizeSerialization st = Run.done arr ∧ arr.length = st.LastObjectIndex := by
  have hWF := RunSession_wellFormed c fuel ops _ st
    (IndexTableWellFormed_NewSerializer Objects PackageClass RF_Load AllowedClasses
      NewSourcePackage) h
  refine ⟨hWF.injective, fun i => ⟨fun ⟨x, hx⟩ => hWF.bounded x i hx,
    fun hi => hWF.surjective i hi.1 hi.2⟩, fun i h0 hi => (hWF.records i).mpr ⟨h0, hi⟩, ?_⟩
  obtain ⟨arr, harr, hlen, _⟩ := FinalizeSerialization_done st hWF
  exact ⟨arr, harr, hlen⟩

/-- Witness of `RunSession_index_table` (C4): the scenario session after `ScenarioOps`. -/
theorem RunSession_index_table_witness :
    (∀ x y i, TMap.Find ScenarioAfterOps.ObjectIndices x = some i →
        TMap.Find ScenarioAfterOps.ObjectIndices y = some i → x = y) ∧
      (∀ i : Int, (∃ x, TMap.Find ScenarioAfterOps.ObjectIndices x = some i) ↔
        (0 ≤ i ∧ i < (ScenarioAfterOps.LastObjectIndex : Int))) ∧
      (∀ i : Int, 0 ≤ i → i < (ScenarioAfterOps.LastObjectIndex : Int) →
        TMap.Contains ScenarioAfterOps.SerializedObjects i = true) ∧
      ∃ arr, FinalizeSerialization ScenarioAfterOps = Run.done arr ∧
        arr.length = ScenarioAfterOps.LastObjectIndex :=
  RunSession_index_table ReferenceCodec 10 ScenarioHeap 2 15 [1] 5 ScenarioOps ScenarioAfterOps rfl

/-! ## Closure of the record collection (C5) -/

theorem SafeField_mono {recs recs' : TMap Int FJsonObject} {name : String} {v : FJsonValue}
    (hMono : ∀ k, TMap.Contains recs k = true → TMap.Contains recs' k = true)
    (h : SafeField recs name v) : SafeField recs' name v :=
  ⟨fun hn k hk => hMono k (h.1 hn k hk),
    fun hn fs xs hv hfs x hx => hMono _ (h.2 hn fs xs hv hfs x hx)⟩

theorem SafeField_plain (recs : TMap Int FJsonObject) (name : String) (v : FJsonValue)
    (h1 : name ≠ "ObjectClass") (h2 : name ≠ "Outer") (h3 : name ≠ "Properties") :
    SafeField recs name v :=
  ⟨fun hn => by rcases hn with hn | hn <;> contradiction, fun hn => absurd hn h3⟩

theorem SafeField_index (recs : TMap Int FJsonObject) (name : String) (i : Int)
    (hName : name ≠ "Properties") (hi : TMap.Contains recs i = true) :
    SafeField recs name (FJsonValue.Number i) :=
  ⟨fun _ k hk => by cases hk; exact hi, fun hn => absurd hn hName⟩

theorem Closed_Add (recs : TMap Int FJsonObject) (Index : Int) (r : FJsonObject)
    (hClosed : Closed recs)
    (hr : ∀ name v, TMap.Find r name = some v → SafeField recs name v) :
    Closed (TMap.Add recs Index r) := by
  have hMono : ∀ k, TMap.Contains recs k = true → TMap.Contains (TMap.Add recs Index r) k = true :=
    fun k hk => by rw [TMap.Contains_Add]; simp [hk]
  intro i r' hFind name v hv
  rw [TMap.Find_Add] at hFind
  by_cases hi : Index = i
  · simp only [hi, if_true, Option.some.injEq] at hFind
    subst hFind
    exact SafeField_mono hMono (hr name v hv)
  · simp only [hi, if_false] at hFind
    exact SafeField_mono hMono (hClosed i r' hFind name v hv)

theorem Good.setSafe {st : FSession} (hG : Good st) (Index : Int) (name : String) (v : FJsonValue)
    (hIndex : TMap.Contains st.SerializedObjects Index = true)
    (hSafe : SafeField st.SerializedObjects name v) :
    Good (SetRecordField st Index name v) := by
  refine ⟨(Extends_SetRecordField st Index name v hIndex).wellFormed hG.1, ?_⟩
  show Closed (TMap.Add st.SerializedObjects Index
    (FJsonObject.SetField (GetRecord st Index) name v))
  apply Closed_Add _ _ _ hG.2
  intro name' v' hv'
  simp only [FJsonObject.SetField, TMap.Find_Add] at hv'
  by_cases hn : name = name'
  · simp only [hn, if_true, Option.some.injEq] at hv'
    subst hn
    subst hv'
    exact hSafe
  · simp only [hn, if_false] at hv'
    unfold GetRecord at hv'
    cases hRec : TMap.Find st.SerializedObjects Index with
    | none =>
      rw [hRec] at hv'
      simp [TMap.Find] at hv'
    | some r =>
      rw [hRec] at hv'
      exact hG.2 Index r hRec name' v' hv'

theorem Good.plain {st : FSession} (hG : Good st) (Index : Int) (name : String) (v : FJsonValue)
    (hIndex : TMap.Contains st.SerializedObjects Index = true)
    (h1 : name ≠ "ObjectClass") (h2 : name ≠ "Outer") (h3 : name ≠ "Properties") :
    Good (SetRecordField st Index name v) :=
  hG.setSafe Index name v hIndex (SafeField_plain _ name v h1 h2 h3)

theorem Good_AllocateObject (st : FSession) (Object : ObjectId) (hG : Good st)
    (hNew : TMap.Find st.ObjectIndices Object = none) : Good (AllocateObject st Object) := by
  refine ⟨(Extends_AllocateObject st Object hNew).wellFormed hG.1, ?_⟩
  show Closed (TMap.Add st.SerializedObjects (st.LastObjectIndex : Int)
    [("ObjectIndex", FJsonValue.Number (st.LastObjectIndex : Int))])
  apply Closed_Add _ _ _ hG.2
  intro name v hv
  by_cases hn : "ObjectIndex" = name
  · subst hn
    exact SafeField_plain _ _ _ (by decide) (by decide) (by decide)
  · simp [TMap.Find, hn] at hv

theorem Good_NoteNativeClass (st : FSession) (ObjectClass : ObjectId) (hG : Good st) :
    Good (NoteNativeClass st ObjectClass) := by
  refine ⟨(Extends_NoteNativeClass st ObjectClass).wellFormed hG.1, ?_⟩
  have : (NoteNativeClass st ObjectClass).SerializedObjects = st.SerializedObjects := by
    unfold NoteNativeClass
    split
    · rfl
    · split <;> rfl
  rw [this]
  exact hG.2

theorem SerializeImportedObject_good
    (ser : FSession → Option ObjectId → Run (Int × FSession))
    (hser : ∀ st o r, ser st o = Run.done r → Extends st r.2 ∧
      (Good st → Good r.2 ∧ ∀ x, o = some x → TMap.Contains r.2.SerializedObjects r.1 = true))
    (st : FSession) (ResultJson : Int) (Object : ObjectId) (st' : FSession)
    (hIndex : TMap.Contains st.SerializedObjects ResultJson = true) (hG : Good st)
    (h : SerializeImportedObject ser st ResultJson Object = Run.done st') : Good st' := by
  unfold SerializeImportedObject at h
  have e1 := Extends_SetRecordField st ResultJson "ClassPackage"
    (FJsonValue.String (GetObject st (GetOutermost st (GetObject st Object).Class)).Name) hIndex
  have g1 := hG.plain ResultJson "ClassPackage"
    (FJsonValue.String (GetObject st (GetOutermost st (GetObject st Object).Class)).Name) hIndex
    (by decide) (by decide) (by decide)
  have e2 := e1.thenSet ResultJson "ClassName"
    (FJsonValue.String (GetObject st (GetObject st Object).Class).Name) hIndex
  have g2 := g1.plain ResultJson "ClassName"
    (FJsonValue.String (GetObject st (GetObject st Object).Class).Name) (e1.records _ hIndex)
    (by decide) (by decide) (by decide)
  cases hOuter : (GetObject st Object).Outer with
  | none =>
    simp only [hOuter, Run.done.injEq] at h
    subst h
    exact g2.plain ResultJson "ObjectName" _ (e2.records _ hIndex) (by decide) (by decide)
      (by decide)
  | some OuterObject =>
    simp only [hOuter, Run.bind_eq_done, Run.done.injEq] at h
    obtain ⟨r, hr, rfl⟩ := h
    obtain ⟨e3, g3⟩ := hser _ _ _ hr
    obtain ⟨g3, hValid⟩ := g3 g2
    have e3' := e2.trans e3
    have g4 := g3.setSafe ResultJson "Outer" (FJsonValue.Number r.1) (e3'.records _ hIndex)
      (SafeField_index _ _ _ (by decide) (hValid OuterObject rfl))
    exact g4.plain ResultJson "ObjectName" _
      ((e3'.thenSet ResultJson "Outer" (FJsonValue.Number r.1) hIndex).records _ hIndex)
      (by decide) (by decide) (by decide)

theorem SerializeSubobjects_good
    (ser : FSession → Option ObjectId → Run (Int × FSession))
    (hser : ∀ st o r, ser st o = Run.done r → Extends st r.2 ∧
      (Good st → Good r.2 ∧ ∀ x, o = some x → TMap.Contains r.2.SerializedObjects r.1 = true))
    (os : List (Option ObjectId)) (hNonNull : ∀ o ∈ os, o ≠ none) :
    ∀ (st : FSession) (rs : List Int × FSession), Good st →
      SerializeSubobjects ser st os = Run.done rs →
      Good rs.2 ∧ ∀ i ∈ rs.1, TMap.Contains rs.2.SerializedObjects i = true := by
  induction os with
  | nil =>
    intro st rs hG h
    simp only [SerializeSubobjects, Run.done.injEq] at h
    subst h
    exact ⟨hG, fun i hi => by cases hi⟩
  | cons o os ih =>
    intro st rs hG h
    simp only [SerializeSubobjects, Run.bind_eq_done, Run.done.injEq] at h
    obtain ⟨r, hr, rs', hrs, rfl⟩ := h
    obtain ⟨_, g⟩ := hser _ _ _ hr
    obtain ⟨g, hValid⟩ := g hG
    obtain ⟨gs, hs⟩ := ih (fun o' ho' => hNonNull o' (List.mem_cons_of_mem _ ho')) r.2 rs' g hrs
    refine ⟨gs, fun i hi => ?_⟩
    rcases List.mem_cons.mp hi with rfl | hi
    · cases o with
      | none => exact absurd rfl (hNonNull none (List.mem_cons_self _ _))
      | some x =>
        exact (SerializeSubobjects_extends ser (fun st o r h => (hser st o r h).1) os r.2 rs'
          hrs).records _ (hValid x rfl)
    · exact hs i hi

theorem SerializePropertyLink_good (c : UPropertySerializer)
    (hc : RecordsOnlyReturnedIndices c)
    (ser : FSession → Option ObjectId → Run (Int × FSession))
    (hser : ∀ st o r, ser st o = Run.done r → Extends st r.2 ∧
      (Good st → Good r.2 ∧ ∀ x, o = some x → TMap.Contains r.2.SerializedObjects r.1 = true))
    (Object : ObjectId) (link : List FProperty) :
    ∀ (st : FSession) (Properties : FJsonObject) (Referenced : List Int)
      (r : (FJsonObject × List Int) × FSession), Good st →
      (∀ x ∈ Referenced, TMap.Contains st.SerializedObjects x = true) →
      SerializePropertyLink c ser Object link st Properties Referenced = Run.done r →
      Good r.2 ∧ ∀ x ∈ r.1.2, TMap.Contains r.2.SerializedObjects x = true := by
  induction link with
  | nil =>
    intro st Properties Referenced r hG hRef h
    simp only [SerializePropertyLink, Run.done.injEq] at h
    subst h
    exact ⟨hG, hRef⟩
  | cons Property Next ih =>
    intro st Properties Referenced r hG hRef h
    simp only [SerializePropertyLink] at h
    split at h
    · simp only [Run.bind_eq_done] at h
      obtain ⟨rs, hrs, hNext⟩ := h
      obtain ⟨gs, hs⟩ := SerializeSubobjects_good ser hser _ (fun o ho => hc.1 _ _ o ho) st rs hG
        hrs
      have es := SerializeSubobjects_extends ser (fun st o r h => (hser st o r h).1) _ st rs hrs
      refine ih _ _ _ _ gs (fun x hx => ?_) hNext
      rcases hc.2 _ _ _ _ x hx with hx | hx
      · exact hs x hx
      · exact es.records x (hRef x hx)
    · exact ih _ _ _ _ hG hRef h

theorem SerializeObjectProperties_good (c : UPropertySerializer)
    (hc : RecordsOnlyReturnedIndices c)
    (ser : FSession → Option ObjectId → Run (Int × FSession))
    (hser : ∀ st o r, ser st o = Run.done r → Extends st r.2 ∧
      (Good st → Good r.2 ∧ ∀ x, o = some x → TMap.Contains r.2.SerializedObjects r.1 = true))
    (st : FSession) (Object : ObjectId) (r : FJsonObject × FSession) (hG : Good st)
    (h : SerializeObjectProperties c ser st Object = Run.done r) :
    Good r.2 ∧ SafeField r.2.SerializedObjects "Properties" (FJsonValue.Object r.1) := by
  simp only [SerializeObjectProperties, SerializeObjectPropertiesIntoObject, Run.bind_eq_done,
    Run.done.injEq] at h
  obtain ⟨rl, hrl, rfl⟩ := h
  obtain ⟨g, hRef⟩ := SerializePropertyLink_good c hc ser hser _ _ st [] [] rl hG
    (fun x hx => by cases hx) hrl
  refine ⟨g, fun hn => by rcases hn with hn | hn <;> exact absurd hn (by decide), ?_⟩
  intro _ fs xs hfs hFind x hx
  simp only [FJsonValue.Object.injEq] at hfs
  subst hfs
  simp only [FJsonObject.SetField, TMap.Find_Add_self, Option.some.injEq,
    FJsonValue.Array.injEq] at hFind
  subst hFind
  obtain ⟨k, hk, rfl⟩ := List.mem_map.mp hx
  exact hRef k hk

theorem SerializeExportedObject_good (c : UPropertySerializer)
    (hc : RecordsOnlyReturnedIndices c)
    (ser : FSession → Option ObjectId → Run (Int × FSession))
    (hser : ∀ st o r, ser st o = Run.done r → Extends st r.2 ∧
      (Good st → Good r.2 ∧ ∀ x, o = some x → TMap.Contains r.2.SerializedObjects r.1 = true))
    (st : FSession) (ResultJson : Int) (Object : ObjectId) (st' : FSession)
    (hIndex : TMap.Contains st.SerializedObjects ResultJson = true) (hG : Good st)
    (h : SerializeExportedObject c ser st ResultJson Object = Run.done st') : Good st' := by
  have hser' : ∀ st o r, ser st o = Run.done r → Extends st r.2 :=
    fun st o r h => (hser st o r h).1
  simp only [SerializeExportedObject, Run.bind_eq_done] at h
  obtain ⟨rc, hrc, h⟩ := h
  obtain ⟨ec, gc⟩ := hser _ _ _ hrc
  obtain ⟨gc, hcValid⟩ := gc hG
  have g1 := gc.setSafe ResultJson "ObjectClass" (FJsonValue.Number rc.1) (ec.records _ hIndex)
    (SafeField_index _ _ _ (by decide) (hcValid _ rfl))
  have e1 := ec.thenSet ResultJson "ObjectClass" (FJsonValue.Number rc.1) hIndex
  cases hOuter : (GetObject st Object).Outer with
  | none =>
    simp only [hOuter] at h
    split at h
    · simp only [Run.done.injEq] at h
      subst h
      exact g1
    · cases h
  | some OuterObject =>
    simp only [hOuter, Run.bind_eq_done, Run.done.injEq] at h
    obtain ⟨ro, hro, rp, hrp, rfl⟩ := h
    obtain ⟨eo, go⟩ := hser _ _ _ hro
    obtain ⟨go, hoValid⟩ := go g1
    have eo' := e1.trans eo
    have g2 := go.setSafe ResultJson "Outer" (FJsonValue.Number ro.1) (eo'.records _ hIndex)
      (SafeField_index _ _ _ (by decide) (hoValid _ rfl))
    have e2 := eo'.thenSet ResultJson "Outer" (FJsonValue.Number ro.1) hIndex
    have g3 := g2.plain ResultJson "ObjectName" (FJsonValue.String (GetObject st Object).Name)
      (e2.records _ hIndex) (by decide) (by decide) (by decide)
    have e3 := e2.thenSet ResultJson "ObjectName" (FJsonValue.String (GetObject st Object).Name)
      hIndex
    have g4 := g3.plain ResultJson "ObjectFlags"
      (FJsonValue.Number (((GetObject st Object).Flags &&& st.RF_Load : Nat) : Int))
      (e3.records _ hIndex) (by decide) (by decide) (by decide)
    have e4 := e3.thenSet ResultJson "ObjectFlags"
      (FJsonValue.Number (((GetObject st Object).Flags &&& st.RF_Load : Nat) : Int)) hIndex
    have g5 := Good_NoteNativeClass _ (GetObject st Object).Class g4
    have e5 := e4.trans (Extends_NoteNativeClass _ (GetObject st Object).Class)
    obtain ⟨g6, hSafe⟩ := SerializeObjectProperties_good c hc ser hser _ _ rp g5 hrp
    have e6 := e5.trans (SerializeObjectProperties_extends c ser hser' _ _ _ hrp)
    exact g6.setSafe ResultJson "Properties" _ (e6.records _ hIndex) hSafe

theorem SerializeObjectBody_good (c : UPropertySerializer)
    (hc : RecordsOnlyReturnedIndices c)
    (ser : FSession → Option ObjectId → Run (Int × FSession))
    (hser : ∀ st o r, ser st o = Run.done r → Extends st r.2 ∧
      (Good st → Good r.2 ∧ ∀ x, o = some x → TMap.Contains r.2.SerializedObjects r.1 = true))
    (st : FSession) (Object : Option ObjectId) (r : Int × FSession) (hG : Good st)
    (h : SerializeObjectBody c ser st Object = Run.done r) :
    Good r.2 ∧ ∀ x, Object = some x → TMap.Contains r.2.SerializedObjects r.1 = true := by
  have hser' : ∀ st o r, ser st o = Run.done r → Extends st r.2 :=
    fun st o r h => (hser st o r h).1
  obtain ⟨hExt, hIdx⟩ := SerializeObjectBody_spec c ser hser' st Object r h
  have hValid : ∀ x, Object = some x → TMap.Contains r.2.SerializedObjects r.1 = true := by
    intro x hx
    have hWF := hExt.wellFormed hG.1
    exact (hWF.records r.1).mpr (hWF.bounded x r.1 (hIdx x hx))
  refine ⟨?_, hValid⟩
  cases Object with
  | none =>
    simp only [SerializeObjectBody, Run.done.injEq] at h
    subst h
    exact hG
  | some x =>
    simp only [SerializeObjectBody] at h
    cases hFind : TMap.Find st.ObjectIndices x with
    | some i =>
      simp only [hFind, Run.done.injEq] at h
      subst h
      exact hG
    | none =>
      simp only [hFind] at h
      have gA := Good_AllocateObject st x hG hFind
      have hRec : TMap.Contains (AllocateObject st x).SerializedObjects (st.LastObjectIndex : Int)
          = true := by
        simp [AllocateObject, TMap.Contains_Add]
      have gT : ∀ t, Good (SetRecordField (AllocateObject st x) (st.LastObjectIndex : Int) "Type"
          (FJsonValue.String t)) :=
        fun t => gA.plain _ _ _ hRec (by decide) (by decide) (by decide)
      have hRecT : ∀ t, TMap.Contains (SetRecordField (AllocateObject st x)
          (st.LastObjectIndex : Int) "Type" (FJsonValue.String t)).SerializedObjects
          (st.LastObjectIndex : Int) = true :=
        fun t => (Extends_SetRecordField _ _ _ _ hRec).records _ hRec
      split at h
      · simp only [Run.bind_eq_done, Run.done.injEq] at h
        obtain ⟨st₂, hst₂, rfl⟩ := h
        exact SerializeImportedObject_good ser hser _ _ _ _ (hRecT _) (gT _) hst₂
      · cases hMark : TMap.Find st.ObjectMarks x with
        | some ObjectMark =>
          simp only [hMark, Run.done.injEq] at h
          subst h
          exact (gT _).plain _ _ _ (hRecT _) (by decide) (by decide) (by decide)
        | none =>
          simp only [hMark, Run.bind_eq_done, Run.done.injEq] at h
          obtain ⟨st₂, hst₂, rfl⟩ := h
          exact SerializeExportedObject_good c hc ser hser _ _ _ _ (hRecT _) (gT _) hst₂

theorem SerializeObject_good (c : UPropertySerializer) (hc : RecordsOnlyReturnedIndices c)
    (fuel : Nat) :
    ∀ (st : FSession) (Object : Option ObjectId) (r : Int × FSession),
      SerializeObject c fuel st Object = Run.done r →
      Extends st r.2 ∧
        (Good st → Good r.2 ∧
          ∀ x, Object = some x → TMap.Contains r.2.SerializedObjects r.1 = true) := by
  induction fuel with
  | zero =>
    intro st Object r h
    cases h
  | succ fuel ih =>
    intro st Object r h
    exact ⟨(SerializeObject_spec c (fuel + 1) st Object r h).1,
      fun hG => SerializeObjectBody_good c hc (SerializeObject c fuel) ih st Object r hG h⟩

theorem RunSession_good (c : UPropertySerializer) (hc : RecordsOnlyReturnedIndices c)
    (fuel : Nat) (ops : List SessionOp) :
    ∀ (st st' : FSession), Good st → RunSession c fuel st ops = Run.done st' → Good st' := by
  induction ops with
  | nil =>
    intro st st' hG h
    simp only [RunSession, Run.done.injEq] at h
    subst h
    exact hG
  | cons op ops ih =>
    intro st st' hG h
    cases op with
    | SetObjectMark Object ObjectMark =>
      simp only [RunSession] at h
      exact ih (SetObjectMark st Object ObjectMark) st'
        ⟨⟨hG.1.bounded, hG.1.injective, hG.1.surjective, hG.1.records⟩, hG.2⟩ h
    | SerializeObject Object =>
      simp only [RunSession, Run.bind_eq_done] at h
      obtain ⟨r, hr, h⟩ := h
      exact ih _ _ ((SerializeObject_good c hc fuel st Object r hr).2 hG).1 h

/-- C5: for a codec that hands only non-null objects to `SerializeObject` and records only the
indices it got back, in a session that starts fresh and performs only `SetObjectMark` and
`SerializeObject` calls, every record of the array returned by `FinalizeSerialization` refers
only to positions of that array: its `ObjectClass`, its `Outer` and every entry of the
`$ReferencedObjects` array of its `Properties` lie in `0 .. N - 1`. -/
theorem FinalizeSerialization_closed (c : UPropertySerializer)
    (hc : RecordsOnlyReturnedIndices c) (fuel : Nat) (Objects : List UObject)
    (PackageClass : ObjectId) (RF_Load : Nat) (AllowedClasses : List ObjectId)
    (NewSourcePackage : ObjectId)
    (ops : List SessionOp) (st : FSession) (arr : List FJsonObject)
    (h : RunSession c fuel
      (InitializeForSerialization (NewSerializer Objects PackageClass RF_Load AllowedClasses)
        NewSourcePackage) ops = Run.done st)
    (hArr : FinalizeSerialization st = Run.done arr) :
    ∀ r ∈ arr,
      (∀ k, TMap.Find r "ObjectClass" = some (FJsonValue.Number k) →
        0 ≤ k ∧ k < (arr.length : Int)) ∧
      (∀ k, TMap.Find r "Outer" = some (FJsonValue.Number k) →
        0 ≤ k ∧ k < (arr.length : Int)) ∧
      (∀ fs xs, TMap.Find r "Properties" = some (FJsonValue.Object fs) →
        TMap.Find fs "$ReferencedObjects" = some (FJsonValue.Array xs) →
        ∀ x ∈ xs, 0 ≤ FJsonObject.AsNumber x ∧ FJsonObject.AsNumber x < (arr.length : Int)) := by
  have hG : Good st := RunSession_good c hc fuel ops _ st
    ⟨IndexTableWellFormed_NewSerializer Objects PackageClass RF_Load AllowedClasses
        NewSourcePackage,
      fun i r hr => by simp [InitializeForSerialization, NewSerializer, TMap.Find] at hr⟩ h
  obtain ⟨arr', harr', hlen, hmem⟩ := FinalizeSerialization_done st hG.1
  rw [hArr] at harr'
  cases harr'
  intro r hr
  obtain ⟨i, hi⟩ := hmem r hr
  rw [hlen]
  refine ⟨fun k hk => ?_, fun k hk => ?_, fun fs xs hfs hxs x hx => ?_⟩
  · exact (hG.1.records k).mp ((hG.2 i r hi _ _ hk).1 (Or.inl rfl) k rfl)
  · exact (hG.1.records k).mp ((hG.2 i r hi _ _ hk).1 (Or.inr rfl) k rfl)
  · exact (hG.1.records _).mp ((hG.2 i r hi _ _ hfs).2 rfl fs xs rfl hxs x hx)

theorem ReferenceCodec_records_only_returned_indices :
    RecordsOnlyReturnedIndices ReferenceCodec := by
  refine ⟨fun p v o ho => ?_, fun p v idxs refs x hx => ?_⟩
  · cases v with
    | Int n => simp [ReferenceCodec] at ho
    | Object o' =>
      cases o' with
      | none => simp [ReferenceCodec] at ho
      | some y =>
        simp [ReferenceCodec] at ho
        subst ho
        exact Option.some_ne_none y
  · simp only [ReferenceCodec, List.mem_append] at hx
    exact hx.symm

/-- Witness of `FinalizeSerialization_closed` (C5): in the array of the scenario session after
`ScenarioOps`, the record of `Root` has `ObjectClass = 1`, `Outer = 3` and the referenced index
`6`, all of them positions of the array. -/
theorem FinalizeSerialization_closed_witness :
    (0 ≤ (1 : Int) ∧ (1 : Int) < ((FinalizedArray ScenarioAfterOps).length : Int)) ∧
      (0 ≤ (3 : Int) ∧ (3 : Int) < ((FinalizedArray ScenarioAfterOps).length : Int)) ∧
      (0 ≤ FJsonObject.AsNumber (FJsonValue.Number 6) ∧
        FJsonObject.AsNumber (FJsonValue.Number 6)
          < ((FinalizedArray ScenarioAfterOps).length : Int)) :=
  have h := FinalizeSerialization_closed ReferenceCodec
    ReferenceCodec_records_only_returned_indices 10 ScenarioHeap 2 15 [1] 5 ScenarioOps
    ScenarioAfterOps (FinalizedArray ScenarioAfterOps) rfl rfl (CyclicArray.getD 0 [])
    (List.Mem.head _)
  ⟨h.1 1 rfl, h.2.1 3 rfl,
    h.2.2 [("child", FJsonValue.Number 6),
      ("$ReferencedObjects", FJsonValue.Array [FJsonValue.Number 6])]
      [FJsonValue.Number 6] rfl rfl (FJsonValue.Number 6) (List.Mem.head _)⟩

/-! ## Sentinels and cached outcomes (C11, C12) -/

/-- C12: for every session state, `SerializeObject(null)` returns `INDEX_NONE`, which is `-1`,
and `DeserializeObject(INDEX_NONE)` returns null; each call returns the session exactly as it
received it (index table, record collection, loaded-object cache, `LastObjectIndex`, heap and
log). -/
theorem Sentinel_no_effect (c : UPropertySerializer) (fuel : Nat) (st : FSession) :
    SerializeObject c (fuel + 1) st none = Run.done (INDEX_NONE, st) ∧
      DeserializeObject c (fuel + 1) st INDEX_NONE = Run.done (none, st) ∧
      INDEX_NONE = -1 := by
  refine ⟨rfl, ?_, rfl⟩
  simp [DeserializeObject, DeserializeObjectBody]

/-- C11 (counterexample): in the session seeded with `BrokenArray`, index `7` has no record.
Two calls of `DeserializeObject(7)` both return null, the log holds the report twice, and the
loaded-object cache has no entry for `7`. -/
theorem DeserializeObject_unknown_index_reported_twice :
    ((DeserializeObject ReferenceCodec 1 (ScenarioDeserialization BrokenArray) 7).bind fun r₁ =>
        (DeserializeObject ReferenceCodec 1 r₁.2 7).bind fun r₂ =>
          Run.done (r₁.1, r₂.1, r₂.2.Log, TMap.Find r₂.2.LoadedObjects 7))
      = Run.done (none, none, [LogEntry.InvalidIndex 7, LogEntry.InvalidIndex 7], none) := by
  decide

/-- C11 (amended): for every index that has a record, the outcome of a completed
`DeserializeObject` (null after a resolution failure included) is stored in the loaded-object
cache, and every later `DeserializeObject` of that index returns the same outcome and the
session unchanged, log included: the failure is not reported again and nothing is looked up
again. -/
theorem DeserializeObject_outcome_cached (c : UPropertySerializer) (fuel fuel' : Nat)
    (st : FSession) (Index : Int) (o : Option ObjectId) (st' : FSession)
    (hIndex : Index ≠ INDEX_NONE)
    (hRecord : TMap.Contains st.SerializedObjects Index = true)
    (h : DeserializeObject c fuel st Index = Run.done (o, st')) :
    TMap.Find st'.LoadedObjects Index = some o ∧
      DeserializeObject c (fuel' + 1) st' Index = Run.done (o, st') := by
  have hCached : TMap.Find st'.LoadedObjects Index = some o := by
    cases fuel with
    | zero => cases h
    | succ fuel =>
      simp only [DeserializeObject, DeserializeObjectBody, hIndex, if_false] at h
      cases hCache : TMap.Find st.LoadedObjects Index with
      | some LoadedObject =>
        simp only [hCache, Run.done.injEq, Prod.mk.injEq] at h
        obtain ⟨rfl, rfl⟩ := h
        exact hCache
      | none =>
        simp only [hCache] at h
        simp only [TMap.Contains, Option.isSome_iff_exists] at hRecord
        obtain ⟨ObjectJson, hJson⟩ := hRecord
        simp only [hJson] at h
        split at h
        · simp only [Run.bind_eq_done, Run.done.injEq, Prod.mk.injEq] at h
          obtain ⟨r, _, rfl, rfl⟩ := h
          simp [CacheLoadedObject, TMap.Find_Add_self]
        · split at h
          · split at h
            · split at h
              · cases h
              · simp only [Run.done.injEq, Prod.mk.injEq] at h
                obtain ⟨rfl, rfl⟩ := h
                simp [CacheLoadedObject, TMap.Find_Add_self]
            · simp only [Run.bind_eq_done, Run.done.injEq, Prod.mk.injEq] at h
              obtain ⟨r, _, rfl, rfl⟩ := h
              simp [CacheLoadedObject, TMap.Find_Add_self]
          · cases h
  exact ⟨hCached, by simp [DeserializeObject, DeserializeObjectBody, hIndex, hCached]⟩

/-- Witness of `DeserializeObject_outcome_cached` (C11): record `1` of `BrokenArray` imports a
class that does not exist; the first call returns null and reports it, the second call returns
null from the cache and leaves the session as it is. -/
theorem DeserializeObject_outcome_cached_witness :
    TMap.Find (Run.stateOr (ScenarioDeserialization BrokenArray)
        ((DeserializeObject ReferenceCodec 1 (ScenarioDeserialization BrokenArray) 1).bind
          fun r => Run.done r.2)).LoadedObjects 1 = some none ∧
      DeserializeObject ReferenceCodec 1
        (Run.stateOr (ScenarioDeserialization BrokenArray)
          ((DeserializeObject ReferenceCodec 1 (ScenarioDeserialization BrokenArray) 1).bind
            fun r => Run.done r.2)) 1
        = Run.done (none, Run.stateOr (ScenarioDeserialization BrokenArray)
          ((DeserializeObject ReferenceCodec 1 (ScenarioDeserialization BrokenArray) 1).bind
            fun r => Run.done r.2)) :=
  DeserializeObject_outcome_cached ReferenceCodec 1 0 (ScenarioDeserialization BrokenArray) 1
    none _ (by decide) (by decide) rfl

/-! ## Import records in `CompareUObjects` (C15) -/

theorem Find_SetField_of_ne (r : FJsonObject) {name n : String} (v : FJsonValue)
    (h : name ≠ n) : TMap.Find (FJsonObject.SetField r name v) n = TMap.Find r n :=
  TMap.Find_Add_of_ne r v h

/-- C15: for a non-sentinel index whose record is an Import and a non-null object,
`CompareUObjects` returns `false` when the object's name differs from the record's `ObjectName`,
the result of `CompareUObjects(Outer, outer of the object)` when the names agree and the record
has an `Outer` field, and `true` when they agree and it has none; so it returns `true` exactly
when the names agree and the record has no `Outer` or the outer comparison returns `true`. The
outcome is the same whatever the record holds under `ClassPackage` and `ClassName`. -/
theorem CompareUObjects_import (c : UPropertySerializer) (fuel : Nat) (st : FSession)
    (ObjectIndex : Int) (Object : ObjectId) (ObjectJson : FJsonObject)
    (hIndex : ObjectIndex ≠ INDEX_NONE)
    (hRecord : TMap.Find st.SerializedObjects ObjectIndex = some ObjectJson)
    (hType : FJsonObject.GetStringField ObjectJson "Type" = "Import") :
    (CompareUObjects c (fuel + 1) st ObjectIndex (some Object)
        = if (GetObject st Object).Name = FJsonObject.GetStringField ObjectJson "ObjectName" then
            if FJsonObject.HasField ObjectJson "Outer" then
              CompareUObjects c fuel st (FJsonObject.GetIntegerField ObjectJson "Outer")
                (GetObject st Object).Outer
            else Run.done true
          else Run.done false) ∧
      (CompareUObjects c (fuel + 1) st ObjectIndex (some Object) = Run.done true ↔
        (GetObject st Object).Name = FJsonObject.GetStringField ObjectJson "ObjectName" ∧
          (FJsonObject.HasField ObjectJson "Outer" = false ∨
            CompareUObjects c fuel st (FJsonObject.GetIntegerField ObjectJson "Outer")
              (GetObject st Object).Outer = Run.done true)) ∧
      ∀ (cmp : Int → Option ObjectId → Run Bool) (v w : FJsonValue),
        CompareUObjectsBody c cmp
            (SetRecordField (SetRecordField st ObjectIndex "ClassPackage" v) ObjectIndex
              "ClassName" w) ObjectIndex (some Object)
          = CompareUObjectsBody c cmp st ObjectIndex (some Object) := by
  have hEq : CompareUObjects c (fuel + 1) st ObjectIndex (some Object)
      = if (GetObject st Object).Name = FJsonObject.GetStringField ObjectJson "ObjectName" then
          if FJsonObject.HasField ObjectJson "Outer" then
            CompareUObjects c fuel st (FJsonObject.GetIntegerField ObjectJson "Outer")
              (GetObject st Object).Outer
          else Run.done true
        else Run.done false := by
    simp only [CompareUObjects, CompareUObjectsBody, hIndex, hRecord, hType, if_true, if_false,
      ne_eq, ite_not]
  refine ⟨hEq, ?_, ?_⟩
  · rw [hEq]
    by_cases hName : (GetObject st Object).Name = FJsonObject.GetStringField ObjectJson "ObjectName"
    · by_cases hOuter : FJsonObject.HasField ObjectJson "Outer" = true
      · simp [hName, hOuter]
      · simp [hName, hOuter]
    · simp [hName]
  · intro cmp v w
    have hRecord' : TMap.Find (SetRecordField (SetRecordField st ObjectIndex "ClassPackage" v)
        ObjectIndex "ClassName" w).SerializedObjects ObjectIndex
        = some (FJsonObject.SetField (FJsonObject.SetField ObjectJson "ClassPackage" v)
          "ClassName" w) := by
      simp [SetRecordField, GetRecord, TMap.Find_Add_self, hRecord]
    have hField : ∀ n, n ≠ "ClassPackage" → n ≠ "ClassName" →
        TMap.Find (FJsonObject.SetField (FJsonObject.SetField ObjectJson "ClassPackage" v)
          "ClassName" w) n = TMap.Find ObjectJson n := by
      intro n h1 h2
      rw [Find_SetField_of_ne _ _ (Ne.symm h2), Find_SetField_of_ne _ _ (Ne.symm h1)]
    have hT := hField "Type" (by decide) (by decide)
    have hN := hField "ObjectName" (by decide) (by decide)
    have hO := hField "Outer" (by decide) (by decide)
    have hType' : TMap.Find ObjectJson "Type" = some (FJsonValue.String "Import") := by
      unfold FJsonObject.GetStringField at hType
      split at hType
      · next s hs => rw [hs, hType]
      · exact absurd hType (by decide)
    simp only [CompareUObjectsBody, hIndex, hRecord, hRecord', if_false,
      FJsonObject.GetStringField, FJsonObject.HasField, FJsonObject.GetIntegerField,
      TMap.Contains, hT, hN, hO, hType', if_true]
    rfl

/-- Witness of `CompareUObjects_import` (C15): record `1` of `CyclicArray` imports the class
`Panel` with `Outer = 2`, the package `/Game/Widgets`; the class object `7` compares equal. -/
theorem CompareUObjects_import_witness :
    CompareUObjects ReferenceCodec 3 CyclicSession 1 (some 7) = Run.done true :=
  (CompareUObjects_import ReferenceCodec 2 CyclicSession 1 7 (CyclicArray.getD 1 [])
    (by decide) rfl (by decide)).2.1.mpr ⟨by decide, Or.inr (by decide)⟩

/-! ## Records are addressed by array position (C20) -/

theorem Find_AddSerializedObjects_outside (arr : List FJsonObject) :
    ∀ (m : TMap Int FJsonObject) (start : Nat) (k : Int),
      (k < (start : Int) ∨ ((start + arr.length : Nat) : Int) ≤ k) →
      TMap.Find (AddSerializedObjects m start arr) k = TMap.Find m k := by
  induction arr with
  | nil => intro m start k _; rfl
  | cons r rest ih =>
    intro m start k hk
    simp only [AddSerializedObjects]
    rw [ih _ _ _ (by simp only [List.length_cons] at hk; push_cast at hk ⊢; omega),
      TMap.Find_Add_of_ne _ _ (by simp only [List.length_cons] at hk; push_cast at hk; omega)]

theorem Find_AddSerializedObjects (arr : List FJsonObject) :
    ∀ (m : TMap Int FJsonObject) (start : Nat),
      (∀ k : Int, (start : Int) ≤ k → TMap.Find m k = none) →
      ∀ i : Nat, TMap.Find (AddSerializedObjects m start arr) ((start + i : Nat) : Int)
        = arr.get? i := by
  induction arr with
  | nil =>
    intro m start hm i
    simp only [AddSerializedObjects, List.get?_nil]
    exact hm _ (by omega)
  | cons r rest ih =>
    intro m start hm i
    simp only [AddSerializedObjects]
    cases i with
    | zero =>
      have hk : ((start + 0 : Nat) : Int) = (start : Int) := by simp
      rw [hk, Find_AddSerializedObjects_outside rest _ (start + 1) _
        (Or.inl (by push_cast; omega)), TMap.Find_Add_self]
      rfl
    | succ i =>
      have := ih (TMap.Add m (start : Int) r) (start + 1) (fun k hk => by
        rw [TMap.Find_Add_of_ne _ _ (by push_cast at hk; omega)]
        exact hm k (by push_cast at hk; omega)) i
      rw [show start + (i + 1) = start + 1 + i by omega, this]
      rfl

theorem DeserializeObjectBody_found (c : UPropertySerializer)
    (deser : FSession → Int → Run (Option ObjectId × FSession)) (st : FSession) (Index : Int)
    (ObjectJson : FJsonObject) (hIndex : Index ≠ INDEX_NONE)
    (hCache : TMap.Find st.LoadedObjects Index = none)
    (hRecord : TMap.Find st.SerializedObjects Index = some ObjectJson) :
    DeserializeObjectBody c deser st Index = ResolveRecord c deser st Index ObjectJson := by
  simp only [DeserializeObjectBody, ResolveRecord, hIndex, hCache, hRecord, if_false]

/-- C20: in a fresh session on which `InitializeForDeserialization(arr)` was called, the
record stored for index `i` is the array element at position `i` for every `0 ≤ i < N`, and
`DeserializeObject(i)` resolves that element, whatever its own `ObjectIndex` field holds; for
every `i ≥ N` and every `i < -1` there is no record and `DeserializeObject(i)` returns null
without touching the heap. -/
theorem DeserializeObject_by_position (c : UPropertySerializer) (fuel : Nat)
    (Objects : List UObject) (PackageClass : ObjectId) (RF_Load : Nat)
    (AllowedClasses : List ObjectId) (arr : List FJsonObject) :
    (∀ (i : Nat) (ObjectJson : FJsonObject), arr.get? i = some ObjectJson →
        TMap.Find (InitializeForDeserialization
            (NewSerializer Objects PackageClass RF_Load AllowedClasses) arr).SerializedObjects
            (i : Int) = some ObjectJson ∧
          DeserializeObject c (fuel + 1)
              (InitializeForDeserialization
                (NewSerializer Objects PackageClass RF_Load AllowedClasses) arr) (i : Int)
            = ResolveRecord c (DeserializeObject c fuel)
              (InitializeForDeserialization
                (NewSerializer Objects PackageClass RF_Load AllowedClasses) arr) (i : Int)
              ObjectJson) ∧
      ∀ i : Int, ((arr.length : Int) ≤ i ∨ i < -1) →
        DeserializeObject c (fuel + 1)
            (InitializeForDeserialization
              (NewSerializer Objects PackageClass RF_Load AllowedClasses) arr) i
          = Run.done (none, LogError (InitializeForDeserialization
              (NewSerializer Objects PackageClass RF_Load AllowedClasses) arr)
              (LogEntry.InvalidIndex i)) := by
  have hRecs : (InitializeForDeserialization
      (NewSerializer Objects PackageClass RF_Load AllowedClasses) arr).SerializedObjects
      = AddSerializedObjects [] 0 arr := rfl
  have hLoaded : ∀ i : Int, TMap.Find (InitializeForDeserialization
      (NewSerializer Objects PackageClass RF_Load AllowedClasses) arr).LoadedObjects i
      = none := fun i => rfl
  constructor
  · intro i ObjectJson hi
    have hFind : TMap.Find (InitializeForDeserialization
        (NewSerializer Objects PackageClass RF_Load AllowedClasses) arr).SerializedObjects
        (i : Int) = some ObjectJson := by
      rw [hRecs, ← hi]
      have := Find_AddSerializedObjects arr [] 0 (fun k _ => rfl) i
      rwa [Nat.zero_add] at this
    refine ⟨hFind, ?_⟩
    show DeserializeObjectBody c (DeserializeObject c fuel) _ _ = _
    exact DeserializeObjectBody_found c _ _ _ _ (by unfold INDEX_NONE; omega) (hLoaded _) hFind
  · intro i hi
    have hFind : TMap.Find (InitializeForDeserialization
        (NewSerializer Objects PackageClass RF_Load AllowedClasses) arr).SerializedObjects i
        = none := by
      rw [hRecs, Find_AddSerializedObjects_outside arr [] 0 i (by
        rcases hi with hi | hi
        · right; simpa using hi
        · left; push_cast; omega)]
      rfl
    have hIndex : i ≠ INDEX_NONE := by
      unfold INDEX_NONE
      rcases hi with hi | hi <;> omega
    simp only [DeserializeObject, DeserializeObjectBody, hIndex, hLoaded, hFind, if_false]

/-- Witness of `DeserializeObject_by_position` (C20) on `ShuffledArray`: position `1` resolves
the package import stored there (which says `ObjectIndex = 0`) to `/Game/Widgets`, and the
indices `2` and `-2` return null. -/
theorem DeserializeObject_by_position_witness :
    (DeserializeObject ReferenceCodec 1
        (InitializeForDeserialization (NewSerializer ScenarioHeap 2 15 [1]) ShuffledArray) 1
        = ResolveRecord ReferenceCodec (DeserializeObject ReferenceCodec 0)
          (InitializeForDeserialization (NewSerializer ScenarioHeap 2 15 [1]) ShuffledArray) 1
          (ShuffledArray.getD 1 [])) ∧
      (ResolveRecord ReferenceCodec (DeserializeObject ReferenceCodec 0)
          (InitializeForDeserialization (NewSerializer ScenarioHeap 2 15 [1]) ShuffledArray) 1
          (ShuffledArray.getD 1 [])).value?.map (fun r => r.1) = some (some 3) ∧
      DeserializeObject ReferenceCodec 1
        (InitializeForDeserialization (NewSerializer ScenarioHeap 2 15 [1]) ShuffledArray) 2
        = Run.done (none, LogError
          (InitializeForDeserialization (NewSerializer ScenarioHeap 2 15 [1]) ShuffledArray)
          (LogEntry.InvalidIndex 2)) ∧
      DeserializeObject ReferenceCodec 1
        (InitializeForDeserialization (NewSerializer ScenarioHeap 2 15 [1]) ShuffledArray) (-2)
        = Run.done (none, LogError
          (InitializeForDeserialization (NewSerializer ScenarioHeap 2 15 [1]) ShuffledArray)
          (LogEntry.InvalidIndex (-2))) :=
  ⟨((DeserializeObject_by_position ReferenceCodec 0 ScenarioHeap 2 15 [1] ShuffledArray).1 1
      (ShuffledArray.getD 1 []) rfl).2,
    by decide,
    (DeserializeObject_by_position ReferenceCodec 0 ScenarioHeap 2 15 [1] ShuffledArray).2 2
      (Or.inl (by decide)),
    (DeserializeObject_by_position ReferenceCodec 0 ScenarioHeap 2 15 [1] ShuffledArray).2 (-2)
      (Or.inr (by decide))⟩

/-! ## `CompareUObjects` leaves the session as it is (C14) -/

theorem CompareSubobjectsInSession_eq
    (cmpS : FSession → Int → Option ObjectId → Run (Bool × FSession))
    (cmp : Int → Option ObjectId → Run Bool) (st : FSession)
    (hcmp : ∀ i o, cmpS st i o = (cmp i o).bind fun b => Run.done (b, st))
    (ps : List (Int × Option ObjectId)) :
    CompareSubobjectsInSession cmpS st ps
      = (CompareSubobjects cmp ps).bind fun bs => Run.done (bs, st) := by
  induction ps with
  | nil => rfl
  | cons p ps ih =>
    simp only [CompareSubobjectsInSession, CompareSubobjects, hcmp]
    cases cmp p.1 p.2 with
    | done b =>
      simp only [Run.bind_done, ih]
      cases CompareSubobjects cmp ps <;> rfl
    | fatal w => rfl
    | outOfFuel => rfl

theorem ComparePropertyLinkInSession_eq (c : UPropertySerializer)
    (cmpS : FSession → Int → Option ObjectId → Run (Bool × FSession))
    (cmp : Int → Option ObjectId → Run Bool) (st : FSession)
    (hcmp : ∀ i o, cmpS st i o = (cmp i o).bind fun b => Run.done (b, st))
    (Properties : FJsonObject) (Object : ObjectId) (link : List FProperty) :
    ComparePropertyLinkInSession c cmpS Properties Object link st
      = (ComparePropertyLink c cmp st Properties Object link).bind fun b =>
          Run.done (b, st) := by
  induction link with
  | nil => rfl
  | cons Property Next ih =>
    simp only [ComparePropertyLinkInSession, ComparePropertyLink]
    split
    · cases TMap.Find Properties Property.Name with
      | none => rfl
      | some ValueObject =>
        simp only [CompareSubobjectsInSession_eq cmpS cmp st hcmp]
        cases CompareSubobjects cmp (c.ComparedObjects Property ValueObject
            (GetPropertyValue st Object Property.Name)) with
        | done bs =>
          simp only [Run.bind_done]
          split
          · exact ih
          · rfl
        | fatal w => rfl
        | outOfFuel => rfl
    · exact ih

theorem CompareUObjectsInSessionBody_eq (c : UPropertySerializer)
    (cmpS : FSession → Int → Option ObjectId → Run (Bool × FSession))
    (cmp : Int → Option ObjectId → Run Bool) (st : FSession)
    (hcmp : ∀ i o, cmpS st i o = (cmp i o).bind fun b => Run.done (b, st))
    (ObjectIndex : Int) (Object : Option ObjectId) :
    CompareUObjectsInSessionBody c cmpS st ObjectIndex Object
      = (CompareUObjectsBody c cmp st ObjectIndex Object).bind fun b => Run.done (b, st) := by
  cases Object with
  | none => rfl
  | some Obj =>
    simp only [CompareUObjectsInSessionBody, CompareUObjectsBody]
    split
    · rfl
    · cases TMap.Find st.SerializedObjects ObjectIndex with
      | none => rfl
      | some ObjectJson =>
        simp only
        split
        · split
          · rfl
          · split
            · exact hcmp _ _
            · rfl
        · split
          · cases TMap.FindKey st.ObjectMarks
                (FJsonObject.GetStringField ObjectJson "ObjectMark") <;> rfl
          · split
            · rfl
            · simp only [hcmp]
              cases cmp (FJsonObject.GetIntegerField ObjectJson "ObjectClass")
                  (some (GetObject st Obj).Class) with
              | fatal w => rfl
              | outOfFuel => rfl
              | done ClassMatches =>
                simp only [Run.bind_done]
                split
                · rfl
                · split
                  · rfl
                  · simp only [hcmp]
                    cases cmp (FJsonObject.GetIntegerField ObjectJson "Outer")
                        (GetObject st Obj).Outer with
                    | fatal w => rfl
                    | outOfFuel => rfl
                    | done OuterMatches =>
                      simp only [Run.bind_done]
                      split
                      · rfl
                      · split
                        · cases FJsonObject.GetObjectField ObjectJson "Properties" with
                          | none => rfl
                          | some Properties =>
                            exact ComparePropertyLinkInSession_eq c cmpS cmp st hcmp _ _ _
                        · rfl

/-- C14: `CompareUObjects` with the session threaded through every step of the method, of
`AreObjectPropertiesUpToDate` and of the comparisons the codec asks for, returns the value of
`CompareUObjects` together with the very session it was called on: index table, record
collection, loaded-object cache, `LastObjectIndex`, heap (the field values of every object) and
log are what they were, and nothing is cached. -/
theorem CompareUObjects_read_only (c : UPropertySerializer) (fuel : Nat) (st : FSession)
    (ObjectIndex : Int) (Object : Option ObjectId) :
    CompareUObjectsInSession c fuel st ObjectIndex Object
      = (CompareUObjects c fuel st ObjectIndex Object).bind fun b => Run.done (b, st) := by
  induction fuel generalizing ObjectIndex Object with
  | zero => rfl
  | succ fuel ih =>
    exact CompareUObjectsInSessionBody_eq c (CompareUObjectsInSession c fuel)
      (CompareUObjects c fuel st) st (fun i o => ih i o) ObjectIndex Object

/-! ## Invariants of serialization, in general -/

theorem SerializeImportedObject_inv (I : FSession → Prop)
    (ser : FSession → Option ObjectId → Run (Int × FSession))
    (hser : ∀ st o r, ser st o = Run.done r → Extends st r.2 ∧ (I st → I r.2))
    (ResultJson : Int)
    (hOwn : ∀ st name v, name ∈ SerializerFields →
      TMap.Contains st.SerializedObjects ResultJson = true → I st →
      I (SetRecordField st ResultJson name v))
    (st : FSession) (Object : ObjectId) (st' : FSession)
    (hIndex : TMap.Contains st.SerializedObjects ResultJson = true) (hI : I st)
    (h : SerializeImportedObject ser st ResultJson Object = Run.done st') : I st' := by
  unfold SerializeImportedObject at h
  have e1 := Extends_SetRecordField st ResultJson "ClassPackage"
    (FJsonValue.String (GetObject st (GetOutermost st (GetObject st Object).Class)).Name) hIndex
  have i1 := hOwn st "ClassPackage"
    (FJsonValue.String (GetObject st (GetOutermost st (GetObject st Object).Class)).Name)
    (by decide) hIndex hI
  have e2 := e1.thenSet ResultJson "ClassName"
    (FJsonValue.String (GetObject st (GetObject st Object).Class).Name) hIndex
  have i2 := hOwn _ "ClassName"
    (FJsonValue.String (GetObject st (GetObject st Object).Class).Name) (by decide)
    (e1.records _ hIndex) i1
  cases hOuter : (GetObject st Object).Outer with
  | none =>
    simp only [hOuter, Run.done.injEq] at h
    subst h
    exact hOwn _ "ObjectName" _ (by decide) (e2.records _ hIndex) i2
  | some OuterObject =>
    simp only [hOuter, Run.bind_eq_done, Run.done.injEq] at h
    obtain ⟨r, hr, rfl⟩ := h
    obtain ⟨e3, i3⟩ := hser _ _ _ hr
    have e3' := e2.trans e3
    have i4 := hOwn _ "Outer" (FJsonValue.Number r.1) (by decide) (e3'.records _ hIndex) (i3 i2)
    exact hOwn _ "ObjectName" _ (by decide)
      ((e3'.thenSet ResultJson "Outer" (FJsonValue.Number r.1) hIndex).records _ hIndex) i4

theorem SerializeSubobjects_inv (I : FSession → Prop)
    (ser : FSession → Option ObjectId → Run (Int × FSession))
    (hser : ∀ st o r, ser st o = Run.done r → Extends st r.2 ∧ (I st → I r.2))
    (os : List (Option ObjectId)) :
    ∀ (st : FSession) (rs : List Int × FSession), I st →
      SerializeSubobjects ser st os = Run.done rs → I rs.2 := by
  induction os with
  | nil =>
    intro st rs hI h
    simp only [SerializeSubobjects, Run.done.injEq] at h
    subst h
    exact hI
  | cons o os ih =>
    intro st rs hI h
    simp only [SerializeSubobjects, Run.bind_eq_done, Run.done.injEq] at h
    obtain ⟨r, hr, rs', hrs, rfl⟩ := h
    exact ih r.2 rs' ((hser _ _ _ hr).2 hI) hrs

theorem SerializePropertyLink_inv (I : FSession → Prop) (c : UPropertySerializer)
    (ser : FSession → Option ObjectId → Run (Int × FSession))
    (hser : ∀ st o r, ser st o = Run.done r → Extends st r.2 ∧ (I st → I r.2))
    (Object : ObjectId) (link : List FProperty) :
    ∀ (st : FSession) (Properties : FJsonObject) (Referenced : List Int)
      (r : (FJsonObject × List Int) × FSession), I st →
      SerializePropertyLink c ser Object link st Properties Referenced = Run.done r →
      I r.2 := by
  induction link with
  | nil =>
    intro st Properties Referenced r hI h
    simp only [SerializePropertyLink, Run.done.injEq] at h
    subst h
    exact hI
  | cons Property Next ih =>
    intro st Properties Referenced r hI h
    simp only [SerializePropertyLink] at h
    split at h
    · simp only [Run.bind_eq_done] at h
      obtain ⟨rs, hrs, hNext⟩ := h
      exact ih _ _ _ _ (SerializeSubobjects_inv I ser hser _ st rs hI hrs) hNext
    · exact ih _ _ _ _ hI h

theorem SerializeObjectProperties_inv (I : FSession → Prop) (c : UPropertySerializer)
    (ser : FSession → Option ObjectId → Run (Int × FSession))
    (hser : ∀ st o r, ser st o = Run.done r → Extends st r.2 ∧ (I st → I r.2))
    (st : FSession) (Object : ObjectId) (r : FJsonObject × FSession) (hI : I st)
    (h : SerializeObjectProperties c ser st Object = Run.done r) : I r.2 := by
  simp only [SerializeObjectProperties, SerializeObjectPropertiesIntoObject, Run.bind_eq_done,
    Run.done.injEq] at h
  obtain ⟨rl, hrl, rfl⟩ := h
  exact SerializePropertyLink_inv I c ser hser _ _ st [] [] rl hI hrl

theorem SerializeExportedObject_inv (I : FSession → Prop) (c : UPropertySerializer)
    (ser : FSession → Option ObjectId → Run (Int × FSession))
    (hser : ∀ st o r, ser st o = Run.done r → Extends st r.2 ∧ (I st → I r.2))
    (ResultJson : Int)
    (hOwn : ∀ st name v, name ∈ SerializerFields →
      TMap.Contains st.SerializedObjects ResultJson = true → I st →
      I (SetRecordField st ResultJson name v))
    (hNote : ∀ st cls, I st → I (NoteNativeClass st cls))
    (st : FSession) (Object : ObjectId) (st' : FSession)
    (hIndex : TMap.Contains st.SerializedObjects ResultJson = true) (hI : I st)
    (h : SerializeExportedObject c ser st ResultJson Object = Run.done st') : I st' := by
  have hser' : ∀ st o r, ser st o = Run.done r → Extends st r.2 :=
    fun st o r h => (hser st o r h).1
  simp only [SerializeExportedObject, Run.bind_eq_done] at h
  obtain ⟨rc, hrc, h⟩ := h
  obtain ⟨ec, ic⟩ := hser _ _ _ hrc
  have i1 := hOwn _ "ObjectClass" (FJsonValue.Number rc.1) (by decide) (ec.records _ hIndex)
    (ic hI)
  have e1 := ec.thenSet ResultJson "ObjectClass" (FJsonValue.Number rc.1) hIndex
  cases hOuter : (GetObject st Object).Outer with
  | none =>
    simp only [hOuter] at h
    split at h
    · simp only [Run.done.injEq] at h
      subst h
      exact i1
    · cases h
  | some OuterObject =>
    simp only [hOuter, Run.bind_eq_done, Run.done.injEq] at h
    obtain ⟨ro, hro, rp, hrp, rfl⟩ := h
    obtain ⟨eo, io⟩ := hser _ _ _ hro
    have eo' := e1.trans eo
    have i2 := hOwn _ "Outer" (FJsonValue.Number ro.1) (by decide) (eo'.records _ hIndex)
      (io i1)
    have e2 := eo'.thenSet ResultJson "Outer" (FJsonValue.Number ro.1) hIndex
    have i3 := hOwn _ "ObjectName" (FJsonValue.String (GetObject st Object).Name) (by decide)
      (e2.records _ hIndex) i2
    have e3 := e2.thenSet ResultJson "ObjectName"
      (FJsonValue.String (GetObject st Object).Name) hIndex
    have i4 := hOwn _ "ObjectFlags"
      (FJsonValue.Number (((GetObject st Object).Flags &&& st.RF_Load : Nat) : Int))
      (by decide) (e3.records _ hIndex) i3
    have e4 := e3.thenSet ResultJson "ObjectFlags"
      (FJsonValue.Number (((GetObject st Object).Flags &&& st.RF_Load : Nat) : Int)) hIndex
    have i5 := hNote _ (GetObject st Object).Class i4
    have e5 := e4.trans (Extends_NoteNativeClass _ (GetObject st Object).Class)
    have i6 := SerializeObjectProperties_inv I c ser hser _ _ rp i5 hrp
    have e6 := e5.trans (SerializeObjectProperties_extends c ser hser' _ _ _ hrp)
    exact hOwn _ "Properties" _ (by decide) (e6.records _ hIndex) i6

theorem SerializeObjectBody_inv (I : FSession → Prop) (hInv : SerializerInvariant I)
    (c : UPropertySerializer)
    (ser : FSession → Option ObjectId → Run (Int × FSession))
    (hser : ∀ st o r, ser st o = Run.done r → Extends st r.2 ∧ (I st → I r.2))
    (st : FSession) (Object : Option ObjectId) (r : Int × FSession) (hI : I st)
    (h : SerializeObjectBody c ser st Object = Run.done r) : I r.2 := by
  cases Object with
  | none =>
    simp only [SerializeObjectBody, Run.done.injEq] at h
    subst h
    exact hI
  | some x =>
    simp only [SerializeObjectBody] at h
    cases hFind : TMap.Find st.ObjectIndices x with
    | some i =>
      simp only [hFind, Run.done.injEq] at h
      subst h
      exact hI
    | none =>
      simp only [hFind] at h
      have hRec : TMap.Contains (AllocateObject st x).SerializedObjects (st.LastObjectIndex : Int)
          = true := by
        simp [AllocateObject, TMap.Contains_Add]
      have hRecT : ∀ t, TMap.Contains (SetRecordField (AllocateObject st x)
          (st.LastObjectIndex : Int) "Type" t).SerializedObjects
          (st.LastObjectIndex : Int) = true :=
        fun t => (Extends_SetRecordField _ _ _ _ hRec).records _ hRec
      have hOwn : ∀ st₁ name v, name ∈ SerializerFields →
          TMap.Contains st₁.SerializedObjects (st.LastObjectIndex : Int) = true → I st₁ →
          I (SetRecordField st₁ (st.LastObjectIndex : Int) name v) :=
        fun st₁ name v hn hc h₁ => hInv.setField st st₁ name v hI hn hc h₁
      have hT := hInv.allocate st x hI hFind
      unfold ObjectType at hT
      split at h
      · next hCond =>
        rw [if_pos hCond] at hT
        simp only [Run.bind_eq_done, Run.done.injEq] at h
        obtain ⟨st₂, hst₂, rfl⟩ := h
        exact SerializeImportedObject_inv I ser hser _ hOwn _ _ _ (hRecT _) hT hst₂
      · next hCond =>
        rw [if_neg hCond] at hT
        cases hMark : TMap.Find st.ObjectMarks x with
        | some ObjectMark =>
          simp only [hMark, Run.done.injEq] at h
          subst h
          exact hOwn _ "ObjectMark" _ (by decide) (hRecT _) hT
        | none =>
          simp only [hMark, Run.bind_eq_done, Run.done.injEq] at h
          obtain ⟨st₂, hst₂, rfl⟩ := h
          exact SerializeExportedObject_inv I c ser hser _ hOwn hInv.note _ _ _ (hRecT _) hT
            hst₂

theorem SerializeObject_inv (I : FSession → Prop) (hInv : SerializerInvariant I)
    (c : UPropertySerializer) (fuel : Nat) :
    ∀ (st : FSession) (Object : Option ObjectId) (r : Int × FSession),
      SerializeObject c fuel st Object = Run.done r → I st → I r.2 := by
  induction fuel with
  | zero =>
    intro st Object r h
    cases h
  | succ fuel ih =>
    intro st Object r h hI
    exact SerializeObjectBody_inv I hInv c (SerializeObject c fuel)
      (fun st o r hr => ⟨(SerializeObject_spec c fuel st o r hr).1, ih st o r hr⟩) st Object r
      hI h

/-! ## The `Type` of a new record (C13) -/

theorem GetRecord_SetRecordField_of_ne (st : FSession) {i j : Int} (name : String)
    (v : FJsonValue) (h : i ≠ j) : GetRecord (SetRecordField st i name v) j = GetRecord st j := by
  simp [GetRecord, SetRecordField, TMap.Find_Add_of_ne _ _ h]

theorem GetRecord_AllocateObject_of_ne (st : FSession) (x : ObjectId) {j : Int}
    (h : (st.LastObjectIndex : Int) ≠ j) : GetRecord (AllocateObject st x) j = GetRecord st j := by
  simp [GetRecord, AllocateObject, TMap.Find_Add_of_ne _ _ h]

theorem SerializedObjects_NoteNativeClass (st : FSession) (cls : ObjectId) :
    (NoteNativeClass st cls).SerializedObjects = st.SerializedObjects ∧
      (NoteNativeClass st cls).LastObjectIndex = st.LastObjectIndex := by
  unfold NoteNativeClass
  split
  · exact ⟨rfl, rfl⟩
  · split <;> exact ⟨rfl, rfl⟩

theorem ne_Type_of_mem_SerializerFields {name : String} (h : name ∈ SerializerFields) :
    name ≠ "Type" ∧ name ≠ "ObjectIndex" := by
  constructor <;> rintro rfl <;> revert h <;> decide

theorem SerializerInvariant_KeepsType (Index : Int) (T : String) :
    SerializerInvariant (KeepsType Index T) := by
  refine ⟨fun st x hI _ => ?_, fun st₀ st name v hI₀ _ _ hI => ?_, fun st cls hI => ?_⟩
  · have hne : (st.LastObjectIndex : Int) ≠ Index := by have := hI.1; omega
    refine ⟨?_, ?_⟩
    · show Index < ((st.LastObjectIndex + 1 : Nat) : Int)
      have := hI.1
      omega
    · rw [GetRecord_SetRecordField_of_ne _ _ _ hne, GetRecord_AllocateObject_of_ne _ _ hne]
      exact hI.2
  · have hne : (st₀.LastObjectIndex : Int) ≠ Index := by have := hI₀.1; omega
    exact ⟨hI.1, by rw [GetRecord_SetRecordField_of_ne _ _ _ hne]; exact hI.2⟩
  · obtain ⟨hRecs, hLast⟩ := SerializedObjects_NoteNativeClass st cls
    refine ⟨by rw [hLast]; exact hI.1, ?_⟩
    unfold GetRecord
    rw [hRecs]
    exact hI.2

/-- C13: for every object that is not yet indexed, a completed `SerializeObject` returns the
next index and the record stored under it has `Type = "Import"` when the object's outermost
package differs from `SourcePackage` and `Type = "Export"` when it is `SourcePackage`; the
object marks play no part. -/
theorem SerializeObject_record_type (c : UPropertySerializer) (fuel : Nat) (st : FSession)
    (x : ObjectId) (i : Int) (st' : FSession)
    (hNew : TMap.Find st.ObjectIndices x = none)
    (h : SerializeObject c fuel st (some x) = Run.done (i, st')) :
    i = (st.LastObjectIndex : Int) ∧
      (some (GetOutermost st x) ≠ st.SourcePackage →
        FJsonObject.GetStringField (GetRecord st' i) "Type" = "Import") ∧
      (some (GetOutermost st x) = st.SourcePackage →
        FJsonObject.GetStringField (GetRecord st' i) "Type" = "Export") := by
  cases fuel with
  | zero => cases h
  | succ fuel =>
    have hser : ∀ T st₁ o r, SerializeObject c fuel st₁ o = Run.done r →
        Extends st₁ r.2 ∧
          (KeepsType (st.LastObjectIndex : Int) T st₁ →
            KeepsType (st.LastObjectIndex : Int) T r.2) :=
      fun T st₁ o r hr => ⟨(SerializeObject_spec c fuel st₁ o r hr).1,
        SerializeObject_inv _ (SerializerInvariant_KeepsType _ T) c fuel st₁ o r hr⟩
    have hOwn : ∀ T st₁ name v, name ∈ SerializerFields →
        TMap.Contains st₁.SerializedObjects (st.LastObjectIndex : Int) = true →
        KeepsType (st.LastObjectIndex : Int) T st₁ →
        KeepsType (st.LastObjectIndex : Int) T
          (SetRecordField st₁ (st.LastObjectIndex : Int) name v) := by
      intro T st₁ name v hn _ hI
      refine ⟨hI.1, ?_⟩
      rw [GetRecord_SetRecordField, Find_SetField_of_ne _ _ (ne_Type_of_mem_SerializerFields hn).1]
      exact hI.2
    have hNote : ∀ T st₁ cls, KeepsType (st.LastObjectIndex : Int) T st₁ →
        KeepsType (st.LastObjectIndex : Int) T (NoteNativeClass st₁ cls) :=
      fun T => (SerializerInvariant_KeepsType _ T).note
    have hRec : TMap.Contains (AllocateObject st x).SerializedObjects (st.LastObjectIndex : Int)
        = true := by
      simp [AllocateObject, TMap.Contains_Add]
    have hRecT : ∀ t, TMap.Contains (SetRecordField (AllocateObject st x)
        (st.LastObjectIndex : Int) "Type" t).SerializedObjects
        (st.LastObjectIndex : Int) = true :=
      fun t => (Extends_SetRecordField _ _ _ _ hRec).records _ hRec
    have hStart : ∀ T, KeepsType (st.LastObjectIndex : Int) T
        (SetRecordField (AllocateObject st x) (st.LastObjectIndex : Int) "Type"
          (FJsonValue.String T)) := by
      intro T
      refine ⟨?_, ?_⟩
      · show (st.LastObjectIndex : Int) < ((st.LastObjectIndex + 1 : Nat) : Int)
        omega
      · rw [GetRecord_SetRecordField]
        simp [FJsonObject.SetField, TMap.Find_Add_self]
    have hGet : ∀ T s, KeepsType (st.LastObjectIndex : Int) T s →
        FJsonObject.GetStringField (GetRecord s (st.LastObjectIndex : Int)) "Type" = T :=
      fun T s hI => by simp [FJsonObject.GetStringField, hI.2]
    simp only [SerializeObject, SerializeObjectBody, hNew] at h
    split at h
    · next hCond =>
      simp only [Run.bind_eq_done, Run.done.injEq, Prod.mk.injEq] at h
      obtain ⟨st₂, hst₂, rfl, rfl⟩ := h
      refine ⟨rfl, fun _ => ?_, fun hEq => absurd hEq hCond⟩
      exact hGet _ _ (SerializeImportedObject_inv _ _ (hser "Import") _ (hOwn "Import") _ _ _
        (hRecT _) (hStart "Import") hst₂)
    · next hCond =>
      have hEq : some (GetOutermost st x) = st.SourcePackage := by
        simpa using hCond
      cases hMark : TMap.Find st.ObjectMarks x with
      | some ObjectMark =>
        simp only [hMark, Run.done.injEq, Prod.mk.injEq] at h
        obtain ⟨rfl, rfl⟩ := h
        refine ⟨rfl, fun hNe => absurd hEq hNe, fun _ => ?_⟩
        exact hGet _ _ (hOwn "Export" _ "ObjectMark" _ (by decide) (hRecT _) (hStart "Export"))
      | none =>
        simp only [hMark, Run.bind_eq_done, Run.done.injEq, Prod.mk.injEq] at h
        obtain ⟨st₂, hst₂, rfl, rfl⟩ := h
        refine ⟨rfl, fun hNe => absurd hEq hNe, fun _ => ?_⟩
        exact hGet _ _ (SerializeExportedObject_inv _ c _ (hser "Export") _ (hOwn "Export")
          (hNote "Export") _ _ _ (hRecT _) (hStart "Export") hst₂)

/-- Witness of `SerializeObject_record_type` (C13): the class `Widget` lives outside the source
package of the scenario and is registered with mark `M`; its record has `Type = "Import"`. -/
theorem SerializeObject_record_type_witness :
    (0 : Int) = ((SetObjectMark ScenarioSession 4 "M").LastObjectIndex : Int) ∧
      FJsonObject.GetStringField (GetRecord ScenarioMarkedImport 0) "Type" = "Import" :=
  have h := SerializeObject_record_type ReferenceCodec 9 (SetObjectMark ScenarioSession 4 "M") 4 0
    ScenarioMarkedImport (by decide) rfl
  ⟨h.1, h.2.1 (by decide)⟩

/-! ## Array positions (C19) -/

theorem SerializerInvariant_HoldsOwnIndex : SerializerInvariant HoldsOwnIndex := by
  refine ⟨fun st x hI _ => ?_, fun st₀ st name v _ hn hc hI => ?_, fun st cls hI => ?_⟩
  · intro j r hr
    simp only [SetRecordField, TMap.Find_Add] at hr
    by_cases hj : (st.LastObjectIndex : Int) = j
    · simp only [hj, if_true, Option.some.injEq] at hr
      subst hr
      rw [Find_SetField_of_ne _ _ (by decide), ← hj, GetRecord_AllocateObject]
      simp [TMap.Find]
    · simp only [hj, if_false] at hr
      simp only [AllocateObject, TMap.Find_Add, hj, if_false] at hr
      exact hI j r hr
  · intro j r hr
    simp only [SetRecordField, TMap.Find_Add] at hr
    by_cases hj : (st₀.LastObjectIndex : Int) = j
    · simp only [hj, if_true, Option.some.injEq] at hr
      subst hr
      rw [Find_SetField_of_ne _ _ (ne_Type_of_mem_SerializerFields hn).2]
      simp only [TMap.Contains, Option.isSome_iff_exists] at hc
      obtain ⟨r₀, hr₀⟩ := hc
      rw [hj] at hr₀
      simp only [GetRecord, hr₀, Option.getD_some]
      exact hI j r₀ hr₀
    · simp only [hj, if_false] at hr
      exact hI j r hr
  · intro j r hr
    rw [(SerializedObjects_NoteNativeClass st cls).1] at hr
    exact hI j r hr

theorem RunSession_inv (I : FSession → Prop) (hInv : SerializerInvariant I)
    (hMark : ∀ st x m, I st → I (SetObjectMark st x m))
    (c : UPropertySerializer) (fuel : Nat) (ops : List SessionOp) :
    ∀ (st st' : FSession), I st → RunSession c fuel st ops = Run.done st' → I st' := by
  induction ops with
  | nil =>
    intro st st' hI h
    simp only [RunSession, Run.done.injEq] at h
    subst h
    exact hI
  | cons op ops ih =>
    intro st st' hI h
    cases op with
    | SetObjectMark Object ObjectMark =>
      simp only [RunSession] at h
      exact ih (SetObjectMark st Object ObjectMark) st' (hMark _ _ _ hI) h
    | SerializeObject Object =>
      simp only [RunSession, Run.bind_eq_done] at h
      obtain ⟨r, hr, h⟩ := h
      exact ih _ _ (SerializeObject_inv I hInv c fuel st Object r hr hI) h

theorem FinalizeLoop_get (m : TMap Int FJsonObject) (n : Nat) :
    ∀ (start : Nat) (arr : List FJsonObject), FinalizeLoop m start n = Run.done arr →
      arr.length = n ∧
        ∀ k : Nat, k < n → ∃ r, arr.get? k = some r ∧
          TMap.Find m ((start + k : Nat) : Int) = some r := by
  induction n with
  | zero =>
    intro start arr h
    simp only [FinalizeLoop, Run.done.injEq] at h
    subst h
    exact ⟨rfl, fun k hk => absurd hk (Nat.not_lt_zero k)⟩
  | succ n ih =>
    intro start arr h
    simp only [FinalizeLoop] at h
    cases hFind : TMap.Find m (start : Int) with
    | none =>
      rw [hFind] at h
      cases h
    | some r =>
      rw [hFind] at h
      simp only [Run.bind_eq_done, Run.done.injEq] at h
      obtain ⟨rest, hrest, rfl⟩ := h
      obtain ⟨hlen, hget⟩ := ih (start + 1) rest hrest
      refine ⟨by simp [hlen], fun k hk => ?_⟩
      cases k with
      | zero => exact ⟨r, rfl, by simpa using hFind⟩
      | succ k =>
        obtain ⟨r', hr', hf'⟩ := hget k (by omega)
        exact ⟨r', by simpa using hr', by rwa [show start + (k + 1) = start + 1 + k by omega]⟩

/-- C19: when `FinalizeSerialization` returns an array, its length is `LastObjectIndex` and
its element at position `i` is the record stored for index `i`, for every `i`; and when the
session is a serialization session (a fresh serializer on which only `SetObjectMark` and
`SerializeObject` were called), the element at position `i` holds `i` under `ObjectIndex`. -/
theorem FinalizeSerialization_positions (st : FSession) (arr : List FJsonObject)
    (hArr : FinalizeSerialization st = Run.done arr) :
    arr.length = st.LastObjectIndex ∧
      (∀ i : Nat, i < st.LastObjectIndex →
        ∃ r, arr.get? i = some r ∧ TMap.Find st.SerializedObjects (i : Int) = some r) ∧
      ∀ (c : UPropertySerializer) (fuel : Nat) (Objects : List UObject)
        (PackageClass : ObjectId) (RF_Load : Nat) (AllowedClasses : List ObjectId)
        (NewSourcePackage : ObjectId) (ops : List SessionOp),
        RunSession c fuel
            (InitializeForSerialization
              (NewSerializer Objects PackageClass RF_Load AllowedClasses) NewSourcePackage) ops
          = Run.done st →
        ∀ (i : Nat) (r : FJsonObject), arr.get? i = some r →
          FJsonObject.GetIntegerField r "ObjectIndex" = (i : Int) := by
  obtain ⟨hlen, hget⟩ := FinalizeLoop_get st.SerializedObjects st.LastObjectIndex 0 arr hArr
  have hget' : ∀ i : Nat, i < st.LastObjectIndex →
      ∃ r, arr.get? i = some r ∧ TMap.Find st.SerializedObjects (i : Int) = some r := by
    intro i hi
    obtain ⟨r, hr, hf⟩ := hget i hi
    exact ⟨r, hr, by rwa [Nat.zero_add] at hf⟩
  refine ⟨hlen, hget', ?_⟩
  intro c fuel Objects PackageClass RF_Load AllowedClasses NewSourcePackage ops hRun i r hr
  have hOwn : HoldsOwnIndex st :=
    RunSession_inv HoldsOwnIndex SerializerInvariant_HoldsOwnIndex (fun _ _ _ h => h) c fuel ops
      _ st (fun j r hj => by simp [InitializeForSerialization, NewSerializer, TMap.Find] at hj)
      hRun
  have hi : i < st.LastObjectIndex := by
    rw [← hlen]
    exact List.get?_eq_some.mp hr |>.1
  obtain ⟨r', hr', hf⟩ := hget' i hi
  rw [hr] at hr'
  cases hr'
  simp [FJsonObject.GetIntegerField, hOwn _ _ hf]

/-- Witness of `FinalizeSerialization_positions` (C19): the array of the scenario session after
`ScenarioOps` has `LastObjectIndex` elements, and its element at position `6`, the record of
`Leaf`, holds `6` under `ObjectIndex`. -/
theorem FinalizeSerialization_positions_witness :
    (FinalizedArray ScenarioAfterOps).length = ScenarioAfterOps.LastObjectIndex ∧
      FJsonObject.GetIntegerField (CyclicArray.getD 6 []) "ObjectIndex" = ((6 : Nat) : Int) :=
  have h := FinalizeSerialization_positions ScenarioAfterOps (FinalizedArray ScenarioAfterOps) rfl
  ⟨h.1, h.2.2 ReferenceCodec 10 ScenarioHeap 2 15 [1] 5 ScenarioOps rfl 6 (CyclicArray.getD 6 [])
    rfl⟩

/-! ## What a walk over the records collects (C16, C17, C18) -/

theorem NamesOf_append (st : FSession) (xs ys : List Int) :
    NamesOf st (xs ++ ys) = NamesOf st xs ++ NamesOf st ys := by
  induction xs with
  | nil => rfl
  | cons x xs ih => simp [NamesOf, ih]

theorem Walked.same (st : FSession) (w : FPackageWalk) : Walked st w w := by
  refine ⟨[], by simp, by simp [NamesOf], List.nodup_nil, ?_, ?_⟩
  · intro v hv
    cases hv
  · intro v hv
    cases hv

theorem Walked.visited_subset {st : FSession} {w w' : FPackageWalk} (h : Walked st w w')
    {v : Int} (hv : v ∈ w.ObjectsAlreadySerialized) : v ∈ w'.ObjectsAlreadySerialized := by
  obtain ⟨new, hV, _⟩ := h
  rw [hV]
  exact List.mem_append_left _ hv

theorem Walked.andThen {st : FSession} {w₁ w₂ w₃ : FPackageWalk} (h₁ : Walked st w₁ w₂)
    (h₂ : Walked st w₂ w₃) : Walked st w₁ w₃ := by
  have hSub : ∀ v, v ∈ w₂.ObjectsAlreadySerialized → v ∈ w₃.ObjectsAlreadySerialized :=
    fun v hv => h₂.visited_subset hv
  obtain ⟨n₁, hV₁, hN₁, hD₁, hM₁, hL₁⟩ := h₁
  obtain ⟨n₂, hV₂, hN₂, hD₂, hM₂, hL₂⟩ := h₂
  refine ⟨n₁ ++ n₂, ?_, ?_, ?_, ?_, ?_⟩
  · rw [hV₂, hV₁, List.append_assoc]
  · rw [hN₂, hN₁, NamesOf_append, List.append_assoc]
  · refine List.nodup_append.mpr ⟨hD₁, hD₂, fun v hv₁ hv₂ => ?_⟩
    exact (hM₂ v hv₂).1 (by rw [hV₁]; exact List.mem_append_right _ hv₁)
  · intro v hv
    rcases List.mem_append.mp hv with hv | hv
    · exact hM₁ v hv
    · obtain ⟨hNot, hNe, hRec⟩ := hM₂ v hv
      exact ⟨fun hIn => hNot (by rw [hV₁]; exact List.mem_append_left _ hIn), hNe, hRec⟩
  · intro v hv s hs
    rcases List.mem_append.mp hv with hv | hv
    · rcases hL₁ v hv s hs with h | h
      · exact Or.inl h
      · exact Or.inr (hSub s h)
    · exact hL₂ v hv s hs

theorem Walked.first {st : FSession} {w w₁ w' : FPackageWalk} {Index : Int}
    {Object : FJsonObject}
    (hNew : Index ∉ w.ObjectsAlreadySerialized) (hNe : Index ≠ INDEX_NONE)
    (hRecord : TMap.Find st.SerializedObjects Index = some Object)
    (hV : w₁.ObjectsAlreadySerialized = w.ObjectsAlreadySerialized ++ [Index])
    (hN : w₁.OutReferencedPackageNames = w.OutReferencedPackageNames ++ RecordNames Object)
    (hRest : Walked st w₁ w')
    (hLinks : ∀ s ∈ RecordLinks Object, s = INDEX_NONE ∨ s ∈ w'.ObjectsAlreadySerialized) :
    Walked st w w' ∧ (Index = INDEX_NONE ∨ Index ∈ w'.ObjectsAlreadySerialized) := by
  have hIn : Index ∈ w'.ObjectsAlreadySerialized :=
    hRest.visited_subset (by rw [hV]; simp)
  refine ⟨?_, Or.inr hIn⟩
  obtain ⟨new, hV', hN', hD, hM, hL⟩ := hRest
  have hNames : IndexNames st Index = RecordNames Object := by simp [IndexNames, hRecord]
  have hLinks' : IndexLinks st Index = RecordLinks Object := by simp [IndexLinks, hRecord]
  refine ⟨Index :: new, ?_, ?_, ?_, ?_, ?_⟩
  · rw [hV', hV, List.append_assoc]
    rfl
  · rw [hN', hN, List.append_assoc]
    simp [NamesOf, hNames]
  · refine List.nodup_cons.mpr ⟨fun hMem => ?_, hD⟩
    exact (hM Index hMem).1 (by rw [hV]; simp)
  · intro v hv
    rcases List.mem_cons.mp hv with rfl | hv
    · exact ⟨hNew, hNe, by simp [TMap.Contains, hRecord]⟩
    · obtain ⟨hNot, hNe', hRec⟩ := hM v hv
      exact ⟨fun hIn' => hNot (by rw [hV]; exact List.mem_append_left _ hIn'), hNe', hRec⟩
  · intro v hv s hs
    rcases List.mem_cons.mp hv with rfl | hv
    · rw [hLinks'] at hs
      exact hLinks s hs
    · exact hL v hv s hs

theorem CollectReferencedPackagesLoop_walked (st : FSession)
    (collect : Int → FPackageWalk → Run FPackageWalk)
    (hcollect : ∀ i w w', collect i w = Run.done w' →
      Walked st w w' ∧ (i = INDEX_NONE ∨ i ∈ w'.ObjectsAlreadySerialized))
    (refs : List FJsonValue) :
    ∀ (w w' : FPackageWalk), CollectReferencedPackagesLoop collect refs w = Run.done w' →
      Walked st w w' ∧ ∀ v ∈ refs, FJsonObject.AsNumber v = INDEX_NONE ∨
        FJsonObject.AsNumber v ∈ w'.ObjectsAlreadySerialized := by
  induction refs with
  | nil =>
    intro w w' h
    simp only [CollectReferencedPackagesLoop, Run.done.injEq] at h
    subst h
    exact ⟨Walked.same st w, fun v hv => by cases hv⟩
  | cons v rest ih =>
    intro w w' h
    simp only [CollectReferencedPackagesLoop, Run.bind_eq_done] at h
    obtain ⟨w₁, hw₁, hrest⟩ := h
    obtain ⟨hW₁, hIn₁⟩ := hcollect _ _ _ hw₁
    obtain ⟨hW₂, hIn₂⟩ := ih w₁ w' hrest
    refine ⟨hW₁.andThen hW₂, fun u hu => ?_⟩
    rcases List.mem_cons.mp hu with rfl | hu
    · rcases hIn₁ with h | h
      · exact Or.inl h
      · exact Or.inr (hW₂.visited_subset h)
    · exact hIn₂ u hu

theorem CollectObjectPackagesBody_walked (st : FSession)
    (collect : Int → FPackageWalk → Run FPackageWalk)
    (hcollect : ∀ i w w', collect i w = Run.done w' →
      Walked st w w' ∧ (i = INDEX_NONE ∨ i ∈ w'.ObjectsAlreadySerialized))
    (ObjectIndex : Int) (w w' : FPackageWalk)
    (h : CollectObjectPackagesBody collect st ObjectIndex w = Run.done w') :
    Walked st w w' ∧ (ObjectIndex = INDEX_NONE ∨
      ObjectIndex ∈ w'.ObjectsAlreadySerialized) := by
  unfold CollectObjectPackagesBody at h
  by_cases hNone : ObjectIndex = INDEX_NONE
  · simp only [hNone, if_true, Run.done.injEq] at h
    subst h
    exact ⟨Walked.same st w, Or.inl hNone⟩
  simp only [hNone, if_false] at h
  by_cases hSeen : ObjectIndex ∈ w.ObjectsAlreadySerialized
  · simp only [hSeen, if_true, Run.done.injEq] at h
    subst h
    exact ⟨Walked.same st w, Or.inr hSeen⟩
  simp only [hSeen, if_false] at h
  cases hRecord : TMap.Find st.SerializedObjects ObjectIndex with
  | none =>
    simp only [hRecord] at h
    cases h
  | some Object =>
    simp only [hRecord] at h
    by_cases hImport : FJsonObject.GetStringField Object "Type" = "Import"
    · simp only [hImport, if_true] at h
      cases hOuter : FJsonObject.HasField Object "Outer" with
      | true =>
        simp only [hOuter, if_true] at h
        obtain ⟨hW, hIn⟩ := hcollect _ _ _ h
        refine Walked.first hSeen hNone hRecord ?_ ?_ hW ?_
        · split <;> rfl
        · simp only [RecordNames, hImport, hOuter, if_true, List.append_nil]
          split <;> simp
        · intro s hs
          simp only [RecordLinks, hImport, hOuter, if_true, List.mem_singleton] at hs
          subst hs
          exact hIn
      | false =>
        simp only [hOuter, Bool.false_eq_true, if_false, Run.done.injEq] at h
        subst h
        refine Walked.first hSeen hNone hRecord ?_ ?_ (Walked.same st _) ?_
        · show (ite _ _ _ : FPackageWalk).ObjectsAlreadySerialized = _
          split <;> rfl
        · simp only [RecordNames, hImport, hOuter, if_true, Bool.false_eq_true, if_false]
          split <;> simp
        · intro s hs
          simp [RecordLinks, hImport, hOuter] at hs
    · simp only [hImport, if_false] at h
      by_cases hExport : FJsonObject.GetStringField Object "Type" = "Export"
      · simp only [hExport, if_true] at h
        cases hMark : FJsonObject.HasField Object "ObjectMark" with
        | true =>
          simp only [hMark, if_true, Run.done.injEq] at h
          subst h
          refine Walked.first hSeen hNone hRecord rfl ?_ (Walked.same st _) ?_
          · simp [RecordNames, hImport]
          · intro s hs
            unfold RecordLinks at hs
            rw [if_neg hImport, if_pos hExport] at hs
            simp [hMark] at hs
        | false =>
          simp only [hMark, Bool.false_eq_true, if_false, Run.bind_eq_done] at h
          obtain ⟨w₂, hw₂, w₃, hw₃, hFinal⟩ := h
          obtain ⟨hW₂, hIn₂⟩ := hcollect _ _ _ hw₂
          have hStep₃ : Walked st w₂ w₃ ∧ (FJsonObject.HasField Object "Outer" = true →
              FJsonObject.GetIntegerField Object "Outer" = INDEX_NONE ∨
                FJsonObject.GetIntegerField Object "Outer" ∈ w₃.ObjectsAlreadySerialized) := by
            cases hOuter : FJsonObject.HasField Object "Outer" with
            | true =>
              simp only [hOuter, if_true] at hw₃
              obtain ⟨hW, hIn⟩ := hcollect _ _ _ hw₃
              exact ⟨hW, fun _ => hIn⟩
            | false =>
              simp only [hOuter, Bool.false_eq_true, if_false, Run.done.injEq] at hw₃
              subst hw₃
              exact ⟨Walked.same st _, fun hO => by cases hO⟩
          obtain ⟨hW₃, hIn₃⟩ := hStep₃
          have hStep₄ : Walked st w₃ w' ∧ (FJsonObject.HasField Object "Properties" = true →
              ∀ Properties, FJsonObject.GetObjectField Object "Properties" = some Properties →
              ∀ v ∈ FJsonObject.GetArrayField Properties "$ReferencedObjects",
                FJsonObject.AsNumber v = INDEX_NONE ∨
                  FJsonObject.AsNumber v ∈ w'.ObjectsAlreadySerialized) := by
            cases hProps : FJsonObject.HasField Object "Properties" with
            | true =>
              simp only [hProps, if_true] at hFinal
              cases hObj : FJsonObject.GetObjectField Object "Properties" with
              | none =>
                simp only [hObj] at hFinal
                cases hFinal
              | some Properties =>
                simp only [hObj] at hFinal
                obtain ⟨hW, hIn⟩ := CollectReferencedPackagesLoop_walked st collect hcollect _ _
                  _ hFinal
                exact ⟨hW, fun _ P hP => by cases hP; exact hIn⟩
            | false =>
              simp only [hProps, Bool.false_eq_true, if_false, Run.done.injEq] at hFinal
              subst hFinal
              exact ⟨Walked.same st _, fun hP => by cases hP⟩
          obtain ⟨hW₄, hIn₄⟩ := hStep₄
          refine Walked.first hSeen hNone hRecord rfl ?_ ((hW₂.andThen hW₃).andThen hW₄) ?_
          · simp [RecordNames, hImport]
          · intro s hs
            unfold RecordLinks at hs
            rw [if_neg hImport, if_pos hExport] at hs
            simp only [hMark, if_false,
              Bool.false_eq_true, List.append_eq, List.nil_append, List.cons_append,
              List.mem_cons, List.mem_append] at hs
            rcases hs with hs | hs | hs
            · subst hs
              rcases hIn₂ with h | h
              · exact Or.inl h
              · exact Or.inr ((hW₃.andThen hW₄).visited_subset h)
            · cases hOuter : FJsonObject.HasField Object "Outer" with
              | true =>
                simp only [hOuter, if_true, List.mem_singleton] at hs
                subst hs
                rcases hIn₃ hOuter with h | h
                · exact Or.inl h
                · exact Or.inr (hW₄.visited_subset h)
              | false => simp [hOuter] at hs
            · cases hProps : FJsonObject.HasField Object "Properties" with
              | true =>
                simp only [hProps, if_true] at hs
                cases hObj : FJsonObject.GetObjectField Object "Properties" with
                | none => simp [hObj] at hs
                | some Properties =>
                  simp only [hObj, List.mem_map] at hs
                  obtain ⟨v, hv, rfl⟩ := hs
                  exact hIn₄ hProps Properties hObj v hv
              | false => simp [hProps] at hs
      · simp only [hExport, if_false, Run.done.injEq] at h
        subst h
        refine Walked.first hSeen hNone hRecord rfl ?_ (Walked.same st _) ?_
        · simp [RecordNames, hImport]
        · intro s hs
          unfold RecordLinks at hs
          rw [if_neg hImport, if_neg hExport] at hs
          cases hs

theorem CollectObjectPackages_walked (st : FSession) (fuel : Nat) :
    ∀ (ObjectIndex : Int) (w w' : FPackageWalk),
      CollectObjectPackages fuel st ObjectIndex w = Run.done w' →
      Walked st w w' ∧ (ObjectIndex = INDEX_NONE ∨
        ObjectIndex ∈ w'.ObjectsAlreadySerialized) := by
  induction fuel with
  | zero =>
    intro ObjectIndex w w' h
    cases h
  | succ fuel ih =>
    intro ObjectIndex w w' h
    exact CollectObjectPackagesBody_walked st (CollectObjectPackages fuel st) ih ObjectIndex w w'
      h

theorem CollectReferencedPackages_walked (st : FSession) (fuel : Nat)
    (refs : List FJsonValue) (out : List String) (w : FPackageWalk)
    (h : CollectReferencedPackages fuel st refs out = Run.done w) :
    w.OutReferencedPackageNames = out ++ NamesOf st w.ObjectsAlreadySerialized ∧
      w.ObjectsAlreadySerialized.Nodup ∧
      (∀ v ∈ w.ObjectsAlreadySerialized, v ≠ INDEX_NONE ∧
        TMap.Contains st.SerializedObjects v = true) ∧
      (∀ v ∈ w.ObjectsAlreadySerialized, ∀ s ∈ IndexLinks st v,
        s = INDEX_NONE ∨ s ∈ w.ObjectsAlreadySerialized) ∧
      ∀ v ∈ refs, FJsonObject.AsNumber v = INDEX_NONE ∨
        FJsonObject.AsNumber v ∈ w.ObjectsAlreadySerialized := by
  obtain ⟨⟨new, hV, hN, hD, hM, hL⟩, hStart⟩ := CollectReferencedPackagesLoop_walked st
    (CollectObjectPackages fuel st) (CollectObjectPackages_walked st fuel) refs _ w h
  simp only [List.nil_append] at hV hN
  rw [hV]
  exact ⟨hN, hD, fun v hv => (hM v hv).2, fun v hv s hs => by rw [← hV]; exact hL v hv s hs,
    fun v hv => by rw [← hV]; exact hStart v hv⟩

theorem RecordNames_length_le (Object : FJsonObject) : (RecordNames Object).length ≤ 2 := by
  unfold RecordNames
  split
  · rw [List.length_append]
    have h₁ : (if ¬ StartsWith (FJsonObject.GetStringField Object "ClassPackage") "/Script/" then
        [FJsonObject.GetStringField Object "ClassPackage"] else []).length ≤ 1 := by
      split <;> simp
    have h₂ : (if FJsonObject.HasField Object "Outer" then []
        else [FJsonObject.GetStringField Object "ObjectName"]).length ≤ 1 := by
      split <;> simp
    omega
  · simp

theorem IndexNames_length_le (st : FSession) (Index : Int) : (IndexNames st Index).length ≤ 2 := by
  unfold IndexNames
  split
  · simp
  · exact RecordNames_length_le _

theorem NamesOf_length_le (st : FSession) (visited : List Int) :
    (NamesOf st visited).length ≤ 2 * visited.length := by
  induction visited with
  | nil => simp [NamesOf]
  | cons i rest ih =>
    have h := IndexNames_length_le st i
    simp only [NamesOf, List.length_append, List.length_cons]
    omega

theorem mem_NamesOf {st : FSession} {name : String} {visited : List Int} :
    name ∈ NamesOf st visited ↔ ∃ i ∈ visited, name ∈ IndexNames st i := by
  induction visited with
  | nil => simp [NamesOf]
  | cons i rest ih => simp [NamesOf, ih]

/-- C16 (counterexample): in the records of `Foo` and `Leaf` serialized as Imports, both of
class `Widget`, the walk from the two objects puts the package name `/Game/Widgets` into the
output three times. -/
theorem CollectReferencedPackages_repeats_names :
    ∃ w, CollectReferencedPackages 10 SharedClassSession
        [FJsonValue.Number 0, FJsonValue.Number 2] [] = Run.done w ∧
      w.OutReferencedPackageNames =
        ["/Game/Widgets", "/Game/P", "/Game/Widgets", "/Game/Widgets"] ∧
      ¬ w.OutReferencedPackageNames.Nodup :=
  ⟨⟨["/Game/Widgets", "/Game/P", "/Game/Widgets", "/Game/Widgets"], [0, 1, 2, 3]⟩, rfl, rfl,
    by decide⟩

/-- C16 (amended): a completed `CollectReferencedPackages` has visited each index once, and its
output is the given list followed, in visiting order, by the names each visited record
contributes (at most two per record); the names themselves are not deduplicated. -/
theorem CollectReferencedPackages_names_per_index (fuel : Nat) (st : FSession)
    (refs : List FJsonValue) (out : List String) (w : FPackageWalk)
    (h : CollectReferencedPackages fuel st refs out = Run.done w) :
    w.ObjectsAlreadySerialized.Nodup ∧
      w.OutReferencedPackageNames = out ++ NamesOf st w.ObjectsAlreadySerialized ∧
      (∀ i, (IndexNames st i).length ≤ 2) ∧
      w.OutReferencedPackageNames.length ≤ out.length + 2 * w.ObjectsAlreadySerialized.length := by
  obtain ⟨hN, hD, _⟩ := CollectReferencedPackages_walked st fuel refs out w h
  refine ⟨hD, hN, IndexNames_length_le st, ?_⟩
  rw [hN, List.length_append]
  have := NamesOf_length_le st w.ObjectsAlreadySerialized
  omega

theorem CollectReferencedPackages_names_per_index_witness :
    [(0 : Int), 1, 2, 3].Nodup ∧
      ["/Game/Widgets", "/Game/P", "/Game/Widgets", "/Game/Widgets"] =
        [] ++ NamesOf SharedClassSession [0, 1, 2, 3] ∧
      (∀ i, (IndexNames SharedClassSession i).length ≤ 2) ∧
      ["/Game/Widgets", "/Game/P", "/Game/Widgets", "/Game/Widgets"].length ≤
        ([] : List String).length + 2 * [(0 : Int), 1, 2, 3].length :=
  CollectReferencedPackages_names_per_index 10 SharedClassSession
    [FJsonValue.Number 0, FJsonValue.Number 2] []
    ⟨["/Game/Widgets", "/Game/P", "/Game/Widgets", "/Game/Widgets"], [0, 1, 2, 3]⟩ rfl

theorem Ends.done {α : Type} (C : Prop) (a : α) : Ends C (Run.done a) :=
  ⟨(by intro h; cases h), fun _ => ⟨a, rfl⟩⟩

theorem Ends.fatal {α : Type} {C : Prop} (s : String) (h : ¬ C) : Ends C (Run.fatal s : Run α) :=
  ⟨(by intro h; cases h), fun hC => absurd hC h⟩

theorem Ends.mono {α : Type} {C C' : Prop} {r : Run α} (h : Ends C r) (hC : C' → C) :
    Ends C' r :=
  ⟨h.1, fun hC' => h.2 (hC hC')⟩

theorem Ends.bind {α β : Type} {C : Prop} {r : Run α} {f : α → Run β} (h : Ends C r)
    (hf : ∀ a, r = Run.done a → Ends C (f a)) : Ends C (r.bind f) := by
  cases r with
  | done a => exact hf a rfl
  | fatal s =>
    refine ⟨(by intro h; cases h), fun hC => ?_⟩
    obtain ⟨a, ha⟩ := h.2 hC
    cases ha
  | outOfFuel => exact absurd rfl h.1

theorem Unvisited_le_length (st : FSession) (visited : List Int) :
    Unvisited st visited ≤ st.SerializedObjects.length := by
  unfold Unvisited
  exact (List.length_filter_le _ _).trans (by simp)

theorem Unvisited_mono (st : FSession) {visited visited' : List Int}
    (h : ∀ v, v ∈ visited → v ∈ visited') : Unvisited st visited' ≤ Unvisited st visited := by
  unfold Unvisited
  refine List.Sublist.length_le (List.monotone_filter_right _ ?_)
  intro a ha
  simp only [decide_eq_true_eq] at ha ⊢
  exact fun hv => ha (h a hv)

theorem length_filter_lt {α : Type} (p q : α → Bool) (l : List α) (a : α) (ha : a ∈ l)
    (hpq : ∀ x, p x = true → q x = true) (hq : q a = true) (hp : ¬ p a = true) :
    (l.filter p).length < (l.filter q).length := by
  induction l with
  | nil => cases ha
  | cons k rest ih =>
    have hMono := List.Sublist.length_le (List.monotone_filter_right rest hpq)
    rw [List.filter_cons, List.filter_cons]
    rcases List.mem_cons.mp ha with h | h
    · subst h
      rw [if_neg hp, if_pos hq, List.length_cons]
      omega
    · have := ih h
      by_cases hk : p k = true
      · rw [if_pos hk, if_pos (hpq k hk), List.length_cons, List.length_cons]
        omega
      · rw [if_neg hk]
        split
        · rw [List.length_cons]
          omega
        · exact this

theorem filter_not_mem_lt (keys visited : List Int) (Index : Int) (hKey : Index ∈ keys)
    (hNew : Index ∉ visited) :
    (keys.filter fun k => decide (k ∉ visited ++ [Index])).length <
      (keys.filter fun k => decide (k ∉ visited)).length := by
  refine length_filter_lt _ _ keys Index hKey ?_ ?_ ?_
  · intro x hx
    simp only [decide_eq_true_eq, List.mem_append, not_or] at hx ⊢
    exact hx.1
  · simpa using hNew
  · simp

theorem Unvisited_lt (st : FSession) (visited : List Int) (Index : Int) (Object : FJsonObject)
    (hRecord : TMap.Find st.SerializedObjects Index = some Object) (hNew : Index ∉ visited) :
    Unvisited st (visited ++ [Index]) < Unvisited st visited := by
  unfold Unvisited
  refine filter_not_mem_lt _ visited Index ?_ hNew
  exact List.mem_map.mpr ⟨(Index, Object), TMap.Find_mem hRecord, rfl⟩

theorem RecordClosed_of_Find {st : FSession} {Index : Int} {Object : FJsonObject}
    (hClosed : CollectClosed st = true)
    (hRecord : TMap.Find st.SerializedObjects Index = some Object) :
    (∀ s ∈ RecordLinks Object, s = INDEX_NONE ∨ TMap.Contains st.SerializedObjects s = true) ∧
      (FJsonObject.GetStringField Object "Type" = "Export" →
        FJsonObject.HasField Object "ObjectMark" = false →
        FJsonObject.HasField Object "Properties" = true →
        ∃ Properties, FJsonObject.GetObjectField Object "Properties" = some Properties) := by
  have h := (List.all_eq_true.mp hClosed) (Index, Object) (TMap.Find_mem hRecord)
  simp only [RecordClosed, Bool.and_eq_true, List.all_eq_true, Bool.or_eq_true,
    decide_eq_true_eq, Bool.not_eq_true', Bool.and_eq_false_imp] at h
  refine ⟨h.1, fun hE hM hP => ?_⟩
  rcases h.2 with h₂ | h₂
  · have := h₂ ⟨hE, hM⟩
    simp [hP] at this
  · exact Option.isSome_iff_exists.mp h₂

theorem mem_RecordLinks_import {Object : FJsonObject}
    (hImport : FJsonObject.GetStringField Object "Type" = "Import")
    (hOuter : FJsonObject.HasField Object "Outer" = true) :
    FJsonObject.GetIntegerField Object "Outer" ∈ RecordLinks Object := by
  unfold RecordLinks
  rw [if_pos hImport, if_pos hOuter]
  exact List.mem_singleton.mpr rfl

theorem mem_RecordLinks_export {Object : FJsonObject}
    (hImport : ¬ FJsonObject.GetStringField Object "Type" = "Import")
    (hExport : FJsonObject.GetStringField Object "Type" = "Export")
    (hMark : ¬ FJsonObject.HasField Object "ObjectMark" = true) (s : Int) :
    s ∈ RecordLinks Object ↔
      s = FJsonObject.GetIntegerField Object "ObjectClass" ∨
      (FJsonObject.HasField Object "Outer" = true ∧
        s = FJsonObject.GetIntegerField Object "Outer") ∨
      (FJsonObject.HasField Object "Properties" = true ∧
        ∃ Properties, FJsonObject.GetObjectField Object "Properties" = some Properties ∧
          ∃ v ∈ FJsonObject.GetArrayField Properties "$ReferencedObjects",
            s = FJsonObject.AsNumber v) := by
  unfold RecordLinks
  rw [if_neg hImport, if_pos hExport, if_neg hMark, List.mem_append, List.mem_append,
    List.mem_singleton, or_assoc]
  refine or_congr Iff.rfl (or_congr ?_ ?_)
  · by_cases hOuter : FJsonObject.HasField Object "Outer" = true
    · rw [if_pos hOuter, List.mem_singleton]
      exact ⟨fun h => ⟨hOuter, h⟩, fun h => h.2⟩
    · rw [if_neg hOuter]
      exact ⟨fun h => (by cases h), fun h => absurd h.1 hOuter⟩
  · by_cases hProps : FJsonObject.HasField Object "Properties" = true
    · rw [if_pos hProps]
      cases hObj : FJsonObject.GetObjectField Object "Properties" with
      | none =>
        refine ⟨fun h => (by cases h), ?_⟩
        rintro ⟨_, P, hP, _⟩
        cases hP
      | some Properties =>
        constructor
        · intro h
          obtain ⟨v, hv, rfl⟩ := List.mem_map.mp h
          exact ⟨hProps, Properties, rfl, v, hv, rfl⟩
        · rintro ⟨_, P, hP, v, hv, rfl⟩
          cases hP
          exact List.mem_map.mpr ⟨v, hv, rfl⟩
    · rw [if_neg hProps]
      exact ⟨fun h => (by cases h), fun h => absurd h.1 hProps⟩

theorem CollectReferencedPackagesLoop_ends (st : FSession)
    (collect : Int → FPackageWalk → Run FPackageWalk) (n : Nat)
    (hT : ∀ i w, Unvisited st w.ObjectsAlreadySerialized ≤ n →
      Ends (CollectClosed st = true ∧
        (i = INDEX_NONE ∨ TMap.Contains st.SerializedObjects i = true)) (collect i w))
    (hW : ∀ i w w', collect i w = Run.done w' →
      Walked st w w' ∧ (i = INDEX_NONE ∨ i ∈ w'.ObjectsAlreadySerialized))
    (refs : List FJsonValue) :
    ∀ w, Unvisited st w.ObjectsAlreadySerialized ≤ n →
      Ends (CollectClosed st = true ∧ ∀ v ∈ refs, FJsonObject.AsNumber v = INDEX_NONE ∨
          TMap.Contains st.SerializedObjects (FJsonObject.AsNumber v) = true)
        (CollectReferencedPackagesLoop collect refs w) := by
  induction refs with
  | nil =>
    intro w _
    exact Ends.done _ _
  | cons v rest ih =>
    intro w hw
    unfold CollectReferencedPackagesLoop
    refine Ends.bind ((hT _ w hw).mono ?_) ?_
    · rintro ⟨hc, hv⟩
      exact ⟨hc, hv v (List.mem_cons_self _ _)⟩
    · intro w₁ h₁
      refine (ih w₁ ?_).mono ?_
      · exact (Unvisited_mono st (fun v hv => (hW _ _ _ h₁).1.visited_subset hv)).trans hw
      · rintro ⟨hc, hv⟩
        exact ⟨hc, fun x hx => hv x (List.mem_cons_of_mem _ hx)⟩

theorem CollectObjectPackagesBody_ends (st : FSession)
    (collect : Int → FPackageWalk → Run FPackageWalk) (n : Nat)
    (hT : ∀ i w, Unvisited st w.ObjectsAlreadySerialized ≤ n →
      Ends (CollectClosed st = true ∧
        (i = INDEX_NONE ∨ TMap.Contains st.SerializedObjects i = true)) (collect i w))
    (hW : ∀ i w w', collect i w = Run.done w' →
      Walked st w w' ∧ (i = INDEX_NONE ∨ i ∈ w'.ObjectsAlreadySerialized))
    (ObjectIndex : Int) (w : FPackageWalk)
    (hw : Unvisited st w.ObjectsAlreadySerialized ≤ n + 1) :
    Ends (CollectClosed st = true ∧
        (ObjectIndex = INDEX_NONE ∨ TMap.Contains st.SerializedObjects ObjectIndex = true))
      (CollectObjectPackagesBody collect st ObjectIndex w) := by
  unfold CollectObjectPackagesBody
  by_cases hNone : ObjectIndex = INDEX_NONE
  · rw [if_pos hNone]
    exact Ends.done _ _
  rw [if_neg hNone]
  by_cases hSeen : ObjectIndex ∈ w.ObjectsAlreadySerialized
  · rw [if_pos hSeen]
    exact Ends.done _ _
  rw [if_neg hSeen]
  cases hRecord : TMap.Find st.SerializedObjects ObjectIndex with
  | none =>
    dsimp only
    refine Ends.fatal _ ?_
    rintro ⟨_, h | h⟩
    · exact hNone h
    · simp [TMap.Contains, hRecord] at h
  | some Object =>
    dsimp only
    have hStep : Unvisited st (w.ObjectsAlreadySerialized ++ [ObjectIndex]) ≤ n := by
      have := Unvisited_lt st _ ObjectIndex Object hRecord hSeen
      omega
    have hLink : ∀ s ∈ RecordLinks Object, ∀ w₁ : FPackageWalk,
        Unvisited st w₁.ObjectsAlreadySerialized ≤ n →
        Ends (CollectClosed st = true ∧
          (ObjectIndex = INDEX_NONE ∨ TMap.Contains st.SerializedObjects ObjectIndex = true))
          (collect s w₁) :=
      fun s hs w₁ h₁ => (hT s w₁ h₁).mono
        (fun hC => ⟨hC.1, (RecordClosed_of_Find hC.1 hRecord).1 s hs⟩)
    have hNext : ∀ i (w₁ w₂ : FPackageWalk), collect i w₁ = Run.done w₂ →
        Unvisited st w₁.ObjectsAlreadySerialized ≤ n →
        Unvisited st w₂.ObjectsAlreadySerialized ≤ n :=
      fun i w₁ w₂ h h₁ =>
        (Unvisited_mono st (fun v hv => (hW i w₁ w₂ h).1.visited_subset hv)).trans h₁
    by_cases hImport : FJsonObject.GetStringField Object "Type" = "Import"
    · rw [if_pos hImport]
      by_cases hOuter : FJsonObject.HasField Object "Outer" = true
      · rw [if_pos hOuter]
        refine hLink _ (mem_RecordLinks_import hImport hOuter) _ ?_
        split <;> exact hStep
      · rw [if_neg hOuter]
        exact Ends.done _ _
    · rw [if_neg hImport]
      by_cases hExport : FJsonObject.GetStringField Object "Type" = "Export"
      · rw [if_pos hExport]
        by_cases hMark : FJsonObject.HasField Object "ObjectMark" = true
        · rw [if_pos hMark]
          exact Ends.done _ _
        · rw [if_neg hMark]
          have hMem := mem_RecordLinks_export hImport hExport hMark
          refine Ends.bind (hLink _ ((hMem _).mpr (Or.inl rfl)) _ hStep) ?_
          intro w₂ h₂
          have hw₂ := hNext _ _ _ h₂ hStep
          by_cases hOuter : FJsonObject.HasField Object "Outer" = true
          · rw [if_pos hOuter]
            refine Ends.bind (hLink _ ((hMem _).mpr (Or.inr (Or.inl ⟨hOuter, rfl⟩))) _ hw₂) ?_
            intro w₃ h₃
            have hw₃ := hNext _ _ _ h₃ hw₂
            by_cases hProps : FJsonObject.HasField Object "Properties" = true
            · rw [if_pos hProps]
              cases hObj : FJsonObject.GetObjectField Object "Properties" with
              | none =>
                dsimp only
                refine Ends.fatal _ ?_
                intro hC
                obtain ⟨P, hP⟩ := (RecordClosed_of_Find hC.1 hRecord).2 hExport
                  (by simpa using hMark) hProps
                rw [hObj] at hP
                cases hP
              | some Properties =>
                dsimp only
                refine (CollectReferencedPackagesLoop_ends st collect n hT hW _ w₃ hw₃).mono ?_
                intro hC
                exact ⟨hC.1, fun v hv => (RecordClosed_of_Find hC.1 hRecord).1 _
                  ((hMem _).mpr (Or.inr (Or.inr ⟨hProps, Properties, hObj, v, hv, rfl⟩)))⟩
            · rw [if_neg hProps]
              exact Ends.done _ _
          · rw [if_neg hOuter, Run.bind_done]
            by_cases hProps : FJsonObject.HasField Object "Properties" = true
            · rw [if_pos hProps]
              cases hObj : FJsonObject.GetObjectField Object "Properties" with
              | none =>
                dsimp only
                refine Ends.fatal _ ?_
                intro hC
                obtain ⟨P, hP⟩ := (RecordClosed_of_Find hC.1 hRecord).2 hExport
                  (by simpa using hMark) hProps
                rw [hObj] at hP
                cases hP
              | some Properties =>
                dsimp only
                refine (CollectReferencedPackagesLoop_ends st collect n hT hW _ w₂ hw₂).mono ?_
                intro hC
                exact ⟨hC.1, fun v hv => (RecordClosed_of_Find hC.1 hRecord).1 _
                  ((hMem _).mpr (Or.inr (Or.inr ⟨hProps, Properties, hObj, v, hv, rfl⟩)))⟩
            · rw [if_neg hProps]
              exact Ends.done _ _
      · rw [if_neg hExport]
        exact Ends.done _ _

theorem CollectObjectPackages_ends (st : FSession) (n : Nat) :
    ∀ (ObjectIndex : Int) (w : FPackageWalk), Unvisited st w.ObjectsAlreadySerialized ≤ n →
      Ends (CollectClosed st = true ∧
          (ObjectIndex = INDEX_NONE ∨ TMap.Contains st.SerializedObjects ObjectIndex = true))
        (CollectObjectPackages (n + 1) st ObjectIndex w) := by
  induction n with
  | zero =>
    intro ObjectIndex w hw
    unfold CollectObjectPackages
    unfold CollectObjectPackagesBody
    by_cases hNone : ObjectIndex = INDEX_NONE
    · rw [if_pos hNone]
      exact Ends.done _ _
    rw [if_neg hNone]
    by_cases hSeen : ObjectIndex ∈ w.ObjectsAlreadySerialized
    · rw [if_pos hSeen]
      exact Ends.done _ _
    rw [if_neg hSeen]
    cases hRecord : TMap.Find st.SerializedObjects ObjectIndex with
    | none =>
      dsimp only
      refine Ends.fatal _ ?_
      rintro ⟨_, h | h⟩
      · exact hNone h
      · simp [TMap.Contains, hRecord] at h
    | some Object =>
      have := Unvisited_lt st _ ObjectIndex Object hRecord hSeen
      omega
  | succ n ih =>
    intro ObjectIndex w hw
    exact CollectObjectPackagesBody_ends st (CollectObjectPackages (n + 1) st) n ih
      (CollectObjectPackages_walked st (n + 1)) ObjectIndex w hw

/-- C17: with a recursion budget above the number of records, `CollectReferencedPackages` never
exhausts the budget, whatever the records and the start indices (cyclic reference graphs
included); when every link of every record and every start index is `INDEX_NONE` or has a
record, it completes, having processed each index at most once. -/
theorem CollectReferencedPackages_terminates (fuel : Nat) (st : FSession)
    (refs : List FJsonValue) (out : List String)
    (hFuel : st.SerializedObjects.length < fuel) :
    CollectReferencedPackages fuel st refs out ≠ Run.outOfFuel ∧
      (CollectClosed st = true → StartsClosed st refs = true →
        ∃ w, CollectReferencedPackages fuel st refs out = Run.done w ∧
          w.ObjectsAlreadySerialized.Nodup ∧
          w.OutReferencedPackageNames = out ++ NamesOf st w.ObjectsAlreadySerialized) := by
  obtain ⟨n, rfl⟩ : ∃ n, fuel = n + 1 := ⟨fuel - 1, by omega⟩
  have hEnds := CollectReferencedPackagesLoop_ends st (CollectObjectPackages (n + 1) st) n
    (CollectObjectPackages_ends st n) (CollectObjectPackages_walked st (n + 1)) refs
    { OutReferencedPackageNames := out, ObjectsAlreadySerialized := [] }
    ((Unvisited_le_length st []).trans (by omega))
  refine ⟨hEnds.1, fun hClosed hStarts => ?_⟩
  have hValid : ∀ v ∈ refs, FJsonObject.AsNumber v = INDEX_NONE ∨
      TMap.Contains st.SerializedObjects (FJsonObject.AsNumber v) = true := by
    intro v hv
    have := List.all_eq_true.mp hStarts v hv
    simpa using this
  obtain ⟨w, hw⟩ := hEnds.2 ⟨hClosed, hValid⟩
  have hWalk := CollectReferencedPackages_walked st (n + 1) refs out w hw
  exact ⟨w, hw, hWalk.2.1, hWalk.1⟩

theorem CollectReferencedPackages_terminates_witness :
    CyclicSession.SerializedObjects.length < 10 ∧ CollectClosed CyclicSession = true ∧
      StartsClosed CyclicSession [FJsonValue.Number 0] = true ∧
      ∃ w, CollectReferencedPackages 10 CyclicSession [FJsonValue.Number 0] [] = Run.done w ∧
        w.ObjectsAlreadySerialized.Nodup ∧
        w.OutReferencedPackageNames = [] ++ NamesOf CyclicSession w.ObjectsAlreadySerialized :=
  ⟨by decide, by decide, by decide,
    (CollectReferencedPackages_terminates 10 CyclicSession [FJsonValue.Number 0] []
      (by decide)).2 (by decide) (by decide)⟩

theorem mem_RecordNames {Object : FJsonObject} {name : String} :
    name ∈ RecordNames Object ↔
      FJsonObject.GetStringField Object "Type" = "Import" ∧
        ((name = FJsonObject.GetStringField Object "ClassPackage" ∧
            StartsWith (FJsonObject.GetStringField Object "ClassPackage") "/Script/" = false) ∨
          (name = FJsonObject.GetStringField Object "ObjectName" ∧
            FJsonObject.HasField Object "Outer" = false)) := by
  unfold RecordNames
  by_cases hImport : FJsonObject.GetStringField Object "Type" = "Import"
  · rw [if_pos hImport, List.mem_append]
    cases hS : StartsWith (FJsonObject.GetStringField Object "ClassPackage") "/Script/" <;>
      cases hO : FJsonObject.HasField Object "Outer" <;> simp [hImport]
  · rw [if_neg hImport]
    simp [hImport]

theorem OwningPackage_none (st : FSession) (n : Nat) : OwningPackage st n INDEX_NONE = none := by
  cases n with
  | zero => rfl
  | succ n => simp [OwningPackage]

theorem Reachable_visited {st : FSession} {refs : List FJsonValue} {visited : List Int}
    (hStart : ∀ v ∈ refs, FJsonObject.AsNumber v = INDEX_NONE ∨
      FJsonObject.AsNumber v ∈ visited)
    (hLinks : ∀ v ∈ visited, ∀ s ∈ IndexLinks st v, s = INDEX_NONE ∨ s ∈ visited)
    {i : Int} (h : Reachable st refs i) : i ∈ visited := by
  induction h with
  | start v hv hNe => exact (hStart v hv).resolve_left hNe
  | link i s _ hs hNe ih => exact (hLinks i ih s hs).resolve_left hNe

theorem OwningPackage_reachable {st : FSession} {refs : List FJsonValue} {name : String}
    (n : Nat) : ∀ i, Reachable st refs i → OwningPackage st n i = some name →
      ∃ j Object, Reachable st refs j ∧ TMap.Find st.SerializedObjects j = some Object ∧
        FJsonObject.GetStringField Object "Type" = "Import" ∧
        FJsonObject.HasField Object "Outer" = false ∧
        name = FJsonObject.GetStringField Object "ObjectName" := by
  induction n with
  | zero =>
    intro i _ h
    cases h
  | succ n ih =>
    intro i hi h
    unfold OwningPackage at h
    by_cases hNone : i = INDEX_NONE
    · rw [if_pos hNone] at h
      cases h
    rw [if_neg hNone] at h
    cases hRecord : TMap.Find st.SerializedObjects i with
    | none =>
      rw [hRecord] at h
      cases h
    | some Object =>
      rw [hRecord] at h
      dsimp only at h
      by_cases hImport : FJsonObject.GetStringField Object "Type" = "Import"
      · rw [if_pos hImport] at h
        by_cases hOuter : FJsonObject.HasField Object "Outer" = true
        · rw [if_pos hOuter] at h
          refine ih _ (Reachable.link i _ hi ?_ ?_) h
          · unfold IndexLinks
            rw [hRecord]
            exact mem_RecordLinks_import hImport hOuter
          · intro hEq
            rw [hEq, OwningPackage_none] at h
            cases h
        · rw [if_neg hOuter] at h
          exact ⟨i, Object, hi, hRecord, hImport, by simpa using hOuter,
            (Option.some.inj h).symm⟩
      · rw [if_neg hImport] at h
        cases h

/-- C18 (counterexample): in the walk over the records of `SerializeObject(Foo)`, the Import
record 1 (class `Widget`) is reached and its `ClassPackage` starts with `/Script/`, yet that
name is in the output (as the name of the package that owns the class `Class`); and record 3,
the Export without `Outer` that stands for the package `/Game/P` (heap object 5), is visited
without any name for it in the output. -/
theorem CollectReferencedPackages_script_name_and_export_root :
    ∃ w, CollectReferencedPackages 10 FooSession [FJsonValue.Number 0] [] = Run.done w ∧
      w.OutReferencedPackageNames = ["/Game/Widgets", "/Script/CoreUObject"] ∧
      (1 ∈ w.ObjectsAlreadySerialized ∧
        FJsonObject.GetStringField (GetRecord FooSession 1) "Type" = "Import" ∧
        FJsonObject.GetStringField (GetRecord FooSession 1) "ClassPackage" =
          "/Script/CoreUObject" ∧
        StartsWith "/Script/CoreUObject" "/Script/" = true ∧
        "/Script/CoreUObject" ∈ w.OutReferencedPackageNames) ∧
      (3 ∈ w.ObjectsAlreadySerialized ∧
        TMap.Find ScenarioSerialized.ObjectIndices 5 = some 3 ∧
        (GetObject ScenarioSerialized 5).Name = "/Game/P" ∧
        (GetObject ScenarioSerialized 5).Outer = none ∧
        FJsonObject.GetStringField (GetRecord FooSession 3) "Type" = "Export" ∧
        FJsonObject.HasField (GetRecord FooSession 3) "Outer" = false ∧
        "/Game/P" ∉ w.OutReferencedPackageNames ∧
        FJsonObject.GetStringField (GetRecord FooSession 3) "ObjectName" ∉
          w.OutReferencedPackageNames) :=
  ⟨⟨["/Game/Widgets", "/Script/CoreUObject"], [0, 1, 2, 3, 4, 5]⟩, rfl, rfl,
    ⟨by decide, by decide, by decide, by decide, by decide⟩,
    ⟨by decide, by decide, by decide, by decide, by decide, by decide, by decide, by decide⟩⟩

/-- C18 (amended): after a completed `CollectReferencedPackages`, every index reachable from the
start indices through the links the walk follows (the `Outer` of an Import; the `ObjectClass`,
`Outer` and `$ReferencedObjects` of an Export without mark) has been visited; for every
reachable Import record the output contains its `ClassPackage` when that does not start with
`/Script/`, its `ObjectName` when it has no `Outer`, and the name of the package owning it (the
`ObjectName` of the Import without `Outer` that ends its chain of `Outer` Imports); and every
name added to the output is such a `ClassPackage` or such an `ObjectName` of a visited Import
record. -/
theorem CollectReferencedPackages_import_names (fuel : Nat) (st : FSession)
    (refs : List FJsonValue) (out : List String) (w : FPackageWalk)
    (h : CollectReferencedPackages fuel st refs out = Run.done w) :
    (∀ i, Reachable st refs i → i ∈ w.ObjectsAlreadySerialized) ∧
      (∀ i Object, Reachable st refs i → TMap.Find st.SerializedObjects i = some Object →
        FJsonObject.GetStringField Object "Type" = "Import" →
        (StartsWith (FJsonObject.GetStringField Object "ClassPackage") "/Script/" = false →
          FJsonObject.GetStringField Object "ClassPackage" ∈ w.OutReferencedPackageNames) ∧
        (FJsonObject.HasField Object "Outer" = false →
          FJsonObject.GetStringField Object "ObjectName" ∈ w.OutReferencedPackageNames) ∧
        ∀ n name, OwningPackage st n i = some name → name ∈ w.OutReferencedPackageNames) ∧
      ∀ name ∈ w.OutReferencedPackageNames, name ∈ out ∨
        ∃ i ∈ w.ObjectsAlreadySerialized, ∃ Object,
          TMap.Find st.SerializedObjects i = some Object ∧
          FJsonObject.GetStringField Object "Type" = "Import" ∧
          ((name = FJsonObject.GetStringField Object "ClassPackage" ∧
              StartsWith (FJsonObject.GetStringField Object "ClassPackage") "/Script/" = false) ∨
            (name = FJsonObject.GetStringField Object "ObjectName" ∧
              FJsonObject.HasField Object "Outer" = false)) := by
  obtain ⟨hN, _, _, hLinks, hStart⟩ := CollectReferencedPackages_walked st fuel refs out w h
  have hVisited : ∀ i, Reachable st refs i → i ∈ w.ObjectsAlreadySerialized :=
    fun i hi => Reachable_visited hStart hLinks hi
  have hOut : ∀ i Object name, Reachable st refs i →
      TMap.Find st.SerializedObjects i = some Object → name ∈ RecordNames Object →
      name ∈ w.OutReferencedPackageNames := by
    intro i Object name hi hRecord hName
    rw [hN]
    refine List.mem_append_right _ (mem_NamesOf.mpr ⟨i, hVisited i hi, ?_⟩)
    unfold IndexNames
    rw [hRecord]
    exact hName
  refine ⟨hVisited, ?_, ?_⟩
  · intro i Object hi hRecord hImport
    refine ⟨fun hS => hOut i Object _ hi hRecord (mem_RecordNames.mpr ⟨hImport, Or.inl ⟨rfl, hS⟩⟩),
      fun hO => hOut i Object _ hi hRecord (mem_RecordNames.mpr ⟨hImport, Or.inr ⟨rfl, hO⟩⟩), ?_⟩
    intro n name hOwner
    obtain ⟨j, Root, hj, hRoot, hImp, hO, rfl⟩ := OwningPackage_reachable n i hi hOwner
    exact hOut j Root _ hj hRoot (mem_RecordNames.mpr ⟨hImp, Or.inr ⟨rfl, hO⟩⟩)
  · intro name hName
    rw [hN] at hName
    rcases List.mem_append.mp hName with hName | hName
    · exact Or.inl hName
    · obtain ⟨i, hi, hIn⟩ := mem_NamesOf.mp hName
      unfold IndexNames at hIn
      cases hRecord : TMap.Find st.SerializedObjects i with
      | none =>
        rw [hRecord] at hIn
        cases hIn
      | some Object =>
        rw [hRecord] at hIn
        obtain ⟨hImport, hCase⟩ := mem_RecordNames.mp hIn
        exact Or.inr ⟨i, hi, Object, hRecord, hImport, hCase⟩

theorem CollectReferencedPackages_import_names_witness :
    OwningPackage FooSession 5 1 = some "/Game/Widgets" ∧
      "/Game/Widgets" ∈ ["/Game/Widgets", "/Script/CoreUObject"] :=
  ⟨by decide,
    ((CollectReferencedPackages_import_names 10 FooSession [FJsonValue.Number 0] []
      ⟨["/Game/Widgets", "/Script/CoreUObject"], [0, 1, 2, 3, 4, 5]⟩ rfl).2.1 1 _
      (Reachable.link 0 1 (Reachable.start (FJsonValue.Number 0) (by simp) (by decide))
        (by decide) (by decide)) rfl rfl).2.2 5 "/Game/Widgets" (by decide)⟩

/-! ## Marked exports are not traversed (C25) -/

theorem TMap.Add_of_Find_none {κ ν : Type} [DecidableEq κ] (m : TMap κ ν) (k : κ) (v : ν)
    (h : TMap.Find m k = none) : TMap.Add m k v = m ++ [(k, v)] := by
  induction m with
  | nil => rfl
  | cons p rest ih =>
    obtain ⟨k', v'⟩ := p
    by_cases hk : k' = k
    · simp [TMap.Find, hk] at h
    · simp only [TMap.Find, hk, if_false] at h
      simp only [TMap.Add, hk, if_false, List.cons_append, ih h]

theorem TMap.Add_append_self {κ ν : Type} [DecidableEq κ] (m : TMap κ ν) (k : κ) (v v' : ν)
    (h : TMap.Find m k = none) : TMap.Add (m ++ [(k, v)]) k v' = m ++ [(k, v')] := by
  induction m with
  | nil => simp [TMap.Add]
  | cons p rest ih =>
    obtain ⟨k', w⟩ := p
    by_cases hk : k' = k
    · simp [TMap.Find, hk] at h
    · simp only [TMap.Find, hk, if_false] at h
      simp only [List.cons_append, TMap.Add, hk, if_false, List.append_eq, ih h]

theorem TMap.Find_append_self {κ ν : Type} [DecidableEq κ] (m : TMap κ ν) (k : κ) (v : ν)
    (h : TMap.Find m k = none) : TMap.Find (m ++ [(k, v)]) k = some v := by
  induction m with
  | nil => simp [TMap.Find]
  | cons p rest ih =>
    obtain ⟨k', w⟩ := p
    by_cases hk : k' = k
    · simp [TMap.Find, hk] at h
    · simp only [TMap.Find, hk, if_false] at h
      simp only [List.cons_append, TMap.Find, hk, if_false, List.append_eq, ih h]

/-- C25: `SerializeObject` of a not-yet-indexed object of the source package that has a
registered mark returns the next index and leaves a session that differs from the one before
only in `LastObjectIndex` (one more), the index table (one more entry) and the record
collection (one more record, of three fields). The result is the same for every property codec
and for every function put in the place of the recursive `SerializeObject`: neither is called,
so neither the class, the outer nor any property is visited. -/
theorem SerializeObject_marked_export_no_traversal (c : UPropertySerializer)
    (ser : FSession → Option ObjectId → Run (Int × FSession)) (fuel : Nat) (st : FSession)
    (Object : ObjectId) (ObjectMark : String)
    (hNew : TMap.Find st.ObjectIndices Object = none)
    (hFresh : TMap.Contains st.SerializedObjects (st.LastObjectIndex : Int) = false)
    (hExport : some (GetOutermost st Object) = st.SourcePackage)
    (hMark : TMap.Find st.ObjectMarks Object = some ObjectMark) :
    SerializeObjectBody c ser st (some Object) = Run.done ((st.LastObjectIndex : Int),
        { st with
          LastObjectIndex := st.LastObjectIndex + 1
          ObjectIndices := st.ObjectIndices ++ [(Object, (st.LastObjectIndex : Int))]
          SerializedObjects := st.SerializedObjects ++
            [((st.LastObjectIndex : Int),
              [("ObjectIndex", FJsonValue.Number (st.LastObjectIndex : Int)),
               ("Type", FJsonValue.String "Export"),
               ("ObjectMark", FJsonValue.String ObjectMark)])] }) ∧
      SerializeObject c (fuel + 1) st (some Object) = SerializeObjectBody c ser st (some Object) := by
  have hNone : TMap.Find st.SerializedObjects (st.LastObjectIndex : Int) = none := by
    simpa [TMap.Contains] using hFresh
  have hBody : ∀ ser' : FSession → Option ObjectId → Run (Int × FSession),
      SerializeObjectBody c ser' st (some Object) = Run.done ((st.LastObjectIndex : Int),
        { st with
          LastObjectIndex := st.LastObjectIndex + 1
          ObjectIndices := st.ObjectIndices ++ [(Object, (st.LastObjectIndex : Int))]
          SerializedObjects := st.SerializedObjects ++
            [((st.LastObjectIndex : Int),
              [("ObjectIndex", FJsonValue.Number (st.LastObjectIndex : Int)),
               ("Type", FJsonValue.String "Export"),
               ("ObjectMark", FJsonValue.String ObjectMark)])] }) := by
    intro ser'
    simp only [SerializeObjectBody, hNew, hExport, ne_eq, not_true_eq_false, if_false, hMark,
      SetRecordField, GetRecord, AllocateObject, TMap.Add_of_Find_none _ _ _ hNone,
      TMap.Add_of_Find_none _ _ _ hNew, TMap.Find_append_self _ _ _ hNone,
      TMap.Add_append_self _ _ _ _ hNone, Option.getD_some, FJsonObject.SetField]
    rfl
  refine ⟨hBody ser, ?_⟩
  rw [hBody ser]
  exact hBody (SerializeObject c fuel)

theorem SerializeObject_marked_export_no_traversal_witness :
    SerializeObjectBody ReferenceCodec (fun _ _ => Run.fatal "SerializeObject called")
        (SetObjectMark ScenarioSession 6 "M") (some 6) = Run.done (0,
        { SetObjectMark ScenarioSession 6 "M" with
          LastObjectIndex := 1
          ObjectIndices := [(6, 0)]
          SerializedObjects :=
            [(0, [("ObjectIndex", FJsonValue.Number 0), ("Type", FJsonValue.String "Export"),
              ("ObjectMark", FJsonValue.String "M")])] }) ∧
      SerializeObject ReferenceCodec 1 (SetObjectMark ScenarioSession 6 "M") (some 6) =
        SerializeObjectBody ReferenceCodec (fun _ _ => Run.fatal "SerializeObject called")
          (SetObjectMark ScenarioSession 6 "M") (some 6) :=
  SerializeObject_marked_export_no_traversal ReferenceCodec
    (fun _ _ => Run.fatal "SerializeObject called") 0 (SetObjectMark ScenarioSession 6 "M") 6 "M"
    (by decide) (by decide) (by decide) (by decide)

/-! ## The scenario of one export (C21) -/

/-- C21 (counterexample): after `SerializeObject(Foo)` in the fresh scenario session, the
source package `/Game/P` has index `3`, which is not the highest index of the session: six
indices were allocated, and the records discovered after the package are those of its class
`Package` (index `4`) and of the package `/Script/CoreUObject` (index `5`). -/
theorem SerializeObject_scenario_package_not_last :
    TMap.Find ScenarioSerialized.ObjectIndices 5 = some 3 ∧
      ScenarioSerialized.LastObjectIndex = 6 ∧
      TMap.Find ScenarioSerialized.ObjectIndices 2 = some 4 ∧
      TMap.Find ScenarioSerialized.ObjectIndices 0 = some 5 ∧
      TMap.Contains ScenarioSerialized.SerializedObjects 5 = true := by
  decide

/-- C21 (amended): in the fresh scenario session `SerializeObject(Foo)` returns index `0`; the
record of `Foo` is an Export whose `ObjectClass` is the index of the Import record of `Widget`,
whose `ObjectName` is `Foo` and whose `Outer` is the index of `/Game/P`; the record of
`/Game/P` is an Export without `Outer`; and that record has index `3`, discovered after the
class of `Foo` and its package and before the class `Package` and its package. -/
theorem SerializeObject_scenario_records :
    (SerializeObject ReferenceCodec 10 ScenarioSession (some 6)).value?.map (fun r => r.1)
        = some 0 ∧
      FJsonObject.GetStringField (GetRecord ScenarioSerialized 0) "Type" = "Export" ∧
      TMap.Find ScenarioSerialized.ObjectIndices 4 =
        some (FJsonObject.GetIntegerField (GetRecord ScenarioSerialized 0) "ObjectClass") ∧
      FJsonObject.HasField (GetRecord ScenarioSerialized 0) "ObjectClass" = true ∧
      FJsonObject.GetStringField (GetRecord ScenarioSerialized 1) "Type" = "Import" ∧
      FJsonObject.GetStringField (GetRecord ScenarioSerialized 1) "ObjectName" = "Widget" ∧
      FJsonObject.GetStringField (GetRecord ScenarioSerialized 0) "ObjectName" = "Foo" ∧
      FJsonObject.HasField (GetRecord ScenarioSerialized 0) "Outer" = true ∧
      TMap.Find ScenarioSerialized.ObjectIndices 5 =
        some (FJsonObject.GetIntegerField (GetRecord ScenarioSerialized 0) "Outer") ∧
      FJsonObject.GetStringField (GetRecord ScenarioSerialized 3) "Type" = "Export" ∧
      FJsonObject.HasField (GetRecord ScenarioSerialized 3) "Outer" = false ∧
      (ScenarioSerialized.ObjectIndices.map Prod.fst = [6, 4, 3, 5, 2, 0] ∧
        ScenarioSerialized.ObjectIndices.map Prod.snd = [0, 1, 2, 3, 4, 5]) := by
  decide

/-! ## The referenced-objects array of a Properties block (C23) -/

theorem SerializePropertyLink_referenced (c : UPropertySerializer)
    (ser : FSession → Option ObjectId → Run (Int × FSession)) (Object : ObjectId)
    (Q : List Int → Prop) (link : List FProperty)
    (hQ : ∀ p ∈ link, c.ShouldSerializeProperty p = true →
      ∀ v idxs refs, Q refs → Q (c.Referenced p v idxs refs)) :
    ∀ (st : FSession) (Properties : FJsonObject) (Referenced : List Int)
      (r : (FJsonObject × List Int) × FSession),
      SerializePropertyLink c ser Object link st Properties Referenced = Run.done r →
      Q Referenced → Q r.1.2 := by
  induction link with
  | nil =>
    intro st Properties Referenced r h hR
    simp only [SerializePropertyLink, Run.done.injEq] at h
    subst h
    exact hR
  | cons p rest ih =>
    intro st Properties Referenced r h hR
    have ih := ih (fun q hq => hQ q (List.mem_cons_of_mem _ hq))
    unfold SerializePropertyLink at h
    by_cases hp : c.ShouldSerializeProperty p = true
    · rw [if_pos hp, Run.bind_eq_done] at h
      obtain ⟨rs, _, h⟩ := h
      exact ih _ _ _ r h (hQ p (List.mem_cons_self _ _) hp _ _ _ hR)
    · rw [if_neg hp] at h
      exact ih _ _ _ r h hR

/-- C23: the `Properties` object that `SerializeObjectProperties` returns is what the property
loop built, with the field `$ReferencedObjects` set last: the field is always present, and it
is the array of the numbers that the `ReferencedSubobjects` array holds after the loop, in
order; when no persisted property changes that array, the field is the empty array. -/
theorem SerializeObjectProperties_referenced (c : UPropertySerializer)
    (ser : FSession → Option ObjectId → Run (Int × FSession)) (st : FSession) (Object : ObjectId)
    (Properties : FJsonObject) (st' : FSession)
    (h : SerializeObjectProperties c ser st Object = Run.done (Properties, st')) :
    ∃ Fields Referenced,
      SerializePropertyLink c ser Object (GetObject st (GetObject st Object).Class).PropertyLink
        st [] [] = Run.done ((Fields, Referenced), st') ∧
      Properties = FJsonObject.SetField Fields "$ReferencedObjects"
        (FJsonValue.Array (Referenced.map FJsonValue.Number)) ∧
      FJsonObject.HasField Properties "$ReferencedObjects" = true ∧
      TMap.Find Properties "$ReferencedObjects" =
        some (FJsonValue.Array (Referenced.map FJsonValue.Number)) ∧
      FJsonObject.GetArrayField Properties "$ReferencedObjects" =
        Referenced.map FJsonValue.Number ∧
      ((∀ p ∈ (GetObject st (GetObject st Object).Class).PropertyLink,
          c.ShouldSerializeProperty p = true →
          ∀ v idxs refs, c.Referenced p v idxs refs = refs) →
        Referenced = [] ∧ FJsonObject.GetArrayField Properties "$ReferencedObjects" = []) := by
  simp only [SerializeObjectProperties, SerializeObjectPropertiesIntoObject, Run.bind_eq_done,
    Run.done.injEq, Prod.mk.injEq] at h
  obtain ⟨⟨⟨Fields, Referenced⟩, st₁⟩, hLoop, hP, hSt⟩ := h
  subst hSt
  subst hP
  have hFind : TMap.Find (FJsonObject.SetField Fields "$ReferencedObjects"
      (FJsonValue.Array (Referenced.map FJsonValue.Number))) "$ReferencedObjects" =
      some (FJsonValue.Array (Referenced.map FJsonValue.Number)) :=
    TMap.Find_Add_self _ _ _
  have hArr : FJsonObject.GetArrayField (FJsonObject.SetField Fields "$ReferencedObjects"
      (FJsonValue.Array (Referenced.map FJsonValue.Number))) "$ReferencedObjects" =
      Referenced.map FJsonValue.Number := by
    simp only [FJsonObject.GetArrayField, hFind]
  refine ⟨Fields, Referenced, hLoop, rfl, ?_, hFind, hArr, ?_⟩
  · simp only [FJsonObject.HasField, TMap.Contains, hFind, Option.isSome_some]
  · intro hSame
    have hNil : Referenced = [] :=
      SerializePropertyLink_referenced c ser Object (fun refs => refs = []) _
        (fun p hp hs v idxs refs hr => by rw [hSame p hp hs v idxs refs]; exact hr)
        st [] [] _ hLoop rfl
    refine ⟨hNil, ?_⟩
    rw [hArr, hNil]
    rfl

theorem SerializeObjectProperties_referenced_witness :
    ∃ Fields Referenced,
      SerializePropertyLink ReferenceCodec (SerializeObject ReferenceCodec 9) 8
        (GetObject ScenarioSession (GetObject ScenarioSession 8).Class).PropertyLink
        ScenarioSession [] [] = Run.done ((Fields, Referenced), RootProperties.2) ∧
      RootProperties.1 = FJsonObject.SetField Fields "$ReferencedObjects"
        (FJsonValue.Array (Referenced.map FJsonValue.Number)) ∧
      FJsonObject.HasField RootProperties.1 "$ReferencedObjects" = true ∧
      TMap.Find RootProperties.1 "$ReferencedObjects" =
        some (FJsonValue.Array (Referenced.map FJsonValue.Number)) ∧
      FJsonObject.GetArrayField RootProperties.1 "$ReferencedObjects" =
        Referenced.map FJsonValue.Number ∧
      ((∀ p ∈ (GetObject ScenarioSession (GetObject ScenarioSession 8).Class).PropertyLink,
          ReferenceCodec.ShouldSerializeProperty p = true →
          ∀ v idxs refs, ReferenceCodec.Referenced p v idxs refs = refs) →
        Referenced = [] ∧
          FJsonObject.GetArrayField RootProperties.1 "$ReferencedObjects" = []) :=
  SerializeObjectProperties_referenced ReferenceCodec (SerializeObject ReferenceCodec 9)
    ScenarioSession 8 RootProperties.1 RootProperties.2 rfl

/-! ## Property comparison (C27) -/

theorem ComparePropertyLink_true_iff (c : UPropertySerializer)
    (cmp : Int → Option ObjectId → Run Bool) (st : FSession) (Properties : FJsonObject)
    (Object : ObjectId) (link : List FProperty) :
    ComparePropertyLink c cmp st Properties Object link = Run.done true ↔
      ∀ Property ∈ link, c.ShouldSerializeProperty Property = true →
        FJsonObject.HasField Properties Property.Name = true →
        ∃ ValueObject bs, TMap.Find Properties Property.Name = some ValueObject ∧
          CompareSubobjects cmp (c.ComparedObjects Property ValueObject
            (GetPropertyValue st Object Property.Name)) = Run.done bs ∧
          c.Compare Property ValueObject (GetPropertyValue st Object Property.Name) bs
            = true := by
  induction link with
  | nil => simp [ComparePropertyLink]
  | cons p rest ih =>
    unfold ComparePropertyLink
    by_cases hp : c.ShouldSerializeProperty p = true ∧
        FJsonObject.HasField Properties p.Name = true
    · rw [if_pos hp]
      cases hFind : TMap.Find Properties p.Name with
      | none =>
        constructor
        · intro h
          cases h
        · intro h
          obtain ⟨v, _, hv, _⟩ := h p (List.mem_cons_self _ _) hp.1 hp.2
          rw [hFind] at hv
          cases hv
      | some ValueObject =>
        dsimp only
        constructor
        · intro h
          rw [Run.bind_eq_done] at h
          obtain ⟨bs, hbs, h⟩ := h
          by_cases hc : c.Compare p ValueObject (GetPropertyValue st Object p.Name) bs = true
          · rw [if_pos hc] at h
            intro q hq hs hf
            rcases List.mem_cons.mp hq with rfl | hq
            · exact ⟨ValueObject, bs, hFind, hbs, hc⟩
            · exact ih.mp h q hq hs hf
          · rw [if_neg hc] at h
            cases h
        · intro h
          obtain ⟨v, bs, hv, hbs, hc⟩ := h p (List.mem_cons_self _ _) hp.1 hp.2
          rw [hFind] at hv
          cases hv
          rw [hbs, Run.bind_done, if_pos hc]
          exact ih.mpr (fun q hq => h q (List.mem_cons_of_mem _ hq))
    · rw [if_neg hp, ih]
      constructor
      · intro h q hq hs hf
        rcases List.mem_cons.mp hq with rfl | hq
        · exact absurd ⟨hs, hf⟩ hp
        · exact h q hq hs hf
      · exact fun h q hq => h q (List.mem_cons_of_mem _ hq)

/-- C27: `AreObjectPropertiesUpToDate(Properties, Object)` returns `true` exactly when, for
every property of the object's class that the codec persists and whose name is a field of
`Properties`, the codec's comparison of the stored value with the live value (given the
results of the object comparisons it asks for) is `true`; and for a full Export record (no
mark, with `Outer` and a `Properties` object) `CompareUObjects` returns `true` only if
`AreObjectPropertiesUpToDate` does, so a stored value that differs from the live one never
compares equal. -/
theorem CompareUObjects_properties_up_to_date (c : UPropertySerializer) (fuel : Nat)
    (st : FSession) (ObjectIndex : Int) (Obj : ObjectId) (ObjectJson Properties : FJsonObject)
    (hIndex : ObjectIndex ≠ INDEX_NONE)
    (hRecord : TMap.Find st.SerializedObjects ObjectIndex = some ObjectJson)
    (hType : FJsonObject.GetStringField ObjectJson "Type" ≠ "Import")
    (hMark : FJsonObject.HasField ObjectJson "ObjectMark" = false)
    (hOuter : FJsonObject.HasField ObjectJson "Outer" = true)
    (hProps : FJsonObject.GetObjectField ObjectJson "Properties" = some Properties) :
    (∀ cmp : Int → Option ObjectId → Run Bool,
      AreObjectPropertiesUpToDate c cmp st Properties Obj = Run.done true ↔
        ∀ Property ∈ (GetObject st (GetObject st Obj).Class).PropertyLink,
          c.ShouldSerializeProperty Property = true →
          FJsonObject.HasField Properties Property.Name = true →
          ∃ ValueObject bs, TMap.Find Properties Property.Name = some ValueObject ∧
            CompareSubobjects cmp (c.ComparedObjects Property ValueObject
              (GetPropertyValue st Obj Property.Name)) = Run.done bs ∧
            c.Compare Property ValueObject (GetPropertyValue st Obj Property.Name) bs
              = true) ∧
      (CompareUObjects c (fuel + 1) st ObjectIndex (some Obj) = Run.done true →
        AreObjectPropertiesUpToDate c (CompareUObjects c fuel st) st Properties Obj
          = Run.done true) := by
  refine ⟨fun cmp => ComparePropertyLink_true_iff c cmp st Properties Obj _, ?_⟩
  intro h
  have hHas : FJsonObject.HasField ObjectJson "Properties" = true := by
    unfold FJsonObject.GetObjectField at hProps
    unfold FJsonObject.HasField TMap.Contains
    cases hF : TMap.Find ObjectJson "Properties" with
    | none =>
      rw [hF] at hProps
      cases hProps
    | some v => rfl
  have hBody : CompareUObjectsBody c (CompareUObjects c fuel st) st ObjectIndex (some Obj)
      = Run.done true := h
  unfold CompareUObjectsBody at hBody
  dsimp only at hBody
  rw [if_neg hIndex] at hBody
  simp only [hRecord] at hBody
  rw [if_neg hType, hMark] at hBody
  simp only [Bool.false_eq_true, if_false] at hBody
  by_cases hName : (GetObject st Obj).Name ≠ FJsonObject.GetStringField ObjectJson "ObjectName"
  · rw [if_pos hName] at hBody
    cases hBody
  rw [if_neg hName, Run.bind_eq_done] at hBody
  obtain ⟨ClassMatches, _, hBody⟩ := hBody
  cases ClassMatches with
  | false => simp at hBody
  | true =>
    simp only [not_true_eq_false, if_false, hOuter, Run.bind_eq_done] at hBody
    obtain ⟨OuterMatches, _, hBody⟩ := hBody
    cases OuterMatches with
    | false => simp at hBody
    | true =>
      simp only [not_true_eq_false, if_false, hHas, if_true, hProps] at hBody
      exact hBody

theorem CompareUObjects_properties_up_to_date_witness :
    AreObjectPropertiesUpToDate ReferenceCodec (CompareUObjects ReferenceCodec 9 FooChangedSession)
        FooChangedSession [("count", FJsonValue.Number 5),
          ("$ReferencedObjects", FJsonValue.Array [])] 6 = Run.done false ∧
      AreObjectPropertiesUpToDate ReferenceCodec (CompareUObjects ReferenceCodec 9 FooSession)
        FooSession [("count", FJsonValue.Number 5),
          ("$ReferencedObjects", FJsonValue.Array [])] 6 = Run.done true ∧
      CompareUObjects ReferenceCodec 10 FooChangedSession 0 (some 6) = Run.done false ∧
      CompareUObjects ReferenceCodec 10 FooChangedSession 0 (some 6) ≠ Run.done true :=
  ⟨by decide, by decide, by decide, fun h =>
    absurd ((CompareUObjects_properties_up_to_date ReferenceCodec 9 FooChangedSession 0 6 _
      [("count", FJsonValue.Number 5), ("$ReferencedObjects", FJsonValue.Array [])]
      (by decide) rfl (by decide) (by decide) (by decide) rfl).2 h) (by decide)⟩

/-! ## Reuse of an existing object (C22) -/

theorem ApplyRecordProperties_object (c : UPropertySerializer)
    (deser : FSession → Int → Run (Option ObjectId × FSession)) (ObjectJson : FJsonObject)
    (Constructed : ObjectId × FSession) (r : Option ObjectId × FSession)
    (h : ApplyRecordProperties c deser ObjectJson Constructed = Run.done r) :
    r.1 = some Constructed.1 := by
  unfold ApplyRecordProperties at h
  split at h
  · split at h
    · rw [Run.bind_eq_done] at h
      obtain ⟨st3, _, h⟩ := h
      cases h
      rfl
    · cases h
      rfl
  · cases h
    rfl

theorem DeserializeExportedObject_resolved (c : UPropertySerializer)
    (d : FSession → Int → Run (Option ObjectId × FSession)) (st : FSession)
    (ObjectJson : FJsonObject) (rc : Option ObjectId × FSession) (ObjectClass : ObjectId)
    (OuterObject : ObjectId) (st2 : FSession)
    (hClass : d st (FJsonObject.GetIntegerField ObjectJson "ObjectClass") = Run.done rc)
    (hCast : CastClass rc.2 rc.1 = some ObjectClass)
    (hHasOuter : FJsonObject.HasField ObjectJson "Outer" = true)
    (hOuter : d rc.2 (FJsonObject.GetIntegerField ObjectJson "Outer")
      = Run.done (some OuterObject, st2)) :
    DeserializeExportedObject c d st ObjectJson = ApplyRecordProperties c d ObjectJson
      (match StaticFindObjectFast st2 ObjectClass OuterObject
          (FJsonObject.GetStringField ObjectJson "ObjectName") with
        | some ExistingObject => (ExistingObject, st2)
        | none =>
          StaticConstructObject st2 ObjectClass OuterObject
            (FJsonObject.GetStringField ObjectJson "ObjectName")
            (FJsonObject.GetIntegerField ObjectJson "ObjectFlags").toNat) := by
  simp only [DeserializeExportedObject, ApplyRecordProperties, hClass, Run.bind_done, hCast,
    hHasOuter, not_true_eq_false, if_false, hOuter]

/-- C22: for a full Export record (no mark, with `Outer`) whose class and outer resolve, if
`StaticFindObjectFast` finds an object of the resolved class and the recorded `ObjectName`
under the resolved outer, `DeserializeObject` applies the record's `Properties` to that object
in the session as it is after the outer was resolved (nothing is constructed) and returns that
object; if there is none, the same application of `Properties` is made to the object that
`StaticConstructObject` returns. -/
theorem DeserializeObject_reuses_existing (c : UPropertySerializer) (fuel : Nat) (st : FSession)
    (Index : Int) (ObjectJson : FJsonObject) (rc : Option ObjectId × FSession)
    (ObjectClass OuterObject : ObjectId) (st2 : FSession)
    (hIndex : Index ≠ INDEX_NONE)
    (hCache : TMap.Find st.LoadedObjects Index = none)
    (hRecord : TMap.Find st.SerializedObjects Index = some ObjectJson)
    (hType : FJsonObject.GetStringField ObjectJson "Type" = "Export")
    (hMark : FJsonObject.HasField ObjectJson "ObjectMark" = false)
    (hHasOuter : FJsonObject.HasField ObjectJson "Outer" = true)
    (hClass : DeserializeObject c fuel st (FJsonObject.GetIntegerField ObjectJson "ObjectClass")
      = Run.done rc)
    (hCast : CastClass rc.2 rc.1 = some ObjectClass)
    (hOuter : DeserializeObject c fuel rc.2 (FJsonObject.GetIntegerField ObjectJson "Outer")
      = Run.done (some OuterObject, st2)) :
    (∀ ExistingObject, StaticFindObjectFast st2 ObjectClass OuterObject
        (FJsonObject.GetStringField ObjectJson "ObjectName") = some ExistingObject →
      DeserializeObject c (fuel + 1) st Index =
          ((ApplyRecordProperties c (DeserializeObject c fuel) ObjectJson
            (ExistingObject, st2)).bind fun r =>
              Run.done (r.1, CacheLoadedObject r.2 Index r.1)) ∧
        ∀ r, DeserializeObject c (fuel + 1) st Index = Run.done r →
          r.1 = some ExistingObject) ∧
      (StaticFindObjectFast st2 ObjectClass OuterObject
          (FJsonObject.GetStringField ObjectJson "ObjectName") = none →
        DeserializeObject c (fuel + 1) st Index =
          ((ApplyRecordProperties c (DeserializeObject c fuel) ObjectJson
            (StaticConstructObject st2 ObjectClass OuterObject
              (FJsonObject.GetStringField ObjectJson "ObjectName")
              (FJsonObject.GetIntegerField ObjectJson "ObjectFlags").toNat)).bind fun r =>
              Run.done (r.1, CacheLoadedObject r.2 Index r.1))) := by
  have hBody : DeserializeObject c (fuel + 1) st Index =
      (DeserializeExportedObject c (DeserializeObject c fuel) st ObjectJson).bind fun r =>
        Run.done (r.1, CacheLoadedObject r.2 Index r.1) :=
    DeserializeObjectBody_export c _ st Index ObjectJson hIndex hCache hRecord hType hMark
  have hRes := DeserializeExportedObject_resolved c (DeserializeObject c fuel) st ObjectJson rc
    ObjectClass OuterObject st2 hClass hCast hHasOuter hOuter
  rw [hRes] at hBody
  refine ⟨fun ExistingObject hExisting => ?_, fun hNone => ?_⟩
  · rw [hExisting] at hBody
    refine ⟨hBody, fun r hr => ?_⟩
    rw [hBody, Run.bind_eq_done] at hr
    obtain ⟨a, ha, hr⟩ := hr
    cases hr
    exact ApplyRecordProperties_object c _ ObjectJson (ExistingObject, st2) a ha
  · rw [hNone] at hBody
    exact hBody

theorem DeserializeObject_reuses_existing_witness :
    StaticFindObjectFast FooOuterResolved.2 4 5 "Foo" = some 6 ∧
      DeserializeObject ReferenceCodec 10 FooSession 0 =
        ((ApplyRecordProperties ReferenceCodec (DeserializeObject ReferenceCodec 9)
          (GetRecord FooSession 0) (6, FooOuterResolved.2)).bind fun r =>
            Run.done (r.1, CacheLoadedObject r.2 0 r.1)) ∧
      FooOuterResolved.2.Objects.length = FooSession.Objects.length ∧
      (DeserializeObject ReferenceCodec 10 FooSession 0).value?.map (fun r => r.1)
        = some (some 6) :=
  ⟨by decide,
    ((DeserializeObject_reuses_existing ReferenceCodec 9 FooSession 0 (GetRecord FooSession 0)
      FooClassResolved 4 5 FooOuterResolved.2 (by decide) rfl rfl (by decide) (by decide)
      (by decide) rfl (by decide) rfl).1 6 (by decide)).1,
    by decide, by decide⟩

/-! ## First-visit order of index allocation (C26) -/

theorem SerializeObject_new_index (c : UPropertySerializer) (fuel : Nat) (st : FSession)
    (x : ObjectId) (r : Int × FSession) (hNew : TMap.Find st.ObjectIndices x = none)
    (h : SerializeObject c fuel st (some x) = Run.done r) :
    r.1 = (st.LastObjectIndex : Int) := by
  cases fuel with
  | zero => cases h
  | succ fuel =>
    simp only [SerializeObject, SerializeObjectBody, hNew] at h
    split at h
    · rw [Run.bind_eq_done] at h
      obtain ⟨st2, _, h⟩ := h
      cases h
      rfl
    · split at h
      · cases h
        rfl
      · rw [Run.bind_eq_done] at h
        obtain ⟨st3, _, h⟩ := h
        cases h
        rfl

theorem SerializerInvariant_count :
    SerializerInvariant (fun st => st.ObjectIndices.length = st.LastObjectIndex) := by
  refine ⟨?_, ?_, ?_⟩
  · intro st x hI hNew
    simp only [SetRecordField, AllocateObject, TMap.Add_of_Find_none _ _ _ hNew,
      List.length_append, List.length_singleton, hI]
  · intro st₀ st name v _ _ _ hI
    exact hI
  · intro st cls hI
    unfold NoteNativeClass
    split
    · exact hI
    · split <;> exact hI

/-- C26: in a session whose index table is well-formed and has one entry per allocated index,
`SerializeObject` of a not-yet-indexed object returns the number of objects indexed before the
call (which is `LastObjectIndex`); every other object first indexed during the call has a
strictly greater index; hence an object whose index is smaller than the returned one was
indexed, with that index, before the call began. The session after the call is again
well-formed with one entry per allocated index. -/
theorem SerializeObject_first_visit_order (c : UPropertySerializer) (fuel : Nat) (st : FSession)
    (x : ObjectId) (i : Int) (st' : FSession)
    (hWF : IndexTableWellFormed st)
    (hCount : st.ObjectIndices.length = st.LastObjectIndex)
    (hNew : TMap.Find st.ObjectIndices x = none)
    (h : SerializeObject c fuel st (some x) = Run.done (i, st')) :
    i = (st.ObjectIndices.length : Int) ∧ i = (st.LastObjectIndex : Int) ∧
      TMap.Find st'.ObjectIndices x = some i ∧
      (∀ y j, TMap.Find st'.ObjectIndices y = some j → TMap.Find st.ObjectIndices y = none →
        y ≠ x → i < j) ∧
      (∀ y j, TMap.Find st'.ObjectIndices y = some j → j < i →
        TMap.Find st.ObjectIndices y = some j) ∧
      IndexTableWellFormed st' ∧ st'.ObjectIndices.length = st'.LastObjectIndex := by
  have hi : i = (st.LastObjectIndex : Int) := SerializeObject_new_index c fuel st x _ hNew h
  obtain ⟨hExt, hx⟩ := SerializeObject_spec c fuel st (some x) _ h
  have hx : TMap.Find st'.ObjectIndices x = some i := hx x rfl
  have hWF' : IndexTableWellFormed st' := hExt.wellFormed hWF
  have hLater : ∀ y j, TMap.Find st'.ObjectIndices y = some j →
      TMap.Find st.ObjectIndices y = none → y ≠ x → i < j := by
    intro y j hy hyNew hyx
    by_contra hle
    have hj0 := (hWF'.bounded y j hy).1
    rcases lt_or_eq_of_le (not_lt.mp hle) with hlt | heq
    · obtain ⟨z, hz⟩ := hWF.surjective j hj0 (by rw [← hi]; exact hlt)
      have hzy : z = y := hWF'.injective z y j (hExt.indices z j hz) hy
      rw [hzy, hyNew] at hz
      cases hz
    · rw [heq] at hy
      exact hyx (hWF'.injective y x i hy hx)
  refine ⟨by rw [hCount]; exact hi, hi, hx, hLater, ?_, hWF', ?_⟩
  · intro y j hy hlt
    cases hOld : TMap.Find st.ObjectIndices y with
    | none =>
      by_cases hyx : y = x
      · rw [hyx, hx] at hy
        cases hy
        exact absurd hlt (lt_irrefl _)
      · exact absurd (hLater y j hy hOld hyx) (not_lt.mpr (le_of_lt hlt))
    | some k =>
      have := hExt.indices y k hOld
      rw [hy] at this
      cases this
      rfl
  · exact SerializeObject_inv (fun st => st.ObjectIndices.length = st.LastObjectIndex)
      SerializerInvariant_count c fuel st (some x) _ h hCount

theorem SerializeObject_first_visit_order_witness :
    (6 : Int) = (ScenarioSerialized.ObjectIndices.length : Int) ∧
      (6 : Int) = (ScenarioSerialized.LastObjectIndex : Int) ∧
      TMap.Find ScenarioRootAfterFoo.ObjectIndices 8 = some 6 ∧
      (∀ y j, TMap.Find ScenarioRootAfterFoo.ObjectIndices y = some j →
        TMap.Find ScenarioSerialized.ObjectIndices y = none → y ≠ 8 → 6 < j) ∧
      (∀ y j, TMap.Find ScenarioRootAfterFoo.ObjectIndices y = some j → j < 6 →
        TMap.Find ScenarioSerialized.ObjectIndices y = some j) ∧
      IndexTableWellFormed ScenarioRootAfterFoo ∧
      ScenarioRootAfterFoo.ObjectIndices.length = ScenarioRootAfterFoo.LastObjectIndex :=
  have hFoo := SerializeObject_first_visit_order ReferenceCodec 10 ScenarioSession 6 0
    ScenarioSerialized (IndexTableWellFormed_NewSerializer ScenarioHeap 2 15 [1] 5) rfl
    (by decide) rfl
  SerializeObject_first_visit_order ReferenceCodec 10 ScenarioSerialized 8 6
    ScenarioRootAfterFoo hFoo.2.2.2.2.2.1 hFoo.2.2.2.2.2.2 (by decide) rfl

/-! ## The native-class allow-list (C24) -/

theorem Run.Rel.bindRel {α β : Type} {Q : α → α → Prop} {Q' : β → β → Prop} {r₁ r₂ : Run α}
    {f g : α → Run β} (h : Run.Rel Q r₁ r₂) (hf : ∀ a b, Q a b → Run.Rel Q' (f a) (g b)) :
    Run.Rel Q' (r₁.bind f) (r₂.bind g) := by
  cases r₁ <;> cases r₂ <;> simp only [Run.Rel] at h
  · exact hf _ _ h
  · subst h
    rfl
  · trivial

theorem SameButNative.itself (st : FSession) : SameButNative st st :=
  ⟨rfl, rfl, rfl, rfl, rfl, rfl, rfl, rfl, rfl, rfl⟩

theorem SameButNative.getObject {st₁ st₂ : FSession} (h : SameButNative st₁ st₂) (o : ObjectId) :
    GetObject st₂ o = GetObject st₁ o := by
  simp only [GetObject, h.objects]

theorem SameButNative.getOutermost {st₁ st₂ : FSession} (h : SameButNative st₁ st₂)
    (o : ObjectId) : GetOutermost st₂ o = GetOutermost st₁ o := by
  simp only [GetOutermost, h.objects]

theorem SameButNative.getPropertyValue {st₁ st₂ : FSession} (h : SameButNative st₁ st₂)
    (o : ObjectId) (name : String) : GetPropertyValue st₂ o name = GetPropertyValue st₁ o name := by
  simp only [GetPropertyValue, h.getObject]

theorem SameButNative.setRecordField {st₁ st₂ : FSession} (h : SameButNative st₁ st₂)
    (Index : Int) (name : String) (v : FJsonValue) :
    SameButNative (SetRecordField st₁ Index name v) (SetRecordField st₂ Index name v) := by
  refine ⟨h.objects, h.packageClass, h.loadFlags, h.sourcePackage, h.marks, h.indices, ?_,
    h.loaded, h.last, h.log⟩
  simp only [SetRecordField, GetRecord, h.records]

theorem SameButNative.allocateObject {st₁ st₂ : FSession} (h : SameButNative st₁ st₂)
    (Object : ObjectId) :
    SameButNative (AllocateObject st₁ Object) (AllocateObject st₂ Object) := by
  refine ⟨h.objects, h.packageClass, h.loadFlags, h.sourcePackage, h.marks, ?_, ?_,
    h.loaded, ?_, h.log⟩
  · simp only [AllocateObject, h.indices, h.last]
  · simp only [AllocateObject, h.records, h.last]
  · simp only [AllocateObject, h.last]

theorem SameButNative.noteLeft (st : FSession) (cls : ObjectId) :
    SameButNative (NoteNativeClass st cls) st := by
  unfold NoteNativeClass
  split
  · exact SameButNative.itself st
  · split
    · exact SameButNative.itself st
    · exact ⟨rfl, rfl, rfl, rfl, rfl, rfl, rfl, rfl, rfl, rfl⟩

theorem SameButNative.symm {st₁ st₂ : FSession} (h : SameButNative st₁ st₂) :
    SameButNative st₂ st₁ :=
  ⟨h.objects.symm, h.packageClass.symm, h.loadFlags.symm, h.sourcePackage.symm, h.marks.symm,
    h.indices.symm, h.records.symm, h.loaded.symm, h.last.symm, h.log.symm⟩

theorem SameButNative.chain {st₁ st₂ st₃ : FSession} (h : SameButNative st₁ st₂)
    (h' : SameButNative st₂ st₃) : SameButNative st₁ st₃ :=
  ⟨h'.objects.trans h.objects, h'.packageClass.trans h.packageClass,
    h'.loadFlags.trans h.loadFlags, h'.sourcePackage.trans h.sourcePackage,
    h'.marks.trans h.marks, h'.indices.trans h.indices, h'.records.trans h.records,
    h'.loaded.trans h.loaded, h'.last.trans h.last, h'.log.trans h.log⟩

theorem SameButNative.noteNativeClass {st₁ st₂ : FSession} (h : SameButNative st₁ st₂)
    (cls : ObjectId) : SameButNative (NoteNativeClass st₁ cls) (NoteNativeClass st₂ cls) :=
  ((SameButNative.noteLeft st₁ cls).chain h).chain (SameButNative.noteLeft st₂ cls).symm

theorem Run.Rel.ofDone {α : Type} {Q : α → α → Prop} {a b : α} (h : Q a b) :
    Run.Rel Q (Run.done a) (Run.done b) := h

theorem SerializeImportedObject_same
    (ser : FSession → Option ObjectId → Run (Int × FSession))
    (hser : ∀ st₁ st₂ o, SameButNative st₁ st₂ → Run.Rel SameResult (ser st₁ o) (ser st₂ o))
    (st₁ st₂ : FSession) (h : SameButNative st₁ st₂) (ResultJson : Int) (Object : ObjectId) :
    Run.Rel SameButNative (SerializeImportedObject ser st₁ ResultJson Object)
      (SerializeImportedObject ser st₂ ResultJson Object) := by
  unfold SerializeImportedObject
  simp only [h.getObject, h.getOutermost]
  cases (GetObject st₁ Object).Outer with
  | none =>
    exact Run.Rel.ofDone
      (((h.setRecordField _ _ _).setRecordField _ _ _).setRecordField _ _ _)
  | some OuterObject =>
    refine Run.Rel.bindRel (hser _ _ _ ((h.setRecordField _ _ _).setRecordField _ _ _)) ?_
    intro a b hab
    rw [hab.1]
    exact Run.Rel.ofDone ((hab.2.setRecordField _ _ _).setRecordField _ _ _)

theorem SerializeSubobjects_same
    (ser : FSession → Option ObjectId → Run (Int × FSession))
    (hser : ∀ st₁ st₂ o, SameButNative st₁ st₂ → Run.Rel SameResult (ser st₁ o) (ser st₂ o))
    (os : List (Option ObjectId)) :
    ∀ st₁ st₂, SameButNative st₁ st₂ →
      Run.Rel SameResult (SerializeSubobjects ser st₁ os) (SerializeSubobjects ser st₂ os) := by
  induction os with
  | nil =>
    intro st₁ st₂ h
    exact Run.Rel.ofDone ⟨rfl, h⟩
  | cons o rest ih =>
    intro st₁ st₂ h
    unfold SerializeSubobjects
    refine Run.Rel.bindRel (hser _ _ o h) ?_
    intro a b hab
    refine Run.Rel.bindRel (ih _ _ hab.2) ?_
    intro as bs habs
    exact Run.Rel.ofDone ⟨by rw [hab.1, habs.1], habs.2⟩

theorem SerializePropertyLink_same (c : UPropertySerializer)
    (ser : FSession → Option ObjectId → Run (Int × FSession))
    (hser : ∀ st₁ st₂ o, SameButNative st₁ st₂ → Run.Rel SameResult (ser st₁ o) (ser st₂ o))
    (Object : ObjectId) (link : List FProperty) :
    ∀ st₁ st₂ Properties Referenced, SameButNative st₁ st₂ →
      Run.Rel SameResult (SerializePropertyLink c ser Object link st₁ Properties Referenced)
        (SerializePropertyLink c ser Object link st₂ Properties Referenced) := by
  induction link with
  | nil =>
    intro st₁ st₂ Properties Referenced h
    exact Run.Rel.ofDone ⟨rfl, h⟩
  | cons p rest ih =>
    intro st₁ st₂ Properties Referenced h
    unfold SerializePropertyLink
    simp only [h.getPropertyValue]
    split
    · refine Run.Rel.bindRel (SerializeSubobjects_same ser hser _ _ _ h) ?_
      intro a b hab
      rw [hab.1]
      exact ih _ _ _ _ hab.2
    · exact ih _ _ _ _ h

theorem SerializeObjectProperties_same (c : UPropertySerializer)
    (ser : FSession → Option ObjectId → Run (Int × FSession))
    (hser : ∀ st₁ st₂ o, SameButNative st₁ st₂ → Run.Rel SameResult (ser st₁ o) (ser st₂ o))
    (st₁ st₂ : FSession) (h : SameButNative st₁ st₂) (Object : ObjectId) :
    Run.Rel SameResult (SerializeObjectProperties c ser st₁ Object)
      (SerializeObjectProperties c ser st₂ Object) := by
  unfold SerializeObjectProperties SerializeObjectPropertiesIntoObject
  simp only [h.getObject]
  refine Run.Rel.bindRel (SerializePropertyLink_same c ser hser Object _ _ _ _ _ h) ?_
  intro a b hab
  exact Run.Rel.ofDone ⟨by rw [hab.1], hab.2⟩

theorem SerializeExportedObject_same (c : UPropertySerializer)
    (ser : FSession → Option ObjectId → Run (Int × FSession))
    (hser : ∀ st₁ st₂ o, SameButNative st₁ st₂ → Run.Rel SameResult (ser st₁ o) (ser st₂ o))
    (st₁ st₂ : FSession) (h : SameButNative st₁ st₂) (ResultJson : Int) (Object : ObjectId) :
    Run.Rel SameButNative (SerializeExportedObject c ser st₁ ResultJson Object)
      (SerializeExportedObject c ser st₂ ResultJson Object) := by
  unfold SerializeExportedObject
  simp only [h.getObject, h.packageClass, h.loadFlags]
  refine Run.Rel.bindRel (hser _ _ _ h) ?_
  intro rc rc' hrc
  rw [hrc.1]
  cases (GetObject st₁ Object).Outer with
  | none =>
    dsimp only
    split
    · exact Run.Rel.ofDone (hrc.2.setRecordField _ _ _)
    · rfl
  | some OuterObject =>
    dsimp only
    refine Run.Rel.bindRel (hser _ _ _ (hrc.2.setRecordField _ _ _)) ?_
    intro ro ro' hro
    rw [hro.1]
    refine Run.Rel.bindRel (SerializeObjectProperties_same c ser hser _ _
      ((((hro.2.setRecordField _ _ _).setRecordField _ _ _).setRecordField _ _
        _).noteNativeClass _) Object) ?_
    intro rp rp' hrp
    rw [hrp.1]
    exact Run.Rel.ofDone (hrp.2.setRecordField _ _ _)

theorem SerializeObjectBody_same (c : UPropertySerializer)
    (ser : FSession → Option ObjectId → Run (Int × FSession))
    (hser : ∀ st₁ st₂ o, SameButNative st₁ st₂ → Run.Rel SameResult (ser st₁ o) (ser st₂ o))
    (st₁ st₂ : FSession) (h : SameButNative st₁ st₂) (Object : Option ObjectId) :
    Run.Rel SameResult (SerializeObjectBody c ser st₁ Object)
      (SerializeObjectBody c ser st₂ Object) := by
  cases Object with
  | none => exact Run.Rel.ofDone ⟨rfl, h⟩
  | some Object =>
    unfold SerializeObjectBody
    simp only [h.indices, h.last, h.getOutermost, h.sourcePackage, h.marks]
    cases TMap.Find st₁.ObjectIndices Object with
    | some ObjectIndex => exact Run.Rel.ofDone ⟨rfl, h⟩
    | none =>
      dsimp only
      split
      · refine Run.Rel.bindRel (SerializeImportedObject_same ser hser _ _
          ((h.allocateObject Object).setRecordField _ _ _) _ Object) ?_
        intro a b hab
        exact Run.Rel.ofDone ⟨rfl, hab⟩
      · cases TMap.Find st₁.ObjectMarks Object with
        | some ObjectMark =>
          exact Run.Rel.ofDone
            ⟨rfl, ((h.allocateObject Object).setRecordField _ _ _).setRecordField _ _ _⟩
        | none =>
          dsimp only
          refine Run.Rel.bindRel (SerializeExportedObject_same c ser hser _ _
            ((h.allocateObject Object).setRecordField _ _ _) _ Object) ?_
          intro a b hab
          exact Run.Rel.ofDone ⟨rfl, hab⟩

theorem SerializeObject_same (c : UPropertySerializer) (fuel : Nat) :
    ∀ st₁ st₂ Object, SameButNative st₁ st₂ →
      Run.Rel SameResult (SerializeObject c fuel st₁ Object) (SerializeObject c fuel st₂ Object) := by
  induction fuel with
  | zero =>
    intro st₁ st₂ Object _
    trivial
  | succ fuel ih =>
    intro st₁ st₂ Object h
    exact SerializeObjectBody_same c (SerializeObject c fuel) ih st₁ st₂ h Object

theorem SerializerInvariant_allowList (Allowed : List ObjectId) (Unhandled : List String) :
    SerializerInvariant (fun st => st.AllowedNativeSerializeClasses = Allowed ∧
      ∀ name ∈ Unhandled, name ∈ st.UnhandledNativeClasses) := by
  refine ⟨fun st x hI _ => hI, fun st₀ st name v _ _ _ hI => hI, ?_⟩
  intro st cls hI
  unfold NoteNativeClass
  split
  · exact hI
  · split
    · exact hI
    · exact ⟨hI.1, fun name hn => List.mem_append_left _ (hI.2 name hn)⟩

/-- C24: two serialization sessions that agree on everything except the native-class
allow-list and the set of unhandled native classes behave alike: `SerializeObject` ends the
same way on both (it completes on both, with the same index, or stops on the same fatal error,
or exhausts the budget on both), and the sessions it leaves again agree on everything except
those two members (records, index table and `LastObjectIndex` included). A completed call
leaves the allow-list as it was and only adds to the unhandled set; a class on the allow-list
is not noted, a class that is not on it has its name in the set afterwards. -/
theorem SerializeObject_allow_list_diagnostic (c : UPropertySerializer) (fuel : Nat)
    (st₁ st₂ : FSession) (Object : Option ObjectId) (hSame : SameButNative st₁ st₂) :
    Run.Rel SameResult (SerializeObject c fuel st₁ Object) (SerializeObject c fuel st₂ Object) ∧
      (∀ r, SerializeObject c fuel st₁ Object = Run.done r →
        r.2.AllowedNativeSerializeClasses = st₁.AllowedNativeSerializeClasses ∧
        ∀ name ∈ st₁.UnhandledNativeClasses, name ∈ r.2.UnhandledNativeClasses) ∧
      (∀ st cls, SameButNative (NoteNativeClass st cls) st ∧
        ((GetObject st cls).ClassWithSerialize ∈ st.AllowedNativeSerializeClasses →
          NoteNativeClass st cls = st) ∧
        ((GetObject st cls).ClassWithSerialize ∉ st.AllowedNativeSerializeClasses →
          (GetObject st (GetObject st cls).ClassWithSerialize).Name ∈
            (NoteNativeClass st cls).UnhandledNativeClasses)) := by
  refine ⟨SerializeObject_same c fuel st₁ st₂ Object hSame, ?_, ?_⟩
  · intro r hr
    exact SerializeObject_inv _ (SerializerInvariant_allowList _ _) c fuel st₁ Object r hr
      ⟨rfl, fun _ hn => hn⟩
  · intro st cls
    refine ⟨SameButNative.noteLeft st cls, ?_, ?_⟩
    · intro hIn
      unfold NoteNativeClass
      rw [if_pos hIn]
    · intro hOut
      unfold NoteNativeClass
      rw [if_neg hOut]
      split
      · assumption
      · exact List.mem_append_right _ (List.mem_singleton.mpr rfl)

theorem SerializeObject_allow_list_diagnostic_witness :
    SameButNative ScenarioSession ScenarioSessionAllowing ∧
      Run.Rel SameResult (SerializeObject ReferenceCodec 10 ScenarioSession (some 6))
        (SerializeObject ReferenceCodec 10 ScenarioSessionAllowing (some 6)) ∧
      (SerializeObject ReferenceCodec 10 ScenarioSession (some 6)).state?.map
          (fun st => st.UnhandledNativeClasses) = some ["/Script/CoreUObject"] ∧
      (SerializeObject ReferenceCodec 10 ScenarioSessionAllowing (some 6)).state?.map
          (fun st => st.UnhandledNativeClasses) = some [] :=
  ⟨⟨rfl, rfl, rfl, rfl, rfl, rfl, rfl, rfl, rfl, rfl⟩,
    (SerializeObject_allow_list_diagnostic ReferenceCodec 10 ScenarioSession
      ScenarioSessionAllowing (some 6) ⟨rfl, rfl, rfl, rfl, rfl, rfl, rfl, rfl, rfl, rfl⟩).1,
    by decide, by decide⟩

/-! ## Saving of the configuration when saving is not allowed (C28) -/

/-- C28: the result of `LoadSMLConfiguration` with `bAllowSave = false` is its result with
`true`: the argument is not consulted. With the configuration file missing, the call with
`bAllowSave = false` calls `CreateDirectoryTree` and `SaveStringToFile`: afterwards the
configuration directory exists and, on a writable file system, the file holds the serialized
configuration. This is what `PreInitializeModLoading` does in the editor, and also what happens
when the file holds text that is not JSON. -/
theorem LoadSMLConfiguration_saves_when_not_allowed {Config : Type}
    (fmt : FConfigurationFormat Config) (s : FModLoaderState Config) :
    LoadSMLConfiguration fmt false s = LoadSMLConfiguration fmt true s ∧
      (LoadSMLConfiguration fmt false
          { s with PlatformFile := { s.PlatformFile with ConfigFile := FConfigFile.Missing } }
        ).PlatformFile =
        { ConfigFile :=
            if s.PlatformFile.Writable then
              FConfigFile.Content (fmt.WriteToJson s.SMLConfigurationPrivate)
            else FConfigFile.Missing,
          ConfigDirectoryExists := true,
          Writable := s.PlatformFile.Writable,
          CreateDirectoryTreeCalls := s.PlatformFile.CreateDirectoryTreeCalls + 1,
          SaveStringToFileCalls := s.PlatformFile.SaveStringToFileCalls ++
            [fmt.WriteToJson s.SMLConfigurationPrivate] } ∧
      PreInitializeModLoading ScenarioFormat true ScenarioEditorStart =
        { SMLConfigurationPrivate := 0,
          PlatformFile :=
            { ConfigFile := FConfigFile.Content "defaults", ConfigDirectoryExists := true,
              Writable := true, CreateDirectoryTreeCalls := 1,
              SaveStringToFileCalls := ["defaults"] },
          Log := [FConfigurationLog.MissingSavingNew, FConfigurationLog.Saved] } ∧
      (LoadSMLConfiguration ScenarioFormat false
          { ScenarioEditorStart with
            PlatformFile :=
              { ScenarioEditorStart.PlatformFile with
                ConfigFile := FConfigFile.Content "not json" } }).PlatformFile =
        { ConfigFile := FConfigFile.Content "defaults", ConfigDirectoryExists := true,
          Writable := true, CreateDirectoryTreeCalls := 1,
          SaveStringToFileCalls := ["defaults"] } :=
  ⟨rfl, rfl, rfl, by decide⟩

/-! ## Widgets left in the viewport (C29) -/

/-- C29: when the menu map is loaded twice in a row and then another map, the widget added at
the first load is still in the viewport: the second load overwrote `CurrentWidgetPtr` without
removing the widget it pointed to, the load of the other map removes only the second widget and
resets the pointer, and no later event removes the first. From the initial state the viewport
then shows widget `0`; after a single menu load followed by another map it shows none. -/
theorem LoadComplete_widget_left_behind (s : FWidgetPanelState) :
    s.WidgetsCreated ∈
        (LoadCompleteEvents s [MenuMapName, MenuMapName, "/Game/Map/Game"]).ViewportWidgets ∧
      (LoadCompleteEvents s [MenuMapName, MenuMapName, "/Game/Map/Game"]).CurrentWidgetPtr
        = none ∧
      LoadCompleteEvents InitialPanelState [MenuMapName, MenuMapName, "/Game/Map/Game"] =
        { CurrentWidgetPtr := none, ViewportWidgets := [0], WidgetsCreated := 2 } ∧
      LoadCompleteEvents InitialPanelState
          [MenuMapName, MenuMapName, "/Game/Map/Game", "/Game/Map/Other"] =
        { CurrentWidgetPtr := none, ViewportWidgets := [0], WidgetsCreated := 2 } ∧
      LoadCompleteEvents InitialPanelState [MenuMapName, "/Game/Map/Game"] =
        { CurrentWidgetPtr := none, ViewportWidgets := [], WidgetsCreated := 1 } := by
  have hMenu : FStringEquals MenuMapName MenuMapName = true := by decide
  have hGame : FStringEquals "/Game/Map/Game" MenuMapName = false := by decide
  refine ⟨?_, ?_, by decide, by decide, by decide⟩
  · simp only [LoadCompleteEvents, List.foldl, LoadComplete, hMenu, hGame, if_true,
      Bool.false_eq_true, if_false, AddViewportWidgetContent, RemoveViewportWidgetContent]
    refine (List.mem_erase_of_ne ?_).mpr ?_
    · omega
    · simp
  · simp only [LoadCompleteEvents, List.foldl, LoadComplete, hMenu, hGame, if_true,
      Bool.false_eq_true, if_false]

/-! ## Deserialization of a serialized cycle, started at the sub-object (C30) -/

theorem CyclicLeafCache_leaf_waits (fuel : Nat)
    (h : DeserializeObject ReferenceCodec (fuel + 1) (CyclicSessionWith CyclicLeafCache) 0
      = Run.outOfFuel) :
    DeserializeObject ReferenceCodec (fuel + 2) (CyclicSessionWith CyclicLeafCache) 6
      = Run.outOfFuel := by
  show DeserializeObjectBody ReferenceCodec (DeserializeObject ReferenceCodec (fuel + 1))
    (CyclicSessionWith CyclicLeafCache) 6 = Run.outOfFuel
  rw [DeserializeObjectBody_export ReferenceCodec (DeserializeObject ReferenceCodec (fuel + 1))
    (CyclicSessionWith CyclicLeafCache) 6 (CyclicArray.getD 6 []) (by decide) (by decide) rfl
    (by decide) (by decide)]
  rw [DeserializeExportedObject_outer_outOfFuel ReferenceCodec
    (DeserializeObject ReferenceCodec (fuel + 1)) (CyclicSessionWith CyclicLeafCache)
    (CyclicArray.getD 6 []) (some 4, CyclicSessionWith CyclicLeafCache) 4 rfl rfl (by decide) h]
  rfl

theorem CyclicLeafCache_root_waits (fuel : Nat)
    (h : DeserializeObject ReferenceCodec (fuel + 1) (CyclicSessionWith CyclicLeafCache) 6
      = Run.outOfFuel) :
    DeserializeObject ReferenceCodec (fuel + 2) (CyclicSessionWith CyclicLeafCache) 0
      = Run.outOfFuel := by
  show DeserializeObjectBody ReferenceCodec (DeserializeObject ReferenceCodec (fuel + 1))
    (CyclicSessionWith CyclicLeafCache) 0 = Run.outOfFuel
  rw [DeserializeObjectBody_export ReferenceCodec (DeserializeObject ReferenceCodec (fuel + 1))
    (CyclicSessionWith CyclicLeafCache) 0 (CyclicArray.getD 0 []) (by decide) (by decide) rfl
    (by decide) (by decide)]
  rw [DeserializeExportedObject_property_outOfFuel ReferenceCodec
    (DeserializeObject ReferenceCodec (fuel + 1)) (CyclicSessionWith CyclicLeafCache)
    (CyclicArray.getD 0 []) (some 7, CyclicSessionWith CyclicLeafCache) 7 5 8
    (CyclicSessionWith CyclicLeafCache)
    [("child", FJsonValue.Number 6), ("$ReferencedObjects", FJsonValue.Array [FJsonValue.Number 6])]
    rfl rfl (by decide) rfl (by decide) (by decide) rfl
    (DeserializePropertyLink_first_outOfFuel ReferenceCodec
      (DeserializeObject ReferenceCodec (fuel + 1)) _ 8
      { Name := "child", PropertyFlags := 2 } [] (CyclicSessionWith CyclicLeafCache)
      (FJsonValue.Number 6) 6 [] rfl rfl rfl h)]
  rfl

/-- With the caches filled from `Leaf`, `DeserializeObject(6)` runs out of every budget. -/
theorem CyclicLeafCache_filled_diverges (fuel : Nat) :
    DeserializeObject ReferenceCodec fuel (CyclicSessionWith CyclicLeafCache) 6
      = Run.outOfFuel := by
  induction fuel using Nat.strong_induction_on with
  | _ n ih =>
    match n with
    | 0 => rfl
    | 1 => rfl
    | 2 => rfl
    | k + 3 =>
      exact CyclicLeafCache_leaf_waits (k + 1)
        (CyclicLeafCache_root_waits k (ih (k + 1) (by omega)))

/-- C30: the record array that serializing `Root` of the scenario produces (`Root` is record
`0`, its property `child` references `Leaf`, record `6`, whose `Outer` is `0`) is one on which
`DeserializeObject` does not terminate, with a codec that calls `DeserializeObject` once for
each referenced index: in a fresh session seeded with it `DeserializeObject(6)` exhausts every
recursion budget, because resolving `Leaf` resolves its outer `Root`, whose properties resolve
`Leaf` again while neither index is cached. The records outside the cycle resolve. -/
theorem DeserializeObject_serialized_cycle_diverges :
    ((SerializeObject ReferenceCodec 10 ScenarioSession (some 8)).bind fun r =>
        (FinalizeSerialization r.2).bind fun arr =>
          Run.done (r.1, TMap.Find r.2.ObjectIndices 9, arr.length)) = Run.done (0, some 6, 8) ∧
      ReferenceCodec.DeserializedIndices { Name := "child", PropertyFlags := 2 }
        (FJsonValue.Number 6) = [6] ∧
      (∀ fuel, DeserializeObject ReferenceCodec fuel CyclicSession 6 = Run.outOfFuel) ∧
      (DeserializeObject ReferenceCodec 4 CyclicSession 3).value?.map (fun r => r.1)
        = some (some 5) ∧
      (DeserializeObject ReferenceCodec 4 CyclicSession 7).value?.map (fun r => r.1)
        = some (some 4) := by
  refine ⟨by decide, rfl, fun fuel => ?_, by decide, by decide⟩
  match fuel with
  | 0 => rfl
  | 1 => rfl
  | 2 => rfl
  | 3 => rfl
  | 4 => rfl
  | m + 5 =>
    have hRoot : DeserializeObject ReferenceCodec (m + 4)
        (CyclicSessionWith [(2, some 3), (7, some 4)]) 0 = Run.outOfFuel := by
      show DeserializeObjectBody ReferenceCodec (DeserializeObject ReferenceCodec (m + 3))
        (CyclicSessionWith [(2, some 3), (7, some 4)]) 0 = Run.outOfFuel
      rw [DeserializeObjectBody_export ReferenceCodec (DeserializeObject ReferenceCodec (m + 3))
        (CyclicSessionWith [(2, some 3), (7, some 4)]) 0 (CyclicArray.getD 0 []) (by decide)
        (by decide) rfl (by decide) (by decide)]
      rw [DeserializeExportedObject_property_outOfFuel ReferenceCodec
        (DeserializeObject ReferenceCodec (m + 3)) (CyclicSessionWith [(2, some 3), (7, some 4)])
        (CyclicArray.getD 0 [])
        (some 7, CyclicSessionWith [(2, some 3), (7, some 4), (1, some 7)]) 7 5 8
        (CyclicSessionWith CyclicLeafCache)
        [("child", FJsonValue.Number 6),
          ("$ReferencedObjects", FJsonValue.Array [FJsonValue.Number 6])]
        rfl rfl (by decide) rfl (by decide) (by decide) rfl
        (DeserializePropertyLink_first_outOfFuel ReferenceCodec
          (DeserializeObject ReferenceCodec (m + 3)) _ 8
          { Name := "child", PropertyFlags := 2 } [] (CyclicSessionWith CyclicLeafCache)
          (FJsonValue.Number 6) 6 [] rfl rfl rfl (CyclicLeafCache_filled_diverges (m + 3)))]
      rfl
    show DeserializeObjectBody ReferenceCodec (DeserializeObject ReferenceCodec (m + 4))
      CyclicSession 6 = Run.outOfFuel
    rw [DeserializeObjectBody_export ReferenceCodec (DeserializeObject ReferenceCodec (m + 4))
      CyclicSession 6 (CyclicArray.getD 6 []) (by decide) (by decide) rfl (by decide)
      (by decide)]
    rw [DeserializeExportedObject_outer_outOfFuel ReferenceCodec
      (DeserializeObject ReferenceCodec (m + 4)) CyclicSession (CyclicArray.getD 6 [])
      (some 4, CyclicSessionWith [(2, some 3), (7, some 4)]) 4 rfl rfl (by decide) hRoot]
    rfl

/-! ## Initialize for deserialization, then finalize (C33) -/

theorem FinalizeLoop_of_get (m : TMap Int FJsonObject) (arr : List FJsonObject) :
    ∀ start : Nat, (∀ i : Nat, i < arr.length →
        TMap.Find m ((start + i : Nat) : Int) = arr.get? i) →
      FinalizeLoop m start arr.length = Run.done arr := by
  induction arr with
  | nil =>
    intro start _
    rfl
  | cons r rest ih =>
    intro start h
    have h0 := h 0 (by simp)
    simp only [Nat.add_zero, List.get?_cons_zero] at h0
    have hRest : FinalizeLoop m (start + 1) rest.length = Run.done rest := by
      refine ih (start + 1) (fun i hi => ?_)
      have := h (i + 1) (by simpa using hi)
      rw [List.get?_cons_succ] at this
      rw [← this]
      congr 2
      omega
    simp only [List.length_cons, FinalizeLoop, h0, hRest, Run.bind_done]

/-- C33: for every record array `arr`, on a fresh serializer on which
`InitializeForDeserialization(arr)` was called, `FinalizeSerialization` completes (the check
for a missing record does not fire) and returns `arr` itself. -/
theorem FinalizeSerialization_after_initialize (Objects : List UObject)
    (PackageClass : ObjectId) (RF_Load : Nat) (AllowedClasses : List ObjectId)
    (arr : List FJsonObject) :
    FinalizeSerialization
        (InitializeForDeserialization (NewSerializer Objects PackageClass RF_Load AllowedClasses)
          arr) = Run.done arr := by
  show FinalizeLoop (AddSerializedObjects [] 0 arr) 0 arr.length = Run.done arr
  refine FinalizeLoop_of_get _ arr 0 (fun i _ => ?_)
  exact Find_AddSerializedObjects arr [] 0 (fun k _ => rfl) i

/-! ## Marked exports and the reverse lookup by tag (C32) -/

theorem TMap.FindKey_of_Find {κ ν : Type} [DecidableEq κ] [DecidableEq ν] (m : TMap κ ν)
    (k : κ) (v : ν) (hDistinct : (m.map Prod.snd).Nodup) (h : TMap.Find m k = some v) :
    TMap.FindKey m v = some k := by
  induction m with
  | nil => cases h
  | cons p rest ih =>
    obtain ⟨k₀, v₀⟩ := p
    simp only [List.map_cons, List.nodup_cons] at hDistinct
    by_cases hk : k₀ = k
    · simp only [TMap.Find, hk, if_true, Option.some.injEq] at h
      simp only [TMap.FindKey, h, if_true, hk]
    · simp only [TMap.Find, hk, if_false] at h
      have hv : v₀ ≠ v := by
        intro hv
        apply hDistinct.1
        rw [hv]
        exact List.mem_map.mpr ⟨(k, v), TMap.Find_mem h, rfl⟩
      simp only [TMap.FindKey, hv, if_false]
      exact ih hDistinct.2 h

theorem MarkRecord_resolves (c : UPropertySerializer) (fuel : Nat) (st : FSession) (Index : Int)
    (ObjectJson : FJsonObject) (x : ObjectId) (M : String)
    (hIndex : Index ≠ INDEX_NONE)
    (hCache : TMap.Find st.LoadedObjects Index = none)
    (hRecord : TMap.Find st.SerializedObjects Index = some ObjectJson)
    (hType : FJsonObject.GetStringField ObjectJson "Type" = "Export")
    (hHasMark : FJsonObject.HasField ObjectJson "ObjectMark" = true)
    (hMark : FJsonObject.GetStringField ObjectJson "ObjectMark" = M)
    (hKey : TMap.FindKey st.ObjectMarks M = some x) :
    DeserializeObject c (fuel + 1) st Index
        = Run.done (some x, CacheLoadedObject st Index (some x)) ∧
      CompareUObjects c (fuel + 1) st Index (some x) = Run.done true := by
  constructor
  · simp only [DeserializeObject, DeserializeObjectBody, hIndex, if_false, hCache, hRecord, hType,
      hHasMark, if_true, hMark, hKey]
    simp
  · have hImport : FJsonObject.GetStringField ObjectJson "Type" ≠ "Import" := by
      rw [hType]
      decide
    simp only [CompareUObjects, CompareUObjectsBody, hIndex, if_false, hRecord, hImport,
      hHasMark, if_true, hMark, hKey, decide_True]

theorem MarkedExport_serialized (c : UPropertySerializer) (fuel : Nat) (st : FSession)
    (x : ObjectId) (M : String)
    (hMark : TMap.Find st.ObjectMarks x = some M)
    (hExport : some (GetOutermost st x) = st.SourcePackage)
    (hNew : TMap.Find st.ObjectIndices x = none) :
    ∃ st', SerializeObject c (fuel + 1) st (some x)
          = Run.done ((st.LastObjectIndex : Int), st') ∧
      TMap.Find st'.SerializedObjects (st.LastObjectIndex : Int) =
        some [("ObjectIndex", FJsonValue.Number (st.LastObjectIndex : Int)),
          ("Type", FJsonValue.String "Export"), ("ObjectMark", FJsonValue.String M)] ∧
      st'.LoadedObjects = st.LoadedObjects ∧ st'.ObjectMarks = st.ObjectMarks ∧
      st'.LastObjectIndex = st.LastObjectIndex + 1 := by
  refine ⟨SetRecordField (SetRecordField (AllocateObject st x) (st.LastObjectIndex : Int)
    "Type" (FJsonValue.String "Export")) (st.LastObjectIndex : Int) "ObjectMark"
    (FJsonValue.String M), ?_, ?_, rfl, rfl, rfl⟩
  · simp only [SerializeObject, SerializeObjectBody, hNew, hExport, hMark, ne_eq,
      not_true_eq_false, if_false]
  · simp [SetRecordField, GetRecord, AllocateObject, TMap.Find_Add_self, FJsonObject.SetField,
      TMap.Add]

/-- C32: when no two registered marks are equal, for every not-yet-indexed object `x` of the
source package registered with mark `M`, the reverse lookup of `M` gives `x`, and with `i` the
index `SerializeObject(x)` returns, `DeserializeObject(i)` returns `x` and
`CompareUObjects(i, x)` is `true`, both in the session itself and in a fresh deserialization
session seeded with the finalized array. Distinctness is needed: the reverse lookup cannot
give back both of two objects registered with the same mark, and in the scenario with `Foo`
and `Root` both marked `M` the index of `Root` deserializes to `Foo` and compares unequal to
`Root`. -/
theorem MarkedExport_round_trip (c : UPropertySerializer) (fuel fuel' : Nat) (st : FSession)
    (x : ObjectId) (M : String)
    (hDistinct : (st.ObjectMarks.map Prod.snd).Nodup)
    (hMark : TMap.Find st.ObjectMarks x = some M)
    (hExport : some (GetOutermost st x) = st.SourcePackage)
    (hNew : TMap.Find st.ObjectIndices x = none)
    (hCache : TMap.Find st.LoadedObjects (st.LastObjectIndex : Int) = none) :
    (∃ st', SerializeObject c (fuel + 1) st (some x)
          = Run.done ((st.LastObjectIndex : Int), st') ∧
        TMap.FindKey st.ObjectMarks M = some x ∧
        DeserializeObject c (fuel' + 1) st' (st.LastObjectIndex : Int)
          = Run.done (some x, CacheLoadedObject st' (st.LastObjectIndex : Int) (some x)) ∧
        CompareUObjects c (fuel' + 1) st' (st.LastObjectIndex : Int) (some x) = Run.done true ∧
        ∀ arr, FinalizeSerialization st' = Run.done arr →
          DeserializeObject c (fuel' + 1) (DeserializationSession st' arr)
              (st.LastObjectIndex : Int)
            = Run.done (some x, CacheLoadedObject (DeserializationSession st' arr)
                (st.LastObjectIndex : Int) (some x)) ∧
          CompareUObjects c (fuel' + 1) (DeserializationSession st' arr)
            (st.LastObjectIndex : Int) (some x) = Run.done true) ∧
      (∀ (m : TMap ObjectId String) (y z : ObjectId) (T : String), y ≠ z →
        TMap.Find m y = some T → TMap.Find m z = some T →
        ¬ (TMap.FindKey m T = some y ∧ TMap.FindKey m T = some z)) ∧
      ((SerializeObject ReferenceCodec 1 SharedMarkSession (some 8)).bind fun r =>
          (DeserializeObject ReferenceCodec 1 r.2 r.1).bind fun d =>
            (CompareUObjects ReferenceCodec 1 r.2 r.1 (some 8)).bind fun b =>
              Run.done (d.1, b)) = Run.done (some 6, false) := by
  refine ⟨?_, ?_, by decide⟩
  · have hKey := TMap.FindKey_of_Find st.ObjectMarks x M hDistinct hMark
    have hIndex : (st.LastObjectIndex : Int) ≠ INDEX_NONE := by
      unfold INDEX_NONE
      omega
    obtain ⟨st', hSer, hRec, hLoaded, hMarks, hLast⟩ :=
      MarkedExport_serialized c fuel st x M hMark hExport hNew
    have hType : FJsonObject.GetStringField
        [("ObjectIndex", FJsonValue.Number (st.LastObjectIndex : Int)),
          ("Type", FJsonValue.String "Export"), ("ObjectMark", FJsonValue.String M)] "Type"
        = "Export" := by
      simp [FJsonObject.GetStringField, TMap.Find]
    have hHasMark : FJsonObject.HasField
        [("ObjectIndex", FJsonValue.Number (st.LastObjectIndex : Int)),
          ("Type", FJsonValue.String "Export"), ("ObjectMark", FJsonValue.String M)]
        "ObjectMark" = true := by
      simp [FJsonObject.HasField, TMap.Contains, TMap.Find]
    have hTag : FJsonObject.GetStringField
        [("ObjectIndex", FJsonValue.Number (st.LastObjectIndex : Int)),
          ("Type", FJsonValue.String "Export"), ("ObjectMark", FJsonValue.String M)]
        "ObjectMark" = M := by
      simp [FJsonObject.GetStringField, TMap.Find]
    have hHere := MarkRecord_resolves c fuel' st' (st.LastObjectIndex : Int) _ x M hIndex
      (by rw [hLoaded]; exact hCache) hRec hType hHasMark hTag (by rw [hMarks]; exact hKey)
    refine ⟨st', hSer, hKey, hHere.1, hHere.2, fun arr hArr => ?_⟩
    obtain ⟨_, hGet⟩ := FinalizeLoop_get _ _ 0 arr hArr
    obtain ⟨r, hr, hFind⟩ := hGet st.LastObjectIndex (by omega)
    rw [Nat.zero_add, hRec] at hFind
    cases hFind
    have hSeed : TMap.Find (DeserializationSession st' arr).SerializedObjects
        (st.LastObjectIndex : Int) =
        some [("ObjectIndex", FJsonValue.Number (st.LastObjectIndex : Int)),
          ("Type", FJsonValue.String "Export"), ("ObjectMark", FJsonValue.String M)] := by
      have := Find_AddSerializedObjects arr [] 0 (fun k _ => rfl) st.LastObjectIndex
      rw [Nat.zero_add, hr] at this
      exact this
    exact MarkRecord_resolves c fuel' (DeserializationSession st' arr)
      (st.LastObjectIndex : Int) _ x M hIndex rfl hSeed hType hHasMark hTag
      (by show TMap.FindKey st'.ObjectMarks M = some x; rw [hMarks]; exact hKey)
  · intro m y z T hyz _ _ h
    rw [h.1] at h
    exact hyz (Option.some.inj h.2)

theorem MarkedExport_round_trip_witness :
    ∃ st', SerializeObject ReferenceCodec 1 DistinctMarksSession (some 8)
          = Run.done ((DistinctMarksSession.LastObjectIndex : Int), st') ∧
        TMap.FindKey DistinctMarksSession.ObjectMarks "N" = some 8 ∧
        DeserializeObject ReferenceCodec 1 st' (DistinctMarksSession.LastObjectIndex : Int)
          = Run.done (some 8,
              CacheLoadedObject st' (DistinctMarksSession.LastObjectIndex : Int) (some 8)) ∧
        CompareUObjects ReferenceCodec 1 st' (DistinctMarksSession.LastObjectIndex : Int)
          (some 8) = Run.done true ∧
        ∀ arr, FinalizeSerialization st' = Run.done arr →
          DeserializeObject ReferenceCodec 1 (DeserializationSession st' arr)
              (DistinctMarksSession.LastObjectIndex : Int)
            = Run.done (some 8, CacheLoadedObject (DeserializationSession st' arr)
                (DistinctMarksSession.LastObjectIndex : Int) (some 8)) ∧
          CompareUObjects ReferenceCodec 1 (DeserializationSession st' arr)
            (DistinctMarksSession.LastObjectIndex : Int) (some 8) = Run.done true :=
  (MarkedExport_round_trip ReferenceCodec 0 0 DistinctMarksSession 8 "N" (by decide)
    (by decide) (by decide) (by decide) (by decide)).1

/-! ## Termination of `SerializeObject` (C31) -/

theorem lt_length_of_Outer {st : FSession} {x p : ObjectId}
    (h : (GetObject st x).Outer = some p) : x < st.Objects.length := by
  by_contra hx
  have : GetObject st x = NullObject := by
    unfold GetObject
    exact List.getD_eq_default _ _ (not_lt.mp hx)
  rw [this] at h
  cases h

theorem GetOutermostAux_of_le (objs : List UObject) (n : Nat) (x : ObjectId)
    (hx : objs.length ≤ x) : GetOutermostAux objs n x = x := by
  cases n with
  | zero => rfl
  | succ n =>
    have : (objs.getD x NullObject).Outer = none := by
      rw [List.getD_eq_default _ _ hx]
      rfl
    simp only [GetOutermostAux, this]

theorem mem_Traversable_of_export {st : FSession} {x : ObjectId}
    (h : some (GetOutermost st x) = st.SourcePackage) : x ∈ Traversable st := by
  unfold Traversable
  by_cases hx : x < st.Objects.length
  · exact List.mem_append_left _ (List.mem_range.mpr hx)
  · refine List.mem_append_right _ ?_
    have hOut : GetOutermost st x = x := GetOutermostAux_of_le _ _ _ (not_lt.mp hx)
    rw [hOut] at h
    rw [← h]
    simp

theorem Unindexed_mono {st st' : FSession} (h : Extends st st') :
    Unindexed st' ≤ Unindexed st := by
  unfold Unindexed Traversable
  rw [h.objects, h.sourcePackage]
  refine List.Sublist.length_le (List.monotone_filter_right _ ?_)
  intro x hx
  cases hOld : TMap.Find st.ObjectIndices x with
  | none => rfl
  | some i =>
    rw [h.indices x i hOld] at hx
    cases hx

theorem Unindexed_lt {st st' : FSession} (h : Extends st st') {x : ObjectId} {i : Int}
    (hx : x ∈ Traversable st) (hNew : TMap.Find st.ObjectIndices x = none)
    (hIn : TMap.Find st'.ObjectIndices x = some i) : Unindexed st' < Unindexed st := by
  unfold Unindexed
  have hT : Traversable st' = Traversable st := by
    unfold Traversable
    rw [h.objects, h.sourcePackage]
  rw [hT]
  refine length_filter_lt _ _ _ x hx ?_ ?_ ?_
  · intro y hy
    cases hOld : TMap.Find st.ObjectIndices y with
    | none => rfl
    | some j =>
      rw [h.indices y j hOld] at hy
      cases hy
  · rw [hNew]
    rfl
  · rw [hIn]
    simp

theorem PackageCheckPasses_of_Extends {st st' : FSession} (h : Extends st st') :
    PackageCheckPasses st' = PackageCheckPasses st := by
  simp only [PackageCheckPasses, Traversable, GetOutermost, GetObject, h.objects,
    h.sourcePackage, h.packageClass]

theorem PackageCheckPasses_class {st : FSession} (h : PackageCheckPasses st = true)
    {x : ObjectId} (hExport : some (GetOutermost st x) = st.SourcePackage)
    (hOuter : (GetObject st x).Outer = none) : (GetObject st x).Class = st.PackageClass := by
  have := List.all_eq_true.mp h x (mem_Traversable_of_export hExport)
  simpa [hExport, hOuter] using this

theorem SerializeImportedObject_ends {C : Prop}
    (ser : FSession → Option ObjectId → Run (Int × FSession)) (st₀ : FSession)
    (hT : ∀ st' o, Extends st₀ st' → Ends C (ser st' o))
    (st : FSession) (hE : Extends st₀ st) (ResultJson : Int) (Object : ObjectId)
    (hIndex : TMap.Contains st.SerializedObjects ResultJson = true) :
    Ends C (SerializeImportedObject ser st ResultJson Object) := by
  unfold SerializeImportedObject
  cases (GetObject st Object).Outer with
  | none => exact Ends.done _ _
  | some OuterObject =>
    dsimp only
    refine Ends.bind (hT _ _ (hE.trans ?_)) (fun r _ => Ends.done _ _)
    exact (Extends_SetRecordField st ResultJson _ _ hIndex).thenSet ResultJson _ _ hIndex

theorem SerializeSubobjects_ends {C : Prop}
    (ser : FSession → Option ObjectId → Run (Int × FSession)) (st₀ : FSession)
    (hT : ∀ st' o, Extends st₀ st' → Ends C (ser st' o))
    (hser : ∀ st o r, ser st o = Run.done r → Extends st r.2) (os : List (Option ObjectId)) :
    ∀ st, Extends st₀ st → Ends C (SerializeSubobjects ser st os) := by
  induction os with
  | nil =>
    intro st _
    exact Ends.done _ _
  | cons o rest ih =>
    intro st hE
    unfold SerializeSubobjects
    refine Ends.bind (hT st o hE) (fun r hr => ?_)
    exact Ends.bind (ih r.2 (hE.trans (hser st o r hr))) (fun rs _ => Ends.done _ _)

theorem SerializePropertyLink_ends {C : Prop} (c : UPropertySerializer)
    (ser : FSession → Option ObjectId → Run (Int × FSession)) (st₀ : FSession)
    (hT : ∀ st' o, Extends st₀ st' → Ends C (ser st' o))
    (hser : ∀ st o r, ser st o = Run.done r → Extends st r.2) (Object : ObjectId)
    (link : List FProperty) :
    ∀ st Properties Referenced, Extends st₀ st →
      Ends C (SerializePropertyLink c ser Object link st Properties Referenced) := by
  induction link with
  | nil =>
    intro st Properties Referenced _
    exact Ends.done _ _
  | cons p rest ih =>
    intro st Properties Referenced hE
    unfold SerializePropertyLink
    split
    · refine Ends.bind (SerializeSubobjects_ends ser st₀ hT hser _ st hE) (fun r hr => ?_)
      exact ih _ _ _ (hE.trans (SerializeSubobjects_extends ser hser _ st r hr))
    · exact ih _ _ _ hE

theorem SerializeObjectProperties_ends {C : Prop} (c : UPropertySerializer)
    (ser : FSession → Option ObjectId → Run (Int × FSession)) (st₀ : FSession)
    (hT : ∀ st' o, Extends st₀ st' → Ends C (ser st' o))
    (hser : ∀ st o r, ser st o = Run.done r → Extends st r.2)
    (st : FSession) (hE : Extends st₀ st) (Object : ObjectId) :
    Ends C (SerializeObjectProperties c ser st Object) := by
  unfold SerializeObjectProperties SerializeObjectPropertiesIntoObject
  exact Ends.bind (SerializePropertyLink_ends c ser st₀ hT hser Object _ st _ _ hE)
    (fun r _ => Ends.done _ _)

theorem SerializeExportedObject_ends {C : Prop} (c : UPropertySerializer)
    (ser : FSession → Option ObjectId → Run (Int × FSession)) (st₀ : FSession)
    (hT : ∀ st' o, Extends st₀ st' → Ends C (ser st' o))
    (hser : ∀ st o r, ser st o = Run.done r → Extends st r.2)
    (st : FSession) (hE : Extends st₀ st) (ResultJson : Int) (Object : ObjectId)
    (hIndex : TMap.Contains st.SerializedObjects ResultJson = true)
    (hCheck : C → (GetObject st Object).Outer = none →
      (GetObject st Object).Class = st.PackageClass) :
    Ends C (SerializeExportedObject c ser st ResultJson Object) := by
  unfold SerializeExportedObject
  refine Ends.bind (hT _ _ hE) (fun rc hrc => ?_)
  have hRc : Extends st rc.2 := hser _ _ _ hrc
  have h1 : Extends st (SetRecordField rc.2 ResultJson "ObjectClass" (FJsonValue.Number rc.1)) :=
    hRc.thenSet ResultJson _ _ hIndex
  cases hOuter : (GetObject st Object).Outer with
  | none =>
    dsimp only
    split
    · exact Ends.done _ _
    · rename_i hne
      exact Ends.fatal _ (fun hC => hne (hCheck hC hOuter))
  | some OuterObject =>
    dsimp only
    refine Ends.bind (hT _ _ (hE.trans h1)) (fun ro hro => ?_)
    have hRo : Extends st ro.2 := h1.trans (hser _ _ _ hro)
    have h4 : Extends st (SetRecordField (SetRecordField (SetRecordField ro.2 ResultJson "Outer"
        (FJsonValue.Number ro.1)) ResultJson "ObjectName"
        (FJsonValue.String (GetObject st Object).Name)) ResultJson "ObjectFlags"
        (FJsonValue.Number (((GetObject st Object).Flags &&& st.RF_Load : Nat) : Int))) :=
      ((hRo.thenSet ResultJson _ _ hIndex).thenSet ResultJson _ _ hIndex).thenSet ResultJson _ _
        hIndex
    exact Ends.bind (SerializeObjectProperties_ends c ser st₀ hT hser _
      (hE.trans (h4.trans (Extends_NoteNativeClass _ _))) Object) (fun rp _ => Ends.done _ _)

theorem SerializeObjectBody_ends (c : UPropertySerializer)
    (ser : FSession → Option ObjectId → Run (Int × FSession)) (n : Nat)
    (hT : ∀ st' o, Unindexed st' < n → Ends (PackageCheckPasses st' = true) (ser st' o))
    (hser : ∀ st o r, ser st o = Run.done r → Extends st r.2)
    (st : FSession) (hst : Unindexed st ≤ n) (Object : Option ObjectId) :
    Ends (PackageCheckPasses st = true) (SerializeObjectBody c ser st Object) := by
  cases Object with
  | none => exact Ends.done _ _
  | some x =>
    unfold SerializeObjectBody
    dsimp only
    cases hFind : TMap.Find st.ObjectIndices x with
    | some ObjectIndex => exact Ends.done _ _
    | none =>
      dsimp only
      have hRecA : TMap.Contains (AllocateObject st x).SerializedObjects
          (st.LastObjectIndex : Int) = true := by
        simp [AllocateObject, TMap.Contains, TMap.Find_Add_self]
      have hE0 : ∀ T : String, Extends st (SetRecordField (AllocateObject st x)
          (st.LastObjectIndex : Int) "Type" (FJsonValue.String T)) :=
        fun T => (Extends_AllocateObject st x hFind).trans
          (Extends_SetRecordField _ _ _ _ hRecA)
      have hIdx0 : ∀ T : String, TMap.Find (SetRecordField (AllocateObject st x)
          (st.LastObjectIndex : Int) "Type" (FJsonValue.String T)).ObjectIndices x
          = some (st.LastObjectIndex : Int) := by
        intro T
        simp [SetRecordField, AllocateObject, TMap.Find_Add_self]
      have hRec0 : ∀ T : String, TMap.Contains (SetRecordField (AllocateObject st x)
          (st.LastObjectIndex : Int) "Type" (FJsonValue.String T)).SerializedObjects
          (st.LastObjectIndex : Int) = true :=
        fun T => (Extends_SetRecordField _ _ _ _ hRecA).records _ hRecA
      have hT' : x ∈ Traversable st → ∀ (T : String) st' o,
          Extends (SetRecordField (AllocateObject st x) (st.LastObjectIndex : Int) "Type"
            (FJsonValue.String T)) st' →
          Ends (PackageCheckPasses st = true) (ser st' o) := by
        intro hx T st' o hE'
        have hlt := Unindexed_lt (hE0 T) hx hFind (hIdx0 T)
        refine (hT st' o (lt_of_le_of_lt (Unindexed_mono hE') (lt_of_lt_of_le hlt hst))).mono ?_
        intro hC
        rw [PackageCheckPasses_of_Extends ((hE0 T).trans hE')]
        exact hC
      by_cases hImp : some (GetOutermost st x) ≠ st.SourcePackage
      · rw [if_pos hImp]
        refine Ends.bind ?_ (fun _ _ => Ends.done _ _)
        cases hOuter : (GetObject (SetRecordField (AllocateObject st x)
            (st.LastObjectIndex : Int) "Type" (FJsonValue.String "Import")) x).Outer with
        | none =>
          unfold SerializeImportedObject
          simp only [hOuter]
          exact Ends.done _ _
        | some p =>
          have hx : x ∈ Traversable st := by
            have := lt_length_of_Outer hOuter
            rw [(hE0 "Import").objects] at this
            exact List.mem_append_left _ (List.mem_range.mpr this)
          exact SerializeImportedObject_ends ser _ (hT' hx "Import") _ (Extends.refl _) _ x
            (hRec0 "Import")
      · rw [if_neg hImp]
        have hExport : some (GetOutermost st x) = st.SourcePackage := not_not.mp hImp
        have hx : x ∈ Traversable st := mem_Traversable_of_export hExport
        cases TMap.Find st.ObjectMarks x with
        | some ObjectMark => exact Ends.done _ _
        | none =>
          dsimp only
          refine Ends.bind ?_ (fun _ _ => Ends.done _ _)
          refine SerializeExportedObject_ends c ser _ (hT' hx "Export") hser _ (Extends.refl _) _
            x (hRec0 "Export") ?_
          intro hC hOuter
          have hC' : PackageCheckPasses (SetRecordField (AllocateObject st x)
              (st.LastObjectIndex : Int) "Type" (FJsonValue.String "Export")) = true := by
            rw [PackageCheckPasses_of_Extends (hE0 "Export")]
            exact hC
          refine PackageCheckPasses_class hC' ?_ hOuter
          simp only [GetOutermost, (hE0 "Export").objects, (hE0 "Export").sourcePackage]
          exact hExport

theorem SerializeObject_ends (c : UPropertySerializer) (n : Nat) :
    ∀ st Object, Unindexed st ≤ n →
      Ends (PackageCheckPasses st = true) (SerializeObject c (n + 1) st Object) := by
  induction n with
  | zero =>
    intro st Object hst
    exact SerializeObjectBody_ends c (SerializeObject c 0) 0
      (fun st' o h => absurd h (Nat.not_lt_zero _))
      (fun st o r h => (SerializeObject_spec c 0 st o r h).1) st hst Object
  | succ n ih =>
    intro st Object hst
    exact SerializeObjectBody_ends c (SerializeObject c (n + 1)) (n + 1)
      (fun st' o h => ih st' o (Nat.lt_succ_iff.mp h))
      (fun st o r h => (SerializeObject_spec c (n + 1) st o r h).1) st hst Object

theorem Unindexed_le (st : FSession) : Unindexed st ≤ st.Objects.length + 1 := by
  unfold Unindexed
  refine (List.length_filter_le _ _).trans ?_
  unfold Traversable
  rw [List.length_append, List.length_range]
  cases st.SourcePackage <;> simp

/-- C31: with a recursion budget above the number of heap objects plus one, `SerializeObject`
never exhausts the budget, whatever the references between the objects (cycles through
properties and through outers included) and whatever the codec: every call that goes on to
the class, the outer or the properties of an object has entered that object in the index table
before, which lowers the number of traversable objects that are not indexed. The call
completes when the check of line 456 passes (an object of the source package without outer
has the class `UPackage::StaticClass()`). -/
theorem SerializeObject_terminates (c : UPropertySerializer) (fuel : Nat) (st : FSession)
    (Object : Option ObjectId) (hFuel : st.Objects.length + 1 < fuel) :
    SerializeObject c fuel st Object ≠ Run.outOfFuel ∧
      (PackageCheckPasses st = true → ∃ r, SerializeObject c fuel st Object = Run.done r) ∧
      (∀ x, x ∈ Traversable st → TMap.Find st.ObjectIndices x = none →
        Unindexed (AllocateObject st x) < Unindexed st) := by
  obtain ⟨n, rfl⟩ : ∃ n, fuel = n + 1 := ⟨fuel - 1, by omega⟩
  have hEnds := SerializeObject_ends c n st Object ((Unindexed_le st).trans (by omega))
  refine ⟨hEnds.1, hEnds.2, fun x hx hNew => ?_⟩
  exact Unindexed_lt (Extends_AllocateObject st x hNew) hx hNew
    (TMap.Find_Add_self st.ObjectIndices x (st.LastObjectIndex : Int))

theorem SerializeObject_terminates_witness :
    CyclicHeapSession.Objects.length + 1 < 9 ∧ PackageCheckPasses CyclicHeapSession = true ∧
      (GetObject CyclicHeapSession 5).Values = [("next", PropertyValue.Object (some 6))] ∧
      (GetObject CyclicHeapSession 6).Values = [("next", PropertyValue.Object (some 5))] ∧
      (GetObject CyclicHeapSession 6).Outer = some 5 ∧
      ∃ r, SerializeObject ReferenceCodec 9 CyclicHeapSession (some 5) = Run.done r :=
  ⟨by decide, by decide, by decide, by decide, by decide,
    (SerializeObject_terminates ReferenceCodec 9 CyclicHeapSession (some 5) (by decide)).2.1
      (by decide)⟩

end SML
